import Mathlib

/-!
# gomisc/comparer: a verification development

Shallow embedding of `cmp.go` (the reflective struct walker, its deduplicating
consumer and the option builders) and of `comparer.go` (the option-accumulating
comparator and its two terminal operations).

Go types are modelled by `GoType`; struct declarations live in a type
environment so that type graphs may be cyclic.  A run of the walker is bounded
by a fuel that counts the nesting depth of `walkMessages` calls.
-/

namespace Comparer

/-! ## Go types as seen through `reflect` -/

/-- Kinds of Go types told apart by `reflect.Kind`. -/
inductive Kind
  | bool | int | string | struct | ptr | slice | map | interface
  deriving DecidableEq, Repr

/-- Identity of a defined (named) type: the import path of its package, the
package name and the type name.  `reflect.Type.String` prints only the package
name and the type name. -/
structure TypeName where
  pkgPath : String
  pkgName : String
  name : String
  deriving DecidableEq, Repr

/-- Go types.  `named n` is a defined struct type whose fields are looked up in
the type environment; the other constructors are type literals.  A defined type
that is not a struct is written as its underlying literal: the walker reads of a
field type only its kind, its element type and its fields. -/
inductive GoType
  | bool
  | int
  | string
  | named (n : TypeName)
  | ptr (elem : GoType)
  | slice (elem : GoType)
  | map (key elem : GoType)
  | interface
  deriving DecidableEq, Repr

/-- A struct field: its name, its type and whether the name is exported (in Go
this is decided by the first letter of the name). -/
structure Field where
  name : String
  typ : GoType
  exported : Bool
  deriving DecidableEq, Repr

/-- Struct declarations of the program: the field list of every defined struct type. -/
abbrev TypeEnv := TypeName → List Field

/-- Result of `reflect.Type.Kind`. -/
def GoType.kind : GoType → Kind
  | .bool => .bool
  | .int => .int
  | .string => .string
  | .named _ => .struct
  | .ptr _ => .ptr
  | .slice _ => .slice
  | .map _ _ => .map
  | .interface => .interface

/-- Result of `reflect.Type.Elem`, which exists for pointers, slices and maps only. -/
def GoType.elem : GoType → Option GoType
  | .ptr e => some e
  | .slice e => some e
  | .map _ e => some e
  | _ => none

/-- Result of `reflect.Type.String`: defined types print as `pkgName.Name`. -/
def GoType.String : GoType → String
  | .bool => "bool"
  | .int => "int"
  | .string => "string"
  | .named n => n.pkgName ++ "." ++ n.name
  | .ptr e => "*" ++ e.String
  | .slice e => "[]" ++ e.String
  | .map k e => "map[" ++ k.String ++ "]" ++ e.String
  | .interface => "interface \x7b\x7d"

/-- Fields of a type (`reflect.Type.NumField` / `Field`), defined for structs only. -/
def GoType.fields (env : TypeEnv) : GoType → Option (List Field)
  | .named n => some (env n)
  | _ => none

/-! ## Go values -/

/-- Go values.  `zero t` is `reflect.Zero(t)`: the zero value of `t` (the nil
pointer, nil slice, nil map, nil interface, the struct of zero fields, `0`,
`false`, `""`).  The other constructors are values given explicitly; `ptr`,
`slice` and `iface` are non-nil.  Maps occur as nil maps only. -/
inductive Value
  | zero (t : GoType)
  | bool (b : Bool)
  | int (n : Int)
  | str (s : String)
  | struct (n : TypeName) (fields : List Value)
  | ptr (elem : GoType) (target : Value)
  | slice (elem : GoType) (elems : List Value)
  | iface (dyn : Value)

/-- A value of static type `interface{}`, as passed to the functions of the
package: `none` is the nil interface, `some v` holds the dynamic value `v`. -/
abbrev Iface := Option Value

/-- Dynamic type of a value (`reflect.TypeOf` on a non-nil interface). -/
def Value.typeOf : Value → GoType
  | .zero t => t
  | .bool _ => .bool
  | .int _ => .int
  | .str _ => .string
  | .struct n _ => .named n
  | .ptr e _ => .ptr e
  | .slice e _ => .slice e
  | .iface _ => .interface

/-- Result of `reflect.Value.Interface`: a value of interface kind is unwrapped
to the value it holds, the nil interface value gives the nil interface. -/
def Value.toInterface : Value → Iface
  | .zero .interface => none
  | .iface d => some d
  | v => some v

/-! ## Outcomes of a run -/

/-- How a call ends: it returns a value, it panics, or the model ran out of fuel
(the call was still recursing at the depth bound). -/
inductive Outcome (α : Type)
  | returned (a : α)
  | panicked (msg : String)
  | outOfFuel
  deriving DecidableEq

/-- Sequencing of outcomes: the first failure wins. -/
def Outcome.bind {α β : Type} : Outcome α → (α → Outcome β) → Outcome β
  | .returned a, f => f a
  | .panicked m, _ => .panicked m
  | .outOfFuel, _ => .outOfFuel

/-- How a run of the walker ends. -/
inductive Status
  | returned
  | panicked (msg : String)
  | outOfFuel
  deriving DecidableEq, Repr

/-- A run of the walker: the items sent on the channel so far and how the run ended. -/
structure Run where
  emitted : List Iface
  status : Status

/-! ## `cmp.go`: the walker -/

/-- What `walkMessages` reads of a `reflect.Value` standing for a field: its
type and whether `CanInterface` holds. -/
structure FieldVal where
  typ : GoType
  canInterface : Bool
  deriving DecidableEq, Repr

/-- Model of `v.Field(i)` for `v := reflect.ValueOf(m)`: the value of an
unexported field carries the read-only flag, so `CanInterface` is false for it. -/
def reflectField (f : Field) : FieldVal := ⟨f.typ, f.exported⟩

/-- Model of `reflect.Indirect(reflect.New(t))`: a fresh zero value of type `t`,
which can always be interfaced. -/
def reflectNewIndirect (t : GoType) : FieldVal := ⟨t, true⟩

/-- Model of `fv.Interface()` for a value obtained from `reflectNewIndirect`. -/
def FieldVal.Interface (fv : FieldVal) : Iface := (Value.zero fv.typ).toInterface

/-- Lines 94-101 of `walkMessages`: a field that is a slice of pointers to
structs is replaced by a fresh value of the slice's element type. -/
def sliceStep (f : FieldVal) : FieldVal :=
  match f.typ with
  | .slice (.ptr e) => if e.kind = .struct then reflectNewIndirect (.ptr e) else f
  | _ => f

/-- Lines 104-108 of `walkMessages`: a pointer that can be interfaced queues the
zero value of its element type. -/
def ptrStep (f : FieldVal) : List Iface :=
  match f.typ with
  | .ptr e => if f.canInterface then [(reflectNewIndirect e).Interface] else []
  | _ => []

/-- Lines 111-117 of `walkMessages`: a struct with at least one field queues the
zero value of its type. -/
def structStep (env : TypeEnv) (f : FieldVal) : List Iface :=
  match f.typ.fields env with
  | some fs => if fs.length > 0 then [(reflectNewIndirect f.typ).Interface] else []
  | none => []

/-- Children queued by one iteration of the field loop (lines 92-117). -/
def fieldChildren (env : TypeEnv) (fld : Field) : List Iface :=
  let f := sliceStep (reflectField fld)
  ptrStep f ++ structStep env f

/-- The field loop of `walkMessages` (lines 91-118): the children of all fields,
in field order. -/
def collectChildren (env : TypeEnv) : List Field → List Iface
  | [] => []
  | fld :: rest => fieldChildren env fld ++ collectChildren env rest

/-- The `for _, m := range src` loop of `walkMessages`, with the recursive call
of line 120 given as `recur`.  Each `m` is sent on the channel first; then its
type is inspected (panicking for the nil interface and for non-structs), its
children are collected and walked, and only then the next `m` is taken. -/
def walkLoop (env : TypeEnv) (recur : List Iface → Run) : List Iface → Run
  | [] => ⟨[], .returned⟩
  | m :: rest =>
    match m with
    | none => ⟨[m], .panicked "reflect: call of reflect.Value.Type on zero Value"⟩
    | some v =>
      match v.typeOf.fields env with
      | none => ⟨[m], .panicked "reflect: NumField of non-struct type"⟩
      | some fs =>
        let sub := recur (collectChildren env fs)
        match sub.status with
        | .returned =>
          let tail := walkLoop env recur rest
          ⟨m :: sub.emitted ++ tail.emitted, tail.status⟩
        | s => ⟨m :: sub.emitted, s⟩

/-- Model of `walkMessages(ch, src...)`; `fuel` bounds the nesting depth of the
recursive calls.  A call with no arguments returns at once. -/
def walkMessages (env : TypeEnv) : Nat → List Iface → Run
  | _, [] => ⟨[], .returned⟩
  | 0, _ :: _ => ⟨[], .outOfFuel⟩
  | fuel + 1, m :: rest => walkLoop env (walkMessages env fuel) (m :: rest)

/-- The consumer loop of `getStructItemsRecursiveOf` (lines 59-65) over the
items received from the channel; `filter` is the key set of the map. -/
def dedupLoop : List Iface → List Iface → List String → Outcome (List Iface)
  | [], items, _ => .returned items
  | none :: _, _, _ => .panicked "invalid memory address or nil pointer dereference"
  | some v :: rest, items, filter =>
    let typeStr := v.typeOf.String
    if typeStr ∈ filter then dedupLoop rest items filter
    else dedupLoop rest (items ++ [some v]) (typeStr :: filter)

/-- Model of `findMessageWithUnexportedFields(obj...)`: the channel fed by the
goroutine running `walkMessages`, as the sequence of the items sent and the way
the goroutine ended. -/
def findMessageWithUnexportedFields (env : TypeEnv) (fuel : Nat) (obj : List Iface) : Run :=
  walkMessages env fuel obj

/-- Model of `getStructItemsRecursiveOf(i...)`: the walker's stream, filtered by
the consumer loop.  The function returns only once the walker has closed the
channel. -/
def getStructItemsRecursiveOf (env : TypeEnv) (fuel : Nat) (i : List Iface) :
    Outcome (List Iface) :=
  let run := findMessageWithUnexportedFields env fuel i
  match run.status with
  | .returned => dedupLoop run.emitted [] []
  | .panicked msg => .panicked msg
  | .outOfFuel => .outOfFuel

/-! ## Reference definitions and example programs -/

/-- Dedup key of a stream item: the printed name of its type (none for the nil interface). -/
def typeKey (i : Iface) : Option String := i.map (fun v => v.typeOf.String)

/-- Stated from the specification: the stream with every item removed whose type
key already occurred earlier; `seen` is the part of the stream already passed. -/
def removeSeen (seen : List Iface) : List Iface → List Iface
  | [] => []
  | i :: rest =>
    if typeKey i ∈ seen.map typeKey then removeSeen (seen ++ [i]) rest
    else i :: removeSeen (seen ++ [i]) rest

/-- A defined type of the example package. -/
def exampleType (name : String) : TypeName := ⟨"example.com/demo", "demo", name⟩

/-- The program `type A struct { B *B }; type B struct { A *A }`. -/
def cycleEnv : TypeEnv := fun n =>
  if n = exampleType "A" then [⟨"B", .ptr (.named (exampleType "B")), true⟩]
  else if n = exampleType "B" then [⟨"A", .ptr (.named (exampleType "A")), true⟩]
  else []

/-- The seed `A{}` of the cyclic program. -/
def cycleSeed : Iface := some (.zero (.named (exampleType "A")))

/-- An item is a struct value: a non-nil interface whose dynamic type is a
defined struct type. -/
def IsStructItem (i : Iface) : Prop := ∃ v n, i = some v ∧ v.typeOf = .named n

/-- Runtime type of an item (none for the nil interface). -/
def itemType (i : Iface) : Option GoType := i.map Value.typeOf

/-- Stated from the specification: the field leads to struct type `k` when it is
a direct struct field with at least one field, a pointer-to-struct field or a
slice-of-pointer-to-struct field, whatever its visibility. -/
inductive LeadsTo (env : TypeEnv) (fld : Field) (k : TypeName) : Prop
  | direct (ht : fld.typ = .named k) (hn : 0 < (env k).length)
  | pointer (ht : fld.typ = .ptr (.named k))
  | slice (ht : fld.typ = .slice (.ptr (.named k)))

/-- The field kinds the walker follows: as `LeadsTo`, except that a
pointer-to-struct field is followed only when the field is exported. -/
inductive Follows (env : TypeEnv) (fld : Field) (k : TypeName) : Prop
  | direct (ht : fld.typ = .named k) (hn : 0 < (env k).length)
  | pointer (ht : fld.typ = .ptr (.named k)) (he : fld.exported = true)
  | slice (ht : fld.typ = .slice (.ptr (.named k)))

/-- Struct type `n` has a field satisfying `rule` towards struct type `k`. -/
def Edge (env : TypeEnv) (rule : TypeEnv → Field → TypeName → Prop) (n k : TypeName) : Prop :=
  ∃ fld ∈ env n, rule env fld k

/-- Struct type `m` is reachable from the item `s` along fields satisfying `rule`
(in zero or more steps). -/
def ReachFrom (env : TypeEnv) (rule : TypeEnv → Field → TypeName → Prop) (s : Iface)
    (m : TypeName) : Prop :=
  ∃ v n, s = some v ∧ v.typeOf = .named n ∧ Relation.ReflTransGen (Edge env rule) n m

/-- Every exported pointer field of struct type `n` points to a struct type. -/
def PointersToStructs (env : TypeEnv) (n : TypeName) : Prop :=
  ∀ fld ∈ env n, ∀ e, fld.typ = .ptr e → fld.exported = true → ∃ k, e = .named k

/-- The zero value of the example struct type `name`, as an item. -/
def zeroOf (name : String) : Iface := some (.zero (.named (exampleType name)))

/-- The program
`type S1 struct { C C; p *D; l []*D; n *int }`, `type C struct { X int }`,
`type D struct { C *C }`, `type S2 struct {}`. -/
def demoEnv : TypeEnv := fun n =>
  if n = exampleType "S1" then
    [⟨"C", .named (exampleType "C"), true⟩, ⟨"p", .ptr (.named (exampleType "D")), false⟩,
      ⟨"l", .slice (.ptr (.named (exampleType "D"))), false⟩, ⟨"n", .ptr .int, false⟩]
  else if n = exampleType "C" then [⟨"X", .int, true⟩]
  else if n = exampleType "D" then [⟨"C", .ptr (.named (exampleType "C")), true⟩]
  else []

/-- Depth of the example struct types of `demoEnv` in its type graph. -/
def demoRank (n : TypeName) : Nat :=
  if n = exampleType "S1" then 2 else if n = exampleType "D" then 1 else 0

/-- The program `type A struct { b *B }`, `type B struct { X int }`: the only
way from `A` to `B` is an unexported pointer field. -/
def hiddenEnv : TypeEnv := fun n =>
  if n = exampleType "A" then [⟨"b", .ptr (.named (exampleType "B")), false⟩]
  else if n = exampleType "B" then [⟨"X", .int, true⟩]
  else []

/-- The run returned and sent exactly the struct types reachable from `src`:
every item sent is a struct value of a type reachable from some item of `src`
along followed fields, and every such type was sent at least once. -/
def SendsReachable (env : TypeEnv) (src : List Iface) (run : Run) : Prop :=
  run.status = .returned ∧
  (∀ i ∈ run.emitted, ∃ m, itemType i = some (.named m) ∧ ∃ s ∈ src, ReachFrom env Follows s m) ∧
  (∀ s ∈ src, ∀ m, ReachFrom env Follows s m → ∃ i ∈ run.emitted, itemType i = some (.named m))

/-- Every item of `src` is a struct value whose type lies in the set `S` and has
rank below `bound`. -/
def SeedsBelow (S : TypeName → Prop) (rank : TypeName → Nat) (bound : Nat)
    (src : List Iface) : Prop :=
  ∀ s ∈ src, ∃ v n, s = some v ∧ v.typeOf = .named n ∧ S n ∧ rank n < bound

/-! ## `cmp.go`: the options built by the package -/

/-- Result of `reflect.Value.Len` for a value of slice kind. -/
def Value.Len : Value → Nat
  | .slice _ elems => elems.length
  | _ => 0

/-- Result of `reflect.Value.IsNil` for a value of slice, pointer, map or
interface kind: among these only the zero value is nil. -/
def Value.IsNil : Value → Bool
  | .zero _ => true
  | _ => false

/-- The type `LessSlices` of `cmp.go`: an ordering function on `interface{}` values
(a pure, total function in this model). -/
abbrev LessSlices := Iface → Iface → Bool

/-- Options of the comparison library, by the constructor call that made them.
Functions handed to the library take and return `interface{}` values. -/
inductive CmpOption
  | Ignore
  | Comparer (f : Iface → Iface → Bool)
  | Transformer (name : String) (f : Iface → Outcome Iface)
  | FilterValues (f : Iface → Iface → Bool) (opt : CmpOption)
  | SortSlices (less : Iface → Iface → Bool)
  | IgnoreUnexported (typs : List Iface)
  | AllowUnexported (typs : List Iface)
  | IgnoreFields (typ : Iface) (names : List String)
  | Reporter (rep : Nat)

/-- The value filter of `SlicesCompareOption` (lines 17-30 of `cmp.go`). -/
def slicesFilter (x y : Iface) : Bool :=
  match x, y with
  | some xv, some yv =>
    xv.typeOf.kind == .slice && yv.typeOf.kind == .slice &&
      xv.Len == 0 && yv.Len == 0 && (xv.IsNil != yv.IsNil)
  | _, _ => false

/-- The transformer function of `SlicesCompareOption` (lines 31-33 of `cmp.go`):
`reflect.Zero(reflect.TypeOf(in)).Interface()`. -/
def nilSlice (inp : Iface) : Outcome Iface :=
  match inp with
  | none => .panicked "reflect: Zero(nil)"
  | some v => .returned (Value.zero v.typeOf).toInterface

/-- Model of `SlicesCompareOption()`. -/
def SlicesCompareOption : CmpOption :=
  .FilterValues slicesFilter (.Transformer "nilSlice" nilSlice)

/-- Model of `SortSlicesOption(lessSlices)`: `cmpopts.SortSlices` of a function that
forwards to `lessSlices`. -/
def SortSlicesOption (lessSlices : LessSlices) : CmpOption :=
  .SortSlices (fun sx sy => lessSlices sx sy)

/-- Whether an `interface{}` value holds a (non-pointer) struct. -/
def isStructValue : Iface → Bool
  | some v => v.typeOf.kind == .struct
  | none => false

/-- Model of `cmpopts.IgnoreUnexported(typs...)`, which rejects an argument that is
not a struct. -/
def cmpoptsIgnoreUnexported (typs : List Iface) : Outcome CmpOption :=
  if typs.all isStructValue then .returned (.IgnoreUnexported typs)
  else .panicked "must be a non-pointer struct"

/-- Model of `cmp.AllowUnexported(typs...)`, which rejects an argument that is not
a struct. -/
def cmpAllowUnexported (typs : List Iface) : Outcome CmpOption :=
  if typs.all isStructValue then .returned (.AllowUnexported typs)
  else .panicked "invalid struct type"

/-- Model of `BuildIgnoreUnexported(i...)`. -/
def BuildIgnoreUnexported (env : TypeEnv) (fuel : Nat) (i : List Iface) : Outcome CmpOption :=
  (getStructItemsRecursiveOf env fuel i).bind cmpoptsIgnoreUnexported

/-- Model of `BuildAllowUnexported(i...)`. -/
def BuildAllowUnexported (env : TypeEnv) (fuel : Nat) (i : List Iface) : Outcome CmpOption :=
  (getStructItemsRecursiveOf env fuel i).bind cmpAllowUnexported

/-! ## `comparer.go` -/

/-- The comparison library as the package calls it: the two entry points
`cmp.Equal` and `cmp.Diff`, and whether `cmpopts.IgnoreFields` accepts a type
and a list of field names. -/
structure CmpLib where
  Equal : Iface → Iface → List CmpOption → Outcome Bool
  Diff : Iface → Iface → List CmpOption → Outcome String
  acceptsFields : Iface → List String → Bool

/-- A call of an entry point of the comparison library, with its arguments. -/
inductive EngineCall
  | Equal (x y : Iface) (opts : List CmpOption)
  | Diff (x y : Iface) (opts : List CmpOption)

/-- Result of a terminal operation together with the library calls it made, in order. -/
structure Traced (α : Type) where
  calls : List EngineCall
  result : Outcome α

/-- Model of `reflect.ValueOf`: the nil interface gives the zero `reflect.Value`
(here `none`). -/
def reflectValueOf (x : Iface) : Option Value := x

/-- Model of `reflect.Value.CanInterface`: it panics on the zero `reflect.Value`;
a value obtained from `reflect.ValueOf` never carries the read-only flag. -/
def CanInterface : Option Value → Outcome Bool
  | none => .panicked "reflect: call of reflect.Value.CanInterface on zero Value"
  | some _ => .returned true

/-- Model of `objectsEqual(x, y, opts...)` (lines 105-117 of `comparer.go`). -/
def objectsEqual (L : CmpLib) (x y : Iface) (opts : List CmpOption) : Traced Bool :=
  let vx := reflectValueOf x
  let vy := reflectValueOf y
  match CanInterface vx with
  | .panicked msg => ⟨[], .panicked msg⟩
  | .outOfFuel => ⟨[], .outOfFuel⟩
  | .returned cx =>
    if !cx then ⟨[], .returned false⟩
    else
      match CanInterface vy with
      | .panicked msg => ⟨[], .panicked msg⟩
      | .outOfFuel => ⟨[], .outOfFuel⟩
      | .returned cy =>
        if !cy then ⟨[], .returned false⟩
        else if vx.map Value.typeOf ≠ vy.map Value.typeOf then ⟨[], .returned false⟩
        else ⟨[.Equal x y opts], L.Equal x y opts⟩

/-- The backing array of a `[]cmp.Option`: its capacity and the slots written so
far, from index 0 on; the slots from `elems.length` up to `cap` are still nil. -/
structure BackingArray where
  cap : Nat
  elems : List CmpOption

/-- A `[]cmp.Option` value: the backing array it points into, the offset of its
first element, its length and its capacity. -/
structure Slice where
  arr : Nat
  off : Nat
  len : Nat
  cap : Nat
  deriving DecidableEq, Repr

/-- State of an `objectsComparer`: the slice held in its field `opts`. -/
structure objectsComparer where
  opts : Slice

/-- The memory of the program as far as the package is concerned: the backing
arrays of option slices, the comparators allocated so far (a `*objectsComparer`
is an index into them), and the capacity the runtime gives to the array that
`append` allocates for a wanted length. -/
structure Heap where
  arrays : List BackingArray
  comparers : List objectsComparer
  grow : Nat → Nat

/-- The elements of a slice. -/
def Heap.read (h : Heap) (s : Slice) : List CmpOption :=
  match h.arrays[s.arr]? with
  | some a => (a.elems.drop s.off).take s.len
  | none => []

/-- Model of `append(s, o)`: when the length of the slice is below its capacity
the element is written into the backing array right after the slice (whatever
shares the array sees the write) and the slice grows by one; otherwise a new
array holding the elements of the slice and `o` is allocated. -/
def Heap.append (h : Heap) (s : Slice) (o : CmpOption) : Heap × Slice :=
  let newCap := max (s.len + 1) (h.grow (s.len + 1))
  let fresh : BackingArray := ⟨newCap, h.read s ++ [o]⟩
  match h.arrays[s.arr]? with
  | some a =>
    if s.len < s.cap then
      let written : BackingArray :=
        ⟨a.cap, a.elems.take (s.off + s.len) ++ o :: a.elems.drop (s.off + s.len + 1)⟩
      (⟨h.arrays.set s.arr written, h.comparers, h.grow⟩, ⟨s.arr, s.off, s.len + 1, s.cap⟩)
    else
      (⟨h.arrays ++ [fresh], h.comparers, h.grow⟩, ⟨h.arrays.length, 0, s.len + 1, newCap⟩)
  | none =>
    (⟨h.arrays ++ [fresh], h.comparers, h.grow⟩, ⟨h.arrays.length, 0, s.len + 1, newCap⟩)

/-- The slice a call site makes for the variadic arguments `a1, ..., an` written
out one by one: a fresh array of exactly that length. -/
def Heap.variadic (h : Heap) (args : List CmpOption) : Heap × Slice :=
  (⟨h.arrays ++ [⟨args.length, args⟩], h.comparers, h.grow⟩,
    ⟨h.arrays.length, 0, args.length, args.length⟩)

/-- The slice is well formed: its length is within its capacity, its capacity
within the backing array, and its elements within the written part of the
array. -/
def Heap.ValidSlice (h : Heap) (s : Slice) : Prop :=
  ∃ a, h.arrays[s.arr]? = some a ∧ s.len ≤ s.cap ∧ s.off + s.cap ≤ a.cap ∧
    s.off + s.len ≤ a.elems.length ∧ a.elems.length ≤ a.cap

/-- Model of `NewObjectsComparer(opts...)`: allocates a comparator that keeps the
slice `opts` it was handed (no copy is made) and returns the pointer to it. -/
def NewObjectsComparer (h : Heap) (opts : Slice) : Heap × Nat :=
  (⟨h.arrays, h.comparers ++ [⟨opts⟩], h.grow⟩, h.comparers.length)

/-- The call `NewObjectsComparer(a1, ..., an)` with the options written out. -/
def newComparer (h : Heap) (args : List CmpOption) : Heap × Nat :=
  NewObjectsComparer (h.variadic args).1 (h.variadic args).2

/-- The option list of the comparator `oc`: the elements of its slice. -/
def Heap.optsOf (h : Heap) (oc : Nat) : Option (List CmpOption) :=
  (h.comparers[oc]?).map fun c => h.read c.opts

/-- The comparator `oc` exists and its slice is valid and holds `cur`. -/
def Heap.Holds (h : Heap) (oc : Nat) (cur : List CmpOption) : Prop :=
  ∃ c, h.comparers[oc]? = some c ∧ h.ValidSlice c.opts ∧ h.read c.opts = cur

/-- Every comparator holds a valid slice. -/
def Heap.WF (h : Heap) : Prop :=
  ∀ (t : Nat) (d : objectsComparer), h.comparers[t]? = some d → h.ValidSlice d.opts

/-- An empty memory, whose `append` doubles the wanted length. -/
def emptyHeap : Heap := ⟨[], [], fun n => 2 * n⟩

/-- The memory after `seed := make([]cmp.Option, 1, 4); seed[0] = cmp.Ignore()`:
one array of capacity 4 with one slot written. -/
def sharedSeedHeap : Heap := ⟨[⟨4, [.Ignore]⟩], [], fun n => 2 * n⟩

/-- The slice `seed` of `sharedSeedHeap`: length 1, capacity 4. -/
def sharedSeed : Slice := ⟨0, 0, 1, 4⟩

/-- The statement `oc.opts = append(oc.opts, o); return oc` shared by the
configuration methods. -/
def appendOption (h : Heap) (oc : Nat) (o : CmpOption) : Outcome (Heap × Nat) :=
  match h.comparers[oc]? with
  | none => .panicked "invalid memory address or nil pointer dereference"
  | some c =>
    let r := h.append c.opts o
    .returned (⟨r.1.arrays, r.1.comparers.set oc ⟨r.2⟩, r.1.grow⟩, oc)

/-- Model of `(*objectsComparer).WithIgnoreUnexportedOf`. -/
def WithIgnoreUnexportedOf (env : TypeEnv) (fuel : Nat) (h : Heap) (oc : Nat)
    (i : List Iface) : Outcome (Heap × Nat) :=
  (BuildIgnoreUnexported env fuel i).bind (appendOption h oc)

/-- Model of `(*objectsComparer).WithIgnoreEmptySlices`. -/
def WithIgnoreEmptySlices (h : Heap) (oc : Nat) : Outcome (Heap × Nat) :=
  appendOption h oc SlicesCompareOption

/-- Model of `(*objectsComparer).WithSortSlices`. -/
def WithSortSlices (h : Heap) (oc : Nat) (lessFunc : LessSlices) :
    Outcome (Heap × Nat) :=
  appendOption h oc (SortSlicesOption lessFunc)

/-- Model of `(*objectsComparer).WithAllowUnexportedOf`. -/
def WithAllowUnexportedOf (env : TypeEnv) (fuel : Nat) (h : Heap) (oc : Nat)
    (i : List Iface) : Outcome (Heap × Nat) :=
  (BuildAllowUnexported env fuel i).bind (appendOption h oc)

/-- Model of `cmpopts.IgnoreFields(typ, names...)`, which rejects a type and names
it cannot resolve. -/
def cmpoptsIgnoreFields (L : CmpLib) (typ : Iface) (names : List String) : Outcome CmpOption :=
  if L.acceptsFields typ names then .returned (.IgnoreFields typ names)
  else .panicked "cmpopts.IgnoreFields: invalid type or field name"

/-- Model of `(*objectsComparer).WithIgnoreFields`. -/
def WithIgnoreFields (L : CmpLib) (h : Heap) (oc : Nat) (typ : Iface) (names : List String) :
    Outcome (Heap × Nat) :=
  (cmpoptsIgnoreFields L typ names).bind (appendOption h oc)

/-- Model of `(*objectsComparer).WithCustomReporter`. -/
def WithCustomReporter (h : Heap) (oc : Nat) (rep : Nat) : Outcome (Heap × Nat) :=
  appendOption h oc (.Reporter rep)

/-- Model of `(*objectsComparer).ObjectsEqual`. -/
def ObjectsEqual (L : CmpLib) (h : Heap) (oc : Nat) (x y : Iface) : Traced Bool :=
  match h.comparers[oc]? with
  | none => ⟨[], .panicked "invalid memory address or nil pointer dereference"⟩
  | some c => objectsEqual L x y (h.read c.opts)

/-- Model of `(*objectsComparer).ObjectsDiff`. -/
def ObjectsDiff (L : CmpLib) (h : Heap) (oc : Nat) (x y : Iface) : Traced String :=
  match h.comparers[oc]? with
  | none => ⟨[], .panicked "invalid memory address or nil pointer dereference"⟩
  | some c =>
    let eq := objectsEqual L x y (h.read c.opts)
    match eq.result with
    | .returned true => ⟨eq.calls, .returned ""⟩
    | .returned false =>
      ⟨eq.calls ++ [.Diff x y (h.read c.opts)], L.Diff x y (h.read c.opts)⟩
    | .panicked msg => ⟨eq.calls, .panicked msg⟩
    | .outOfFuel => ⟨eq.calls, .outOfFuel⟩

/-- A configuration call on a comparator, with its arguments. -/
inductive ConfigCall
  | IgnoreUnexportedOf (i : List Iface)
  | AllowUnexportedOf (i : List Iface)
  | IgnoreEmptySlices
  | SortSlices (lessFunc : LessSlices)
  | IgnoreFields (typ : Iface) (names : List String)
  | CustomReporter (rep : Nat)

/-- The option a configuration call builds before appending it. -/
def ConfigCall.option (L : CmpLib) (env : TypeEnv) (fuel : Nat) : ConfigCall → Outcome CmpOption
  | .IgnoreUnexportedOf i => BuildIgnoreUnexported env fuel i
  | .AllowUnexportedOf i => BuildAllowUnexported env fuel i
  | .IgnoreEmptySlices => .returned SlicesCompareOption
  | .SortSlices lessFunc => .returned (SortSlicesOption lessFunc)
  | .IgnoreFields typ names => cmpoptsIgnoreFields L typ names
  | .CustomReporter rep => .returned (.Reporter rep)

/-- Performs one configuration call on the comparator `oc`. -/
def ConfigCall.run (L : CmpLib) (env : TypeEnv) (fuel : Nat) (h : Heap) (oc : Nat) :
    ConfigCall → Outcome (Heap × Nat)
  | .IgnoreUnexportedOf i => WithIgnoreUnexportedOf env fuel h oc i
  | .AllowUnexportedOf i => WithAllowUnexportedOf env fuel h oc i
  | .IgnoreEmptySlices => WithIgnoreEmptySlices h oc
  | .SortSlices lessFunc => WithSortSlices h oc lessFunc
  | .IgnoreFields typ names => WithIgnoreFields L h oc typ names
  | .CustomReporter rep => WithCustomReporter h oc rep

/-- Performs configuration calls one after the other, each on the comparator
named with it (the calls of a program on the comparators it holds, in the order
in which they are made). -/
def runSchedule (L : CmpLib) (env : TypeEnv) (fuel : Nat) :
    Heap → List (Nat × ConfigCall) → Outcome Heap
  | h, [] => .returned h
  | h, p :: rest =>
    (p.2.run L env fuel h p.1).bind (fun r => runSchedule L env fuel r.1 rest)

/-- A library whose entry points fail as soon as they are called: a result
obtained with it was obtained without the engine. -/
def strictLib : CmpLib :=
  ⟨fun _ _ _ => .panicked "cmp.Equal was called", fun _ _ _ => .panicked "cmp.Diff was called",
    fun _ _ => false⟩

/-! ## The comparison engine

The engine (`cmp.Equal`, `cmp.Diff`) is a library outside the package.  Its
first rule, the resolution of the options applicable at a node of the value
tree, decides how the options built by the package combine; it is modelled here
after the library's documented evaluation order.  The remaining rules (`Equal`
methods and the comparison by kind), the path filters of `cmpopts`, the slice
sorter and the diff renderer are parameters (`EngineRules`). -/

/-- A `reflect.Value` as the engine handles it: `val = none` is the invalid
value standing for a missing element; `canInterface` is false for the value of
an unexported field that no exporter allows. -/
structure RValue where
  val : Option Value
  canInterface : Bool

/-- The value is valid and can be interfaced. -/
def RValue.usable (v : RValue) : Bool := v.val.isSome && v.canInterface

/-- The value as handed to a function taking `interface{}`. -/
def RValue.toIface (v : RValue) : Iface :=
  match v.val with
  | some x => x.toInterface
  | none => none

/-- A returned `interface{}` as a `reflect.Value` of interface type. -/
def RValue.ofIface : Iface → RValue
  | some d => ⟨some (.iface d), true⟩
  | none => ⟨some (.zero .interface), true⟩

/-- Steps of the path from the root of the value tree to a node. -/
inductive PathStep
  | Root
  | StructField (name : String) (exported : Bool)
  | SliceIndex (ix iy : Option Nat)
  | MapIndex
  | Indirect
  | TypeAssertion
  | Transform (name : String)
  deriving DecidableEq, Repr

/-- Counters of a traversal (`diff.Result`): comparisons reported equal and unequal. -/
structure Result where
  NumSame : Nat
  NumDiff : Nat
  deriving DecidableEq, Repr

/-- Effect of `report(eq, 0)` on fresh counters. -/
def report (eq : Bool) : Result := if eq then ⟨1, 0⟩ else ⟨0, 1⟩

/-- Sum of two counters. -/
def Result.add (a b : Result) : Result := ⟨a.NumSame + b.NumSame, a.NumDiff + b.NumDiff⟩

/-- What the filtering of the options leaves at a node: an ignore, the
validator, one comparer, one transformer (with the position of its option in
the list, which stands for its identity), or several comparers and
transformers. -/
inductive Applicable
  | ignore
  | validator
  | comparer (f : Iface → Iface → Bool)
  | transformer (id : Nat) (name : String) (f : Iface → Outcome Iface)
  | conflict

/-- The parts of the engine and of `cmpopts` that the model takes as given. -/
structure EngineRules where
  pathFilter : CmpOption → List (PathStep × GoType) → Bool
  sortFilter : (Iface → Iface → Bool) → Iface → Iface → Bool
  sortFunc : (Iface → Iface → Bool) → Iface → Outcome Iface
  byKind : List (List Iface) → (PathStep → GoType → RValue → RValue → Outcome Result) →
    List (PathStep × GoType) → GoType → RValue → RValue → Outcome Result
  render : Iface → Iface → List CmpOption → String
  acceptsFields : Iface → List String → Bool

/-- Filtering of one option at a node (`filter` of the option): what it
contributes there, if anything.  `id` is the position of the top-level option,
`tail` the transformers of the trailing `Transform` steps of the path.  A value
filter applies only to usable values; a transformer does not apply to its own
output; comparers and transformers on `interface{}` accept every type. -/
def CmpOption.applicable (R : EngineRules) (id : Nat) (tail : List Nat)
    (path : List (PathStep × GoType)) (vx vy : RValue) : CmpOption → Option Applicable
  | .Ignore => some .ignore
  | .Comparer f => some (.comparer f)
  | .Transformer name f => if id ∈ tail then none else some (.transformer id name f)
  | .FilterValues f opt =>
    if vx.usable && vy.usable && f vx.toIface vy.toIface then
      opt.applicable R id tail path vx vy
    else none
  | .SortSlices less =>
    if vx.usable && vy.usable && R.sortFilter less vx.toIface vy.toIface then
      (if id ∈ tail then none
       else some (.transformer id "cmpopts.SortSlices" (R.sortFunc less)))
    else none
  | .IgnoreUnexported typs =>
    if R.pathFilter (.IgnoreUnexported typs) path then some .ignore else none
  | .IgnoreFields typ names =>
    if R.pathFilter (.IgnoreFields typ names) path then some .ignore else none
  | .AllowUnexported _ => none
  | .Reporter _ => none

/-- One round of the loop of `Options.filter`: an ignore wins over everything, the
validator over comparers and transformers, and a second comparer or transformer
makes a conflict. -/
def combine (out : Option Applicable) (a : Option Applicable) : Option Applicable :=
  match out, a with
  | some .ignore, _ => some .ignore
  | out, none => out
  | _, some .ignore => some .ignore
  | _, some .validator => some .validator
  | none, some a => some a
  | some .validator, some _ => some .validator
  | some _, some _ => some .conflict

/-- The loop of `Options.filter` over the options from position `id` on. -/
def resolveFrom (R : EngineRules) (tail : List Nat) (path : List (PathStep × GoType))
    (vx vy : RValue) : Nat → List CmpOption → Option Applicable → Option Applicable
  | _, [], out => out
  | id, o :: rest, out =>
    resolveFrom R tail path vx vy (id + 1) rest (combine out (o.applicable R id tail path vx vy))

/-- The validator, which the engine puts in front of the caller's options: it
applies when a value is invalid or cannot be interfaced. -/
def validatorFilter (vx vy : RValue) : Option Applicable :=
  if vx.usable && vy.usable then none else some .validator

/-- Rule 1 of the engine: the option to apply at a node, if any. -/
def resolve (R : EngineRules) (opts : List CmpOption) (tail : List Nat)
    (path : List (PathStep × GoType)) (vx vy : RValue) : Option Applicable :=
  resolveFrom R tail path vx vy 0 opts (validatorFilter vx vy)

/-- Effect of the validator: a missing element is a difference, an unexported
field without access is a failure. -/
def validatorApply (vx vy : RValue) : Outcome Result :=
  if vx.val.isNone || vy.val.isNone then .returned (report (vx.val.isSome == vy.val.isSome))
  else .panicked "cannot handle unexported field"

/-- The argument lists of the `AllowUnexported` options, in order (the exporters). -/
def exportersOf : List CmpOption → List (List Iface)
  | [] => []
  | .AllowUnexported typs :: rest => typs :: exportersOf rest
  | _ :: rest => exportersOf rest

/-- Model of `compareAny`: the comparison of one node.  `fuel` bounds the depth of
the traversal.  An applicable option is applied; otherwise the node is compared
by the remaining rules, which recurse through `compareAny` on the children. -/
def compareAny (R : EngineRules) (opts : List CmpOption) :
    Nat → List Nat → List (PathStep × GoType) → PathStep → GoType → RValue → RValue →
      Outcome Result
  | 0, _, _, _, _, _, _ => .outOfFuel
  | fuel + 1, tail, path, step, t, vx, vy =>
    match resolve R opts tail (path ++ [(step, t)]) vx vy with
    | some .ignore => .returned ⟨0, 0⟩
    | some .validator => validatorApply vx vy
    | some (.comparer f) => .returned (report (f vx.toIface vy.toIface))
    | some (.transformer id name f) =>
      (f vx.toIface).bind fun x2 =>
        (f vy.toIface).bind fun y2 =>
          compareAny R opts fuel (tail ++ [id]) (path ++ [(step, t)]) (.Transform name)
            .interface (RValue.ofIface x2) (RValue.ofIface y2)
    | some .conflict => .panicked "ambiguous set of applicable options"
    | none =>
      R.byKind (exportersOf opts)
        (fun s2 t2 a b => compareAny R opts fuel [] (path ++ [(step, t)]) s2 t2 a b)
        (path ++ [(step, t)]) t vx vy

/-- Whether the engine accepts the option at top level: an ignore, and a comparer
or transformer on `interface{}`, must stand under a filter. -/
def CmpOption.isFiltered : CmpOption → Bool
  | .Ignore => false
  | .Comparer _ => false
  | .Transformer _ _ => false
  | _ => true

/-- Model of `rootStep`: values of one type are compared at that type, otherwise
both are wrapped in `interface{}`. -/
def rootStep (x y : Iface) : GoType × RValue × RValue :=
  match x, y with
  | some vx, some vy =>
    if vx.typeOf = vy.typeOf then (vx.typeOf, ⟨some vx, true⟩, ⟨some vy, true⟩)
    else (.interface, ⟨some (.iface vx), true⟩, ⟨some (.iface vy), true⟩)
  | _, _ => (.interface, ⟨x.map .iface, true⟩, ⟨y.map .iface, true⟩)

/-- Model of `cmp.Equal(x, y, opts...)`: the traversal reports no difference. -/
def cmpEqual (R : EngineRules) (fuel : Nat) (x y : Iface) (opts : List CmpOption) :
    Outcome Bool :=
  if opts.all CmpOption.isFiltered then
    (compareAny R opts fuel [] [] .Root (rootStep x y).1 (rootStep x y).2.1
      (rootStep x y).2.2).bind fun r => .returned (r.NumDiff == 0)
  else .panicked "cannot use an unfiltered option"

/-- Model of `cmp.Diff(x, y, opts...)`: empty when the values are equal, otherwise
the rendered report, which the engine checks to be non-empty. -/
def cmpDiff (R : EngineRules) (fuel : Nat) (x y : Iface) (opts : List CmpOption) :
    Outcome String :=
  (cmpEqual R fuel x y opts).bind fun eq =>
    if eq then .returned ""
    else if R.render x y opts = "" then
      .panicked "inconsistent difference and equality results"
    else .returned (R.render x y opts)

/-- The engine with the given rules, as a library for the package. -/
def goCmp (R : EngineRules) (fuel : Nat) : CmpLib :=
  ⟨cmpEqual R fuel, cmpDiff R fuel, R.acceptsFields⟩

/-! ## The comparison by kind on the modelled values

The rules of the engine for the kinds of the value model, after its documented
behaviour: basic values by `==`; structs field by field (an unexported field
cannot be interfaced unless an exporter allows its struct type); slices, maps,
pointers and interfaces are equal when both are nil, or both are non-nil and
their contents are; slices element by element.  The modelled values have no
`Equal` method and no cyclic pointers. -/

/-- Result of `reflect.Value.Bool`. -/
def Value.asBool : Value → Bool
  | .bool b => b
  | _ => false

/-- Result of `reflect.Value.Int`. -/
def Value.asInt : Value → Int
  | .int n => n
  | _ => 0

/-- Result of `reflect.Value.String` for a value of string kind. -/
def Value.asString : Value → String
  | .str s => s
  | _ => ""

/-- Result of `reflect.Value.Field(i)` for a struct value; the zero struct has zero fields. -/
def Value.field (v : Value) (i : Nat) (fld : Field) : Value :=
  match v with
  | .struct _ fs => fs.getD i (.zero fld.typ)
  | _ => .zero fld.typ

/-- Elements of a slice value. -/
def Value.elems : Value → List Value
  | .slice _ es => es
  | _ => []

/-- Result of `reflect.Value.Elem` on a non-nil pointer to `e`. -/
def Value.target (e : GoType) : Value → Value
  | .ptr _ t => t
  | _ => .zero e

/-- Whether some exporter allows the struct type `t`. -/
def mayForce (exporters : List (List Iface)) (t : GoType) : Bool :=
  exporters.any fun typs => typs.any fun i => decide (itemType i = some t)

/-- The loop of `compareStruct` over the fields from index `i` on; a field named
`_` is skipped. -/
def compareFields (recur : PathStep → GoType → RValue → RValue → Outcome Result)
    (force : Bool) (x y : Value) : Nat → List Field → Outcome Result
  | _, [] => .returned ⟨0, 0⟩
  | i, fld :: rest =>
    if !fld.exported && fld.name = "_" then compareFields recur force x y (i + 1) rest
    else
      (recur (.StructField fld.name fld.exported) fld.typ
        ⟨some (x.field i fld), fld.exported || force⟩
        ⟨some (y.field i fld), fld.exported || force⟩).bind fun r =>
        (compareFields recur force x y (i + 1) rest).bind fun r2 => .returned (r.add r2)

/-- Comparison of the elements of two non-nil slices from index `i` on: elements
are paired by index, an element without a partner is compared with the invalid
value. -/
def compareElems (recur : PathStep → GoType → RValue → RValue → Outcome Result)
    (e : GoType) : Nat → List Value → List Value → Outcome Result
  | _, [], [] => .returned ⟨0, 0⟩
  | i, a :: as, b :: bs =>
    (recur (.SliceIndex (some i) (some i)) e ⟨some a, true⟩ ⟨some b, true⟩).bind fun r =>
      (compareElems recur e (i + 1) as bs).bind fun r2 => .returned (r.add r2)
  | i, a :: as, [] =>
    (recur (.SliceIndex (some i) none) e ⟨some a, true⟩ ⟨none, true⟩).bind fun r =>
      (compareElems recur e (i + 1) as []).bind fun r2 => .returned (r.add r2)
  | i, [], b :: bs =>
    (recur (.SliceIndex none (some i)) e ⟨none, true⟩ ⟨some b, true⟩).bind fun r =>
      (compareElems recur e (i + 1) [] bs).bind fun r2 => .returned (r.add r2)

/-- Rule 3 of the engine on the modelled values. -/
def compareByKind (env : TypeEnv) (exporters : List (List Iface))
    (recur : PathStep → GoType → RValue → RValue → Outcome Result)
    (_path : List (PathStep × GoType)) (t : GoType) (vx vy : RValue) : Outcome Result :=
  match vx.val, vy.val with
  | some x, some y =>
    match t with
    | .bool => .returned (report (x.asBool == y.asBool))
    | .int => .returned (report (x.asInt == y.asInt))
    | .string => .returned (report (x.asString == y.asString))
    | .named n => compareFields recur (mayForce exporters t) x y 0 (env n)
    | .slice e =>
      if x.IsNil || y.IsNil then .returned (report (x.IsNil && y.IsNil))
      else compareElems recur e 0 x.elems y.elems
    | .map _ _ => .returned (report (x.IsNil && y.IsNil))
    | .ptr e =>
      if x.IsNil || y.IsNil then .returned (report (x.IsNil && y.IsNil))
      else recur .Indirect e ⟨some (x.target e), true⟩ ⟨some (y.target e), true⟩
    | .interface =>
      match x, y with
      | .iface dx, .iface dy =>
        if dx.typeOf ≠ dy.typeOf then .returned (report false)
        else recur .TypeAssertion dx.typeOf ⟨some dx, true⟩ ⟨some dy, true⟩
      | _, _ => .returned (report (x.IsNil && y.IsNil))
  | _, _ => .panicked "not reachable"

/-- Path filter of `cmpopts.IgnoreUnexported(typs...)`: the last step is an
unexported field of a struct whose type is among `typs`. -/
def ignoreUnexportedFilter (typs : List Iface) (path : List (PathStep × GoType)) : Bool :=
  match path.reverse with
  | (.StructField _ exported, _) :: (_, parent) :: _ =>
    !exported && typs.any fun i => decide (itemType i = some parent)
  | _ => false

/-- Part of the path filter of `cmpopts.IgnoreFields`: after pointer indirections
the next step is one of the named fields. -/
def matchPrefix (names : List String) : List (PathStep × GoType) → Bool
  | (.Indirect, _) :: rest => matchPrefix names rest
  | (.StructField name _, _) :: _ => names.contains name
  | _ => false

/-- Path filter of `cmpopts.IgnoreFields(typ, names...)` for plain field names:
some step of the path has the type of `typ` and is followed by a named field. -/
def ignoreFieldsFilter (typ : Iface) (names : List String) : List (PathStep × GoType) → Bool
  | [] => false
  | (_, t) :: rest =>
    (decide (itemType typ = some t) && matchPrefix names rest) ||
      ignoreFieldsFilter typ names rest

/-- Path filters of the options of `cmpopts` built by the package. -/
def examplePathFilter : CmpOption → List (PathStep × GoType) → Bool
  | .IgnoreUnexported typs, path => ignoreUnexportedFilter typs path
  | .IgnoreFields typ names, path => ignoreFieldsFilter typ names path
  | _, _ => false

/-- Result of `sort.SliceIsSorted`: no element is less than its predecessor. -/
def sliceIsSorted (less : Iface → Iface → Bool) : List Value → Bool
  | a :: b :: rest => !(less b.toInterface a.toInterface) && sliceIsSorted less (b :: rest)
  | _ => true

/-- Value filter of `cmpopts.SortSlices`: two slices of one type, one of them with
more than one element, at least one of them not sorted. -/
def exampleSortFilter (less : Iface → Iface → Bool) (x y : Iface) : Bool :=
  match x, y with
  | some vx, some vy =>
    decide (vx.typeOf = vy.typeOf) && vx.typeOf.kind == .slice &&
      !(decide (vx.Len ≤ 1) && decide (vy.Len ≤ 1)) &&
      (!(sliceIsSorted less vx.elems) || !(sliceIsSorted less vy.elems))
  | _, _ => false

/-- One insertion of the insertion sort, on the reversed sorted prefix: the new
element moves towards the front while it is less than its neighbour. -/
def insertBack (less : Iface → Iface → Bool) (a : Value) : List Value → List Value
  | [] => [a]
  | b :: rest =>
    if less a.toInterface b.toInterface then b :: insertBack less a rest else a :: b :: rest

/-- Stable insertion sort by `less`. -/
def stableSort (less : Iface → Iface → Bool) (elems : List Value) : List Value :=
  (elems.foldl (fun acc a => insertBack less a acc) []).reverse

/-- Transformer function of `cmpopts.SortSlices`: a sorted copy of the slice. -/
def exampleSortFunc (less : Iface → Iface → Bool) (x : Iface) : Outcome Iface :=
  match x with
  | some v =>
    match v.typeOf with
    | .slice e => .returned (some (.slice e (stableSort less v.elems)))
    | _ => .panicked "reflect: call of reflect.Value.Len on non-slice Value"
  | none => .panicked "reflect: call of reflect.Value.Type on zero Value"

/-- Whether `cmpopts.IgnoreFields` accepts the arguments, for plain field names:
the type is a struct and every name is one of its fields. -/
def exampleAcceptsFields (env : TypeEnv) (typ : Iface) (names : List String) : Bool :=
  match typ with
  | some v =>
    match v.typeOf.fields env with
    | some fs => names.all fun n => (fs.map Field.name).contains n
    | none => false
  | none => false

/-- The engine rules used on the modelled values.  The text of a report is not
modelled; it is some non-empty text. -/
def exampleRules (env : TypeEnv) : EngineRules :=
  { pathFilter := examplePathFilter
    sortFilter := exampleSortFilter
    sortFunc := exampleSortFunc
    byKind := compareByKind env
    render := fun _ _ _ => "(report of the differences)"
    acceptsFields := exampleAcceptsFields env }

/-- The program `type Person struct { Name string; Tags []string }`. -/
def personEnv : TypeEnv := fun n =>
  if n = exampleType "Person" then [⟨"Name", .string, true⟩, ⟨"Tags", .slice .string, true⟩]
  else []

/-- The value `Person{Name: "A", Tags: nil}`. -/
def personNilTags : Iface :=
  some (.struct (exampleType "Person") [.str "A", .zero (.slice .string)])

/-- The value `Person{Name: "A", Tags: []string{}}`. -/
def personEmptyTags : Iface :=
  some (.struct (exampleType "Person") [.str "A", .slice .string []])

/-- The field `fld` at index `i` of the structs `x` and `y` (of type `n`) either is
exported and holds the nil slice on one side and the empty slice of the same
type on the other, or its comparison under the options `opts` returns without
a difference. -/
def FieldAgrees (env : TypeEnv) (opts : List CmpOption) (fuel : Nat) (n : TypeName)
    (x y : Value) (i : Nat) (fld : Field) : Prop :=
  (fld.exported = true ∧ ∃ e, fld.typ = .slice e ∧
    ((x.field i fld = .zero (.slice e) ∧ y.field i fld = .slice e []) ∨
      (x.field i fld = .slice e [] ∧ y.field i fld = .zero (.slice e)))) ∨
  (∃ r, compareAny (exampleRules env) opts fuel [] [(.Root, .named n)]
      (.StructField fld.name fld.exported) fld.typ
      ⟨some (x.field i fld), fld.exported⟩ ⟨some (y.field i fld), fld.exported⟩ = .returned r ∧
    r.NumDiff = 0)

/-- Renaming of the transformer identity in an applicable option. -/
def Applicable.rename (σ : Nat → Nat) : Applicable → Applicable
  | .transformer id name f => .transformer (σ id) name f
  | a => a

/-- Exchange of the positions `n` and `n + 1`. -/
def swapAt (n : Nat) (i : Nat) : Nat :=
  if i = n then n + 1 else if i = n + 1 then n else i

/-- The rules by kind pass on the failures of the comparisons they start: if they
return with the recursion `recA`, they return the same with any recursion that
returns what `recA` returns wherever `recA` returns. -/
def PropagatesFailures (R : EngineRules) : Prop :=
  ∀ (ex : List (List Iface)) (recA recB : PathStep → GoType → RValue → RValue → Outcome Result)
    (path : List (PathStep × GoType)) (t : GoType) (vx vy : RValue) (r : Result),
    (∀ s t2 a b r2, recA s t2 a b = .returned r2 → recB s t2 a b = .returned r2) →
    R.byKind ex recA path t vx vy = .returned r → R.byKind ex recB path t vx vy = .returned r

/-- The option `cmp.FilterValues(func(x, y interface{}) bool { return true }, cmp.Ignore())`,
which makes the engine ignore every pair of values. -/
def ignoreEverything : CmpOption := .FilterValues (fun _ _ => true) .Ignore

/-- Stated from the specification: a field type through which no struct type is
discovered: a primitive, a map (of structs or of pointers to structs as well),
or a slice whose elements are not pointers. -/
def PlainFieldType (t : GoType) : Prop :=
  t = .bool ∨ t = .int ∨ t = .string ∨ (∃ k e, t = .map k e) ∨
    (∃ e, t = .slice e ∧ e.kind ≠ .ptr)

/-- The program `type Item struct { ID int }`,
`type Store struct { Items []Item; ByName map[string]Item; ByID map[int]*Item; N int }`. -/
def storeEnv : TypeEnv := fun n =>
  if n = exampleType "Item" then [⟨"ID", .int, true⟩]
  else if n = exampleType "Store" then
    [⟨"Items", .slice (.named (exampleType "Item")), true⟩,
      ⟨"ByName", .map .string (.named (exampleType "Item")), true⟩,
      ⟨"ByID", .map .int (.ptr (.named (exampleType "Item"))), true⟩,
      ⟨"N", .int, true⟩]
  else []

/-- The program `type S1 struct { C C }`, `type C struct { X int }`,
`type S2 struct {}`. -/
def batchEnv : TypeEnv := fun n =>
  if n = exampleType "S1" then [⟨"C", .named (exampleType "C"), true⟩]
  else if n = exampleType "C" then [⟨"X", .int, true⟩]
  else []

/-- The seed `&S1{}` of the example program `demoEnv`: a pointer to a struct. -/
def pointerSeed : Iface :=
  some (.ptr (.named (exampleType "S1")) (.zero (.named (exampleType "S1"))))

/-- The type `T` of a package `v1` with import path `example.com/alpha/v1`. -/
def alphaT : TypeName := ⟨"example.com/alpha/v1", "v1", "T"⟩

/-- The type `T` of another package `v1`, with import path `example.com/beta/v1`. -/
def betaT : TypeName := ⟨"example.com/beta/v1", "v1", "T"⟩

/-- The program with `alpha/v1`: `type T struct { X int }` and
`beta/v1`: `type T struct { y string }`: two struct types printed `v1.T`. -/
def versionsEnv : TypeEnv := fun n =>
  if n = alphaT then [⟨"X", .int, true⟩]
  else if n = betaT then [⟨"y", .string, false⟩]
  else []

/-- The program `type Counter struct { N *int }`. -/
def counterEnv : TypeEnv := fun n =>
  if n = exampleType "Counter" then [⟨"N", .ptr .int, true⟩] else []

/-! # Theorems -/

/-! ## The walker on a cyclic type graph -/

theorem walkMessages_cycle_aux (fuel : Nat) :
    ((walkMessages cycleEnv fuel [some (.zero (.named (exampleType "A")))]).status = .outOfFuel ∧
      (walkMessages cycleEnv fuel [some (.zero (.named (exampleType "A")))]).emitted.length = fuel) ∧
    ((walkMessages cycleEnv fuel [some (.zero (.named (exampleType "B")))]).status = .outOfFuel ∧
      (walkMessages cycleEnv fuel [some (.zero (.named (exampleType "B")))]).emitted.length = fuel) := by
  induction fuel with
  | zero => exact ⟨⟨rfl, rfl⟩, ⟨rfl, rfl⟩⟩
  | succ n ih =>
    obtain ⟨⟨hA, hAl⟩, ⟨hB, hBl⟩⟩ := ih
    have eA : collectChildren cycleEnv (cycleEnv (exampleType "A")) =
        [some (.zero (.named (exampleType "B")))] := rfl
    have eB : collectChildren cycleEnv (cycleEnv (exampleType "B")) =
        [some (.zero (.named (exampleType "A")))] := rfl
    refine ⟨?_, ?_⟩
    · simp only [walkMessages, walkLoop, Value.typeOf, GoType.fields, eA, hB]
      simp [hBl]
    · simp only [walkMessages, walkLoop, Value.typeOf, GoType.fields, eB, hA]
      simp [hAl]

/-- C1 (code at the failing input): on the program `A{B *B}`, `B{A *A}` the walker
started at `A{}` is still recursing at every depth bound: after `fuel` nested
calls it has sent `fuel` items and has not returned, so
`getStructItemsRecursiveOf` never returns a result. -/
theorem C1_cycle_never_returns (fuel : Nat) :
    (walkMessages cycleEnv fuel [cycleSeed]).status = .outOfFuel ∧
    (walkMessages cycleEnv fuel [cycleSeed]).emitted.length = fuel ∧
    getStructItemsRecursiveOf cycleEnv fuel [cycleSeed] = .outOfFuel := by
  have h := (walkMessages_cycle_aux fuel).1
  refine ⟨h.1, h.2, ?_⟩
  unfold getStructItemsRecursiveOf findMessageWithUnexportedFields
  have h1 := h.1
  simp only [cycleSeed] at *
  simp only [h1]

/-! ## Items of a returned walker run -/

theorem walkLoop_cons_some (env : TypeEnv) (recur : List Iface → Run) (v : Value)
    (rest : List Iface) (fs : List Field) (h : v.typeOf.fields env = some fs) :
    walkLoop env recur (some v :: rest) =
      match (recur (collectChildren env fs)).status with
      | .returned =>
        ⟨some v :: (recur (collectChildren env fs)).emitted ++ (walkLoop env recur rest).emitted,
          (walkLoop env recur rest).status⟩
      | s => ⟨some v :: (recur (collectChildren env fs)).emitted, s⟩ := by
  simp only [walkLoop, h]

theorem walkLoop_returned_items (env : TypeEnv) (recur : List Iface → Run)
    (hrec : ∀ src, (recur src).status = .returned → ∀ i ∈ (recur src).emitted, IsStructItem i) :
    ∀ src, (walkLoop env recur src).status = .returned →
      ∀ i ∈ (walkLoop env recur src).emitted, IsStructItem i := by
  intro src
  induction src with
  | nil => intro _ i hi; simp [walkLoop] at hi
  | cons m rest ih =>
    intro hst i hi
    cases m with
    | none => simp [walkLoop] at hst
    | some v =>
      cases hf : v.typeOf.fields env with
      | none => simp [walkLoop, hf] at hst
      | some fs =>
        rw [walkLoop_cons_some env recur v rest fs hf] at hst hi
        cases hs : (recur (collectChildren env fs)).status with
        | returned =>
          simp only [hs] at hst hi
          simp only [List.cons_append, List.mem_cons, List.mem_append] at hi
          rcases hi with h | h | h
          · subst h
            cases hv : v.typeOf with
            | named n => exact ⟨v, n, rfl, hv⟩
            | _ => simp [hv, GoType.fields] at hf
          · exact hrec _ hs i h
          · exact ih hst i h
        | panicked msg => simp [hs] at hst
        | outOfFuel => simp [hs] at hst

theorem walkMessages_returned_items (env : TypeEnv) :
    ∀ fuel src, (walkMessages env fuel src).status = .returned →
      ∀ i ∈ (walkMessages env fuel src).emitted, IsStructItem i := by
  intro fuel
  induction fuel with
  | zero =>
    intro src hst i hi
    cases src with
    | nil => simp [walkMessages] at hi
    | cons m rest => simp [walkMessages] at hst
  | succ n ih =>
    intro src hst i hi
    cases src with
    | nil => simp [walkMessages] at hi
    | cons m rest =>
      simp only [walkMessages] at hst hi
      exact walkLoop_returned_items env _ ih _ hst i hi

/-! ## The deduplicating consumer -/

theorem typeKey_some (v : Value) : typeKey (some v) = some v.typeOf.String := rfl

theorem dedupLoop_eq_removeSeen :
    ∀ (rest items : List Iface) (filter : List String) (seen : List Iface),
      (∀ k, k ∈ filter ↔ some k ∈ seen.map typeKey) →
      (∀ i ∈ rest, IsStructItem i) →
      dedupLoop rest items filter = .returned (items ++ removeSeen seen rest) := by
  intro rest
  induction rest with
  | nil => intro items filter seen _ _; simp [dedupLoop, removeSeen]
  | cons i rest ih =>
    intro items filter seen hf hn
    obtain ⟨v, n, rfl, _⟩ := hn i (List.mem_cons_self _ _)
    have hrest : ∀ j ∈ rest, IsStructItem j := fun j hj => hn j (List.mem_cons_of_mem _ hj)
    by_cases hk : v.typeOf.String ∈ filter
    · have hk2 : typeKey (some v) ∈ seen.map typeKey := by
        rw [typeKey_some]; exact (hf _).1 hk
      have hf2 : ∀ k, k ∈ filter ↔ some k ∈ (seen ++ [some v]).map typeKey := by
        intro k
        rw [List.map_append, List.mem_append, ← hf k]
        constructor
        · exact fun h => Or.inl h
        · rintro (h | h)
          · exact h
          · simp [typeKey_some] at h; subst h; exact hk
      simp only [dedupLoop, hk, if_true, removeSeen, hk2]
      exact ih items filter _ hf2 hrest
    · have hk2 : typeKey (some v) ∉ seen.map typeKey := by
        rw [typeKey_some]; exact fun h => hk ((hf _).2 h)
      have hf2 : ∀ k, k ∈ v.typeOf.String :: filter ↔
          some k ∈ (seen ++ [some v]).map typeKey := by
        intro k
        rw [List.map_append, List.mem_append, ← hf k, List.mem_cons]
        constructor
        · rintro (h | h)
          · right; simp [typeKey_some, h]
          · exact Or.inl h
        · rintro (h | h)
          · exact Or.inr h
          · left; simp [typeKey_some] at h; exact h
      simp only [dedupLoop, hk, if_false, removeSeen, hk2]
      rw [ih (items ++ [some v]) _ _ hf2 hrest]
      simp

theorem removeSeen_sublist : ∀ (s seen : List Iface), (removeSeen seen s).Sublist s := by
  intro s
  induction s with
  | nil => intro seen; simp [removeSeen]
  | cons i rest ih =>
    intro seen
    unfold removeSeen
    split
    · exact (ih _).trans (List.sublist_cons_self _ _)
    · exact (ih _).cons₂ _

theorem removeSeen_fresh : ∀ (s seen : List Iface),
    ∀ j ∈ removeSeen seen s, typeKey j ∉ seen.map typeKey := by
  intro s
  induction s with
  | nil => intro seen j hj; simp [removeSeen] at hj
  | cons i rest ih =>
    intro seen j hj
    unfold removeSeen at hj
    have key : ∀ j ∈ removeSeen (seen ++ [i]) rest, typeKey j ∉ seen.map typeKey := by
      intro j hj h
      exact ih _ j hj (by rw [List.map_append, List.mem_append]; exact Or.inl h)
    split at hj
    · exact key j hj
    · rcases List.mem_cons.1 hj with h | h
      · subst h; assumption
      · exact key j h

theorem removeSeen_nodup : ∀ (s seen : List Iface), ((removeSeen seen s).map typeKey).Nodup := by
  intro s
  induction s with
  | nil => intro seen; simp [removeSeen]
  | cons i rest ih =>
    intro seen
    unfold removeSeen
    split
    · exact ih _
    · rw [List.map_cons, List.nodup_cons]
      refine ⟨?_, ih _⟩
      intro h
      obtain ⟨j, hj, hji⟩ := List.mem_map.1 h
      apply removeSeen_fresh rest (seen ++ [i]) j hj
      rw [List.map_append, List.mem_append]
      right; simp [hji]

theorem removeSeen_covers : ∀ (s seen : List Iface), ∀ i ∈ s,
    typeKey i ∈ seen.map typeKey ∨ typeKey i ∈ (removeSeen seen s).map typeKey := by
  intro s
  induction s with
  | nil => intro seen i hi; simp at hi
  | cons a rest ih =>
    intro seen i hi
    unfold removeSeen
    rcases List.mem_cons.1 hi with h | h
    · subst h
      split
      · left; assumption
      · right; simp
    · rcases ih (seen ++ [a]) i h with h2 | h2
      · rw [List.map_append, List.mem_append] at h2
        rcases h2 with h3 | h3
        · exact Or.inl h3
        · simp at h3
          split
          · left; rw [h3]; assumption
          · right; simp [h3]
      · split
        · exact Or.inr h2
        · right; rw [List.map_cons]; exact List.mem_cons_of_mem _ h2

theorem removeSeen_first : ∀ (s seen : List Iface), ∀ j ∈ removeSeen seen s,
    s.find? (fun i => decide (typeKey i = typeKey j)) = some j := by
  intro s
  induction s with
  | nil => intro seen j hj; simp [removeSeen] at hj
  | cons a rest ih =>
    intro seen j hj
    unfold removeSeen at hj
    have later : j ∈ removeSeen (seen ++ [a]) rest →
        (a :: rest).find? (fun i => decide (typeKey i = typeKey j)) = some j := by
      intro h
      have hne : typeKey a ≠ typeKey j := by
        intro e
        apply removeSeen_fresh rest (seen ++ [a]) j h
        rw [List.map_append, List.mem_append]
        right; simp [e]
      rw [List.find?_cons_of_neg _ (by simpa using hne)]
      exact ih _ j h
    split at hj
    · exact later hj
    · rcases List.mem_cons.1 hj with h | h
      · subst h; simp
      · exact later h

theorem getStructItems_of_returned (env : TypeEnv) (fuel : Nat) (seeds : List Iface)
    (h : (walkMessages env fuel seeds).status = .returned) :
    ∃ items, getStructItemsRecursiveOf env fuel seeds = .returned items ∧
      items = removeSeen [] (walkMessages env fuel seeds).emitted ∧
      (items.map typeKey).Nodup ∧
      (items.map itemType).Nodup ∧
      items.Sublist (walkMessages env fuel seeds).emitted ∧
      (∀ i ∈ (walkMessages env fuel seeds).emitted, typeKey i ∈ items.map typeKey) ∧
      (∀ j ∈ items, (walkMessages env fuel seeds).emitted.find?
        (fun i => decide (typeKey i = typeKey j)) = some j) := by
  refine ⟨removeSeen [] (walkMessages env fuel seeds).emitted, ?_, rfl, ?_, ?_, ?_, ?_, ?_⟩
  · unfold getStructItemsRecursiveOf findMessageWithUnexportedFields
    simp only [h]
    have := dedupLoop_eq_removeSeen (walkMessages env fuel seeds).emitted [] [] []
      (by simp) (walkMessages_returned_items env fuel seeds h)
    simpa using this
  · exact removeSeen_nodup _ _
  · have hn := removeSeen_nodup (walkMessages env fuel seeds).emitted []
    have hcomp : (removeSeen [] (walkMessages env fuel seeds).emitted).map typeKey =
        ((removeSeen [] (walkMessages env fuel seeds).emitted).map itemType).map
          (Option.map GoType.String) := by
      rw [List.map_map]
      apply List.map_congr_left
      intro i _
      cases i <;> rfl
    rw [hcomp] at hn
    exact hn.of_map _
  · exact removeSeen_sublist _ _
  · intro i hi
    rcases removeSeen_covers _ [] i hi with h1 | h1
    · simp at h1
    · exact h1
  · exact removeSeen_first _ _

/-- C3: when the walker returns, `getStructItemsRecursiveOf` returns exactly the
walker's stream with every item removed whose type key occurred earlier: no type
key (and so no type) occurs twice in the result, the result is a subsequence of
the stream (order kept), every type key of the stream is represented, and the
item kept for a key is the first item of the stream with that key. -/
theorem C3_dedup_keeps_first_occurrences (env : TypeEnv) (fuel : Nat) (seeds : List Iface)
    (h : (walkMessages env fuel seeds).status = .returned) :
    ∃ items, getStructItemsRecursiveOf env fuel seeds = .returned items ∧
      items = removeSeen [] (walkMessages env fuel seeds).emitted ∧
      (items.map typeKey).Nodup ∧
      (items.map itemType).Nodup ∧
      items.Sublist (walkMessages env fuel seeds).emitted ∧
      (∀ i ∈ (walkMessages env fuel seeds).emitted, typeKey i ∈ items.map typeKey) ∧
      (∀ j ∈ items, (walkMessages env fuel seeds).emitted.find?
        (fun i => decide (typeKey i = typeKey j)) = some j) :=
  getStructItems_of_returned env fuel seeds h

/-- C3 at a concrete input: the seeds `S1{}`, `S2{}` of the example program, whose
raw stream `S1, C, D, C, S2` holds `C` twice. -/
theorem C3_dedup_keeps_first_occurrences_witness :
    (walkMessages demoEnv 3 [zeroOf "S1", zeroOf "S2"]).status = .returned ∧
    ∃ items, getStructItemsRecursiveOf demoEnv 3 [zeroOf "S1", zeroOf "S2"] = .returned items ∧
      items = removeSeen [] (walkMessages demoEnv 3 [zeroOf "S1", zeroOf "S2"]).emitted ∧
      (items.map typeKey).Nodup ∧
      (items.map itemType).Nodup ∧
      items.Sublist (walkMessages demoEnv 3 [zeroOf "S1", zeroOf "S2"]).emitted ∧
      (∀ i ∈ (walkMessages demoEnv 3 [zeroOf "S1", zeroOf "S2"]).emitted,
        typeKey i ∈ items.map typeKey) ∧
      (∀ j ∈ items, (walkMessages demoEnv 3 [zeroOf "S1", zeroOf "S2"]).emitted.find?
        (fun i => decide (typeKey i = typeKey j)) = some j) :=
  ⟨by decide, C3_dedup_keeps_first_occurrences demoEnv 3 [zeroOf "S1", zeroOf "S2"] (by decide)⟩

/-! ## What the walker reaches on an acyclic type graph -/

theorem fieldChildren_iff (env : TypeEnv) (fld : Field)
    (hp : ∀ e, fld.typ = .ptr e → fld.exported = true → ∃ k, e = .named k) (c : Iface) :
    c ∈ fieldChildren env fld ↔ ∃ k, Follows env fld k ∧ c = some (.zero (.named k)) := by
  obtain ⟨name, typ, exported⟩ := fld
  simp only [fieldChildren, reflectField, List.mem_append]
  cases typ with
  | named n =>
    simp only [sliceStep, ptrStep, structStep, GoType.fields, reflectNewIndirect,
      FieldVal.Interface, List.not_mem_nil, false_or]
    constructor
    · intro h
      split at h
      · rename_i hlen
        simp [Value.toInterface] at h
        exact ⟨n, .direct rfl hlen, h⟩
      · simp at h
    · rintro ⟨k, hk, rfl⟩
      cases hk with
      | direct ht hn =>
        simp only [GoType.named.injEq] at ht
        subst ht
        simp [hn, Value.toInterface]
      | pointer ht he => simp at ht
      | slice ht => simp at ht
  | ptr e =>
    simp only [sliceStep, ptrStep, structStep, GoType.fields, reflectNewIndirect,
      FieldVal.Interface, List.not_mem_nil, or_false]
    constructor
    · intro h
      split at h
      · rename_i hex
        obtain ⟨k, rfl⟩ := hp e rfl hex
        simp [Value.toInterface] at h
        exact ⟨k, .pointer rfl hex, h⟩
      · simp at h
    · rintro ⟨k, hk, rfl⟩
      cases hk with
      | direct ht hn => simp at ht
      | pointer ht he =>
        simp only [GoType.ptr.injEq] at ht
        subst ht
        simp only at he
        simp [he, Value.toInterface]
      | slice ht => simp at ht
  | slice e =>
    cases e with
    | ptr e2 =>
      cases e2 with
      | named n =>
        simp only [sliceStep, GoType.kind, if_true, ptrStep, structStep, GoType.fields,
          reflectNewIndirect, FieldVal.Interface, List.not_mem_nil, or_false]
        constructor
        · intro h
          simp [Value.toInterface] at h
          exact ⟨n, .slice rfl, h⟩
        · rintro ⟨k, hk, rfl⟩
          cases hk with
          | direct ht hn => simp at ht
          | pointer ht he => simp at ht
          | slice ht =>
            simp only [GoType.slice.injEq, GoType.ptr.injEq, GoType.named.injEq] at ht
            subst ht
            simp [Value.toInterface]
      | _ =>
        simp only [sliceStep, GoType.kind, ptrStep, structStep, GoType.fields]
        constructor
        · intro h; simp at h
        · rintro ⟨k, hk, rfl⟩
          cases hk with
          | direct ht hn => simp at ht
          | pointer ht he => simp at ht
          | slice ht => simp at ht
    | _ =>
      simp only [sliceStep, ptrStep, structStep, GoType.fields]
      constructor
      · intro h; simp at h
      · rintro ⟨k, hk, rfl⟩
        cases hk with
        | direct ht hn => simp at ht
        | pointer ht he => simp at ht
        | slice ht => simp at ht
  | _ =>
    simp only [sliceStep, ptrStep, structStep, GoType.fields]
    constructor
    · intro h; simp at h
    · rintro ⟨k, hk, rfl⟩
      cases hk with
      | direct ht hn => simp at ht
      | pointer ht he => simp at ht
      | slice ht => simp at ht

theorem collectChildren_iff (env : TypeEnv) (fs : List Field)
    (hp : ∀ fld ∈ fs, ∀ e, fld.typ = .ptr e → fld.exported = true → ∃ k, e = .named k)
    (c : Iface) :
    c ∈ collectChildren env fs ↔
      ∃ fld ∈ fs, ∃ k, Follows env fld k ∧ c = some (.zero (.named k)) := by
  induction fs with
  | nil => simp [collectChildren]
  | cons fld rest ih =>
    have ih2 := ih (fun f hf => hp f (List.mem_cons_of_mem _ hf))
    simp only [collectChildren, List.mem_append, ih2,
      fieldChildren_iff env fld (hp fld (List.mem_cons_self _ _)) c, List.mem_cons]
    constructor
    · rintro (⟨k, hk, hc⟩ | ⟨f, hf, k, hk, hc⟩)
      · exact ⟨fld, Or.inl rfl, k, hk, hc⟩
      · exact ⟨f, Or.inr hf, k, hk, hc⟩
    · rintro ⟨f, hf | hf, k, hk, hc⟩
      · subst hf; exact Or.inl ⟨k, hk, hc⟩
      · exact Or.inr ⟨f, hf, k, hk, hc⟩

theorem walkLoop_sendsReachable (env : TypeEnv) (rank : TypeName → Nat) (S : TypeName → Prop)
    (fuel : Nat)
    (hclosed : ∀ n k, S n → Edge env Follows n k → S k)
    (hrank : ∀ n k, S n → Edge env Follows n k → rank k < rank n)
    (hptr : ∀ n, S n → PointersToStructs env n)
    (recur : List Iface → Run)
    (hrec : ∀ src, SeedsBelow S rank fuel src → SendsReachable env src (recur src)) :
    ∀ src, SeedsBelow S rank (fuel + 1) src → SendsReachable env src (walkLoop env recur src) := by
  intro src
  induction src with
  | nil =>
    intro _
    refine ⟨rfl, ?_, ?_⟩
    · intro i hi; simp [walkLoop] at hi
    · intro s hs; simp at hs
  | cons m rest ih =>
    intro hsrc
    obtain ⟨v, n, rfl, hv, hS, hr⟩ := hsrc m (List.mem_cons_self _ _)
    have hrest : SeedsBelow S rank (fuel + 1) rest :=
      fun s hs => hsrc s (List.mem_cons_of_mem _ hs)
    obtain ⟨t1, t2, t3⟩ := ih hrest
    have hf : v.typeOf.fields env = some (env n) := by rw [hv]; rfl
    have hch := collectChildren_iff env (env n) (hptr n hS)
    have hsub : SeedsBelow S rank fuel (collectChildren env (env n)) := by
      intro c hc
      obtain ⟨fld, hfld, k, hk, rfl⟩ := (hch c).1 hc
      have he : Edge env Follows n k := ⟨fld, hfld, hk⟩
      exact ⟨_, k, rfl, rfl, hclosed n k hS he, by have := hrank n k hS he; omega⟩
    obtain ⟨s1, s2, s3⟩ := hrec _ hsub
    rw [walkLoop_cons_some env recur v rest (env n) hf]
    simp only [s1]
    refine ⟨t1, ?_, ?_⟩
    · intro i hi
      simp only [List.cons_append, List.mem_cons, List.mem_append] at hi
      rcases hi with h | h | h
      · subst h
        exact ⟨n, by simp [itemType, hv], some v, List.mem_cons_self _ _,
          v, n, rfl, hv, Relation.ReflTransGen.refl⟩
      · obtain ⟨m, hm, c, hc, w, k, hcw, hwk, hreach⟩ := s2 i h
        obtain ⟨fld, hfld, k2, hk2, hc2⟩ := (hch c).1 hc
        rw [hc2] at hcw
        cases hcw
        simp only [Value.typeOf, GoType.named.injEq] at hwk
        subst hwk
        exact ⟨m, hm, some v, List.mem_cons_self _ _, v, n, rfl, hv,
          Relation.ReflTransGen.head ⟨fld, hfld, hk2⟩ hreach⟩
      · obtain ⟨m, hm, s, hs, hreach⟩ := t2 i h
        exact ⟨m, hm, s, List.mem_cons_of_mem _ hs, hreach⟩
    · intro s hs m hreach
      rcases List.mem_cons.1 hs with h | h
      · subst h
        obtain ⟨w, n2, hw, hwn, hpath⟩ := hreach
        cases hw
        rw [hv] at hwn
        cases hwn
        rcases Relation.ReflTransGen.cases_head hpath with h0 | ⟨k, hk, hkm⟩
        · subst h0
          exact ⟨some v, by simp, by simp [itemType, hv]⟩
        · obtain ⟨fld, hfld, hfol⟩ := hk
          have hc : some (Value.zero (.named k)) ∈ collectChildren env (env n) :=
            (hch _).2 ⟨fld, hfld, k, hfol, rfl⟩
          obtain ⟨i, hi, hit⟩ := s3 _ hc m ⟨_, k, rfl, rfl, hkm⟩
          exact ⟨i, by simp [hi], hit⟩
      · obtain ⟨i, hi, hit⟩ := t3 s h m hreach
        exact ⟨i, by simp [hi], hit⟩

theorem walkMessages_sendsReachable (env : TypeEnv) (rank : TypeName → Nat) (S : TypeName → Prop)
    (hclosed : ∀ n k, S n → Edge env Follows n k → S k)
    (hrank : ∀ n k, S n → Edge env Follows n k → rank k < rank n)
    (hptr : ∀ n, S n → PointersToStructs env n) :
    ∀ fuel src, SeedsBelow S rank fuel src →
      SendsReachable env src (walkMessages env fuel src) := by
  intro fuel
  induction fuel with
  | zero =>
    intro src hsrc
    cases src with
    | nil =>
      refine ⟨rfl, ?_, ?_⟩
      · intro i hi; simp [walkMessages] at hi
      · intro s hs; simp at hs
    | cons m rest =>
      obtain ⟨_, _, _, _, _, h⟩ := hsrc m (List.mem_cons_self _ _)
      omega
  | succ f ih =>
    intro src hsrc
    cases src with
    | nil =>
      refine ⟨rfl, ?_, ?_⟩
      · intro i hi; simp [walkMessages] at hi
      · intro s hs; simp at hs
    | cons m rest =>
      simp only [walkMessages]
      exact walkLoop_sendsReachable env rank S f hclosed hrank hptr _ ih _ hsrc

theorem filter_length_eq_one {α β : Type} [DecidableEq β] (f : α → β) (t : β) :
    ∀ l : List α, (l.map f).Nodup → (∃ a ∈ l, f a = t) →
      (l.filter (fun a => decide (f a = t))).length = 1 := by
  intro l
  induction l with
  | nil => intro _ h; obtain ⟨a, ha, _⟩ := h; simp at ha
  | cons a rest ih =>
    intro hnd hex
    rw [List.map_cons, List.nodup_cons] at hnd
    by_cases hfa : f a = t
    · have hnone : rest.filter (fun b => decide (f b = t)) = [] := by
        rw [List.filter_eq_nil_iff]
        intro b hb
        simp only [decide_eq_true_eq]
        intro hfb
        exact hnd.1 (List.mem_map.2 ⟨b, hb, by rw [hfb, hfa]⟩)
      simp [List.filter_cons, hfa, hnone]
    · obtain ⟨b, hb, hfb⟩ := hex
      have hb2 : b ∈ rest := by
        rcases List.mem_cons.1 hb with h | h
        · subst h; exact absurd hfb hfa
        · exact h
      simp only [List.filter_cons, hfa, decide_False]
      exact ih hnd.2 ⟨b, hb2, hfb⟩

theorem reachFrom_step (env : TypeEnv) (seeds : List Iface) (n k : TypeName)
    (hn : ∃ s ∈ seeds, ReachFrom env Follows s n) (he : Edge env Follows n k) :
    ∃ s ∈ seeds, ReachFrom env Follows s k := by
  obtain ⟨s, hs, v, n0, hsv, hv, hpath⟩ := hn
  exact ⟨s, hs, v, n0, hsv, hv, hpath.tail he⟩

theorem getStructItems_reachable_once (env : TypeEnv) (seeds : List Iface)
    (rank : TypeName → Nat) (fuel : Nat)
    (hseeds : ∀ s ∈ seeds, IsStructItem s)
    (hacyclic : ∀ n k, (∃ s ∈ seeds, ReachFrom env Follows s n) → Edge env Follows n k →
      rank k < rank n)
    (hfuel : ∀ s ∈ seeds, ∀ n, itemType s = some (.named n) → rank n < fuel)
    (hptr : ∀ n, (∃ s ∈ seeds, ReachFrom env Follows s n) → PointersToStructs env n)
    (hnames : ∀ n k, (∃ s ∈ seeds, ReachFrom env Follows s n) →
      (∃ s ∈ seeds, ReachFrom env Follows s k) →
      (GoType.named n).String = (GoType.named k).String → n = k) :
    ∃ items, getStructItemsRecursiveOf env fuel seeds = .returned items ∧
      ∀ m, (∃ s ∈ seeds, ReachFrom env Follows s m) →
        (items.filter (fun i => decide (itemType i = some (.named m)))).length = 1 := by
  have hbelow : SeedsBelow (fun n => ∃ s ∈ seeds, ReachFrom env Follows s n) rank fuel seeds := by
    intro s hs
    obtain ⟨v, n, rfl, hv⟩ := hseeds s hs
    exact ⟨v, n, rfl, hv, ⟨some v, hs, v, n, rfl, hv, Relation.ReflTransGen.refl⟩,
      hfuel _ hs n (by simp [itemType, hv])⟩
  obtain ⟨hret, hsound, hcomplete⟩ := walkMessages_sendsReachable env rank _
    (fun n k hn he => reachFrom_step env seeds n k hn he) hacyclic hptr fuel seeds hbelow
  obtain ⟨items, hres, _, _, hnodup, hsub, hcover, _⟩ :=
    getStructItems_of_returned env fuel seeds hret
  refine ⟨items, hres, ?_⟩
  intro m hm
  apply filter_length_eq_one itemType _ items hnodup
  obtain ⟨s, hs, hreach⟩ := hm
  obtain ⟨i, hi, hit⟩ := hcomplete s hs m hreach
  obtain ⟨j, hj, hjk⟩ := List.mem_map.1 (hcover i hi)
  obtain ⟨m2, hm2, s2, hs2, hreach2⟩ := hsound j (hsub.subset hj)
  have hkey : (GoType.named m2).String = (GoType.named m).String := by
    cases i with
    | none => simp [itemType] at hit
    | some vi =>
      cases j with
      | none => simp [itemType] at hm2
      | some vj =>
        simp only [itemType, Option.map_some', Option.some.injEq] at hit hm2
        simp only [typeKey, Option.map_some', Option.some.injEq] at hjk
        rw [hit, hm2] at hjk
        exact hjk
  have : m2 = m := hnames m2 m ⟨s2, hs2, hreach2⟩ ⟨s, hs, hreach⟩ hkey
  subst this
  exact ⟨j, hj, hm2⟩

/-- C2 (as amended): for struct seeds whose followed type graph is acyclic (a rank
decreases along every followed field), where exported pointer fields point to
structs and reachable types print distinct names, `getStructItemsRecursiveOf`
returns for every fuel above the seeds' ranks, and every struct type reachable by
direct struct fields with at least one field, exported pointer-to-struct fields
and slice-of-pointer-to-struct fields occurs exactly once in the result. -/
theorem C2_followed_types_exactly_once (env : TypeEnv) (seeds : List Iface)
    (rank : TypeName → Nat) (fuel : Nat)
    (hseeds : ∀ s ∈ seeds, IsStructItem s)
    (hacyclic : ∀ n k, (∃ s ∈ seeds, ReachFrom env Follows s n) → Edge env Follows n k →
      rank k < rank n)
    (hfuel : ∀ s ∈ seeds, ∀ n, itemType s = some (.named n) → rank n < fuel)
    (hptr : ∀ n, (∃ s ∈ seeds, ReachFrom env Follows s n) → PointersToStructs env n)
    (hnames : ∀ n k, (∃ s ∈ seeds, ReachFrom env Follows s n) →
      (∃ s ∈ seeds, ReachFrom env Follows s k) →
      (GoType.named n).String = (GoType.named k).String → n = k) :
    ∃ items, getStructItemsRecursiveOf env fuel seeds = .returned items ∧
      ∀ m, (∃ s ∈ seeds, ReachFrom env Follows s m) →
        (items.filter (fun i => decide (itemType i = some (.named m)))).length = 1 :=
  getStructItems_reachable_once env seeds rank fuel hseeds hacyclic hfuel hptr hnames

theorem reachFrom_invariant (env : TypeEnv) (seeds : List Iface) (P : TypeName → Prop)
    (hseed : ∀ s ∈ seeds, ∀ v n, s = some v → v.typeOf = .named n → P n)
    (hstep : ∀ n k, P n → Edge env Follows n k → P k) :
    ∀ m, (∃ s ∈ seeds, ReachFrom env Follows s m) → P m := by
  rintro m ⟨s, hs, v, n, hsv, hv, hpath⟩
  induction hpath with
  | refl => exact hseed s hs v n hsv hv
  | tail _ he ih => exact hstep _ _ ih he

theorem demoEnv_edge (n k : TypeName) (h : Edge demoEnv Follows n k) :
    (n = exampleType "S1" ∧ (k = exampleType "C" ∨ k = exampleType "D")) ∨
    (n = exampleType "D" ∧ k = exampleType "C") := by
  obtain ⟨fld, hfld, hfol⟩ := h
  unfold demoEnv at hfld
  split_ifs at hfld with h1 h2 h3
  · left
    refine ⟨h1, ?_⟩
    simp only [List.mem_cons, List.mem_singleton, List.not_mem_nil, or_false] at hfld
    rcases hfld with rfl | rfl | rfl | rfl
    · cases hfol with
      | direct ht hn => left; simpa using ht.symm
      | pointer ht he => simp at ht
      | slice ht => simp at ht
    · cases hfol with
      | direct ht hn => simp at ht
      | pointer ht he => simp at he
      | slice ht => simp at ht
    · cases hfol with
      | direct ht hn => simp at ht
      | pointer ht he => simp at ht
      | slice ht => right; simpa using ht.symm
    · cases hfol with
      | direct ht hn => simp at ht
      | pointer ht he => simp at he
      | slice ht => simp at ht
  · simp only [List.mem_singleton] at hfld
    subst hfld
    cases hfol with
    | direct ht hn => simp at ht
    | pointer ht he => simp at ht
    | slice ht => simp at ht
  · right
    refine ⟨h3, ?_⟩
    simp only [List.mem_singleton] at hfld
    subst hfld
    cases hfol with
    | direct ht hn => simp at ht
    | pointer ht he => simpa using ht.symm
    | slice ht => simp at ht
  · simp at hfld

theorem demoEnv_pointers (n : TypeName) : PointersToStructs demoEnv n := by
  intro fld hfld e ht he
  unfold demoEnv at hfld
  split_ifs at hfld with h1 h2 h3
  · simp only [List.mem_cons, List.mem_singleton, List.not_mem_nil, or_false] at hfld
    rcases hfld with rfl | rfl | rfl | rfl <;> simp at ht he
  · simp only [List.mem_singleton] at hfld
    subst hfld
    simp at ht
  · simp only [List.mem_singleton] at hfld
    subst hfld
    simp only [GoType.ptr.injEq] at ht
    exact ⟨_, ht.symm⟩
  · simp at hfld

theorem demoEnv_reachable (m : TypeName)
    (h : ∃ s ∈ [zeroOf "S1", zeroOf "S2"], ReachFrom demoEnv Follows s m) :
    m = exampleType "S1" ∨ m = exampleType "C" ∨ m = exampleType "D" ∨ m = exampleType "S2" := by
  refine reachFrom_invariant demoEnv _ (fun m => m = exampleType "S1" ∨ m = exampleType "C" ∨
    m = exampleType "D" ∨ m = exampleType "S2") ?_ ?_ m h
  · intro s hs v n hsv hv
    simp only [List.mem_cons, List.mem_singleton, List.not_mem_nil, or_false] at hs
    rcases hs with rfl | rfl
    · simp only [zeroOf, Option.some.injEq] at hsv
      subst hsv
      left; simpa [Value.typeOf] using hv.symm
    · simp only [zeroOf, Option.some.injEq] at hsv
      subst hsv
      right; right; right; simpa [Value.typeOf] using hv.symm
  · intro n k _ he
    rcases demoEnv_edge n k he with ⟨_, h | h⟩ | ⟨_, h⟩
    · exact Or.inr (Or.inl h)
    · exact Or.inr (Or.inr (Or.inl h))
    · exact Or.inr (Or.inl h)

/-- C2 (as amended) at a concrete input: the seeds `S1{}`, `S2{}` of the example
program; `C` is reached twice and kept once, `D` is reached through a slice of
pointers held in an unexported field. -/
theorem C2_followed_types_exactly_once_witness :
    ∃ items, getStructItemsRecursiveOf demoEnv 3 [zeroOf "S1", zeroOf "S2"] = .returned items ∧
      ∀ m, (∃ s ∈ [zeroOf "S1", zeroOf "S2"], ReachFrom demoEnv Follows s m) →
        (items.filter (fun i => decide (itemType i = some (.named m)))).length = 1 :=
  C2_followed_types_exactly_once demoEnv [zeroOf "S1", zeroOf "S2"] demoRank 3
    (by
      intro s hs
      simp only [List.mem_cons, List.mem_singleton, List.not_mem_nil, or_false] at hs
      rcases hs with rfl | rfl
      · exact ⟨_, _, rfl, rfl⟩
      · exact ⟨_, _, rfl, rfl⟩)
    (by
      intro n k _ he
      rcases demoEnv_edge n k he with ⟨rfl, rfl | rfl⟩ | ⟨rfl, rfl⟩ <;> decide)
    (by
      intro s hs n hn
      simp only [List.mem_cons, List.mem_singleton, List.not_mem_nil, or_false] at hs
      rcases hs with rfl | rfl
      · simp only [zeroOf, itemType, Option.map_some', Value.typeOf, Option.some.injEq,
          GoType.named.injEq] at hn
        subst hn; decide
      · simp only [zeroOf, itemType, Option.map_some', Value.typeOf, Option.some.injEq,
          GoType.named.injEq] at hn
        subst hn; decide)
    (fun n _ => demoEnv_pointers n)
    (by
      intro n k hn hk hs
      rcases demoEnv_reachable n hn with rfl | rfl | rfl | rfl <;>
        rcases demoEnv_reachable k hk with rfl | rfl | rfl | rfl <;>
        first
          | rfl
          | exact absurd hs (by decide))

/-- C2 (counterexample to the claim as stated): in the acyclic program
`A{ b *B }`, `B{ X int }` the struct type `B` is reachable from the seed `A{}` by
a pointer-to-struct field, yet for every positive fuel
`getStructItemsRecursiveOf` returns the one-element list holding the seed, in
which `B` does not occur: the unexported pointer field is not followed. -/
theorem C2_unexported_pointer_not_followed :
    IsStructItem (zeroOf "A") ∧
    (∀ n k, Edge hiddenEnv LeadsTo n k →
      (if k = exampleType "A" then 1 else 0) < (if n = exampleType "A" then 1 else 0)) ∧
    ReachFrom hiddenEnv LeadsTo (zeroOf "A") (exampleType "B") ∧
    ∀ fuel, 0 < fuel →
      getStructItemsRecursiveOf hiddenEnv fuel [zeroOf "A"] = .returned [zeroOf "A"] ∧
      ([zeroOf "A"].filter
        (fun i => decide (itemType i = some (.named (exampleType "B"))))).length = 0 := by
  refine ⟨⟨_, _, rfl, rfl⟩, ?_, ?_, ?_⟩
  · rintro n k ⟨fld, hfld, hlead⟩
    unfold hiddenEnv at hfld
    split_ifs at hfld with h1 h2
    · simp only [List.mem_singleton] at hfld
      subst hfld
      cases hlead with
      | direct ht hn => simp at ht
      | pointer ht =>
        simp only [GoType.ptr.injEq, GoType.named.injEq] at ht
        subst ht
        subst h1
        decide
      | slice ht => simp at ht
    · simp only [List.mem_singleton] at hfld
      subst hfld
      cases hlead with
      | direct ht hn => simp at ht
      | pointer ht => simp at ht
      | slice ht => simp at ht
    · simp at hfld
  · refine ⟨_, exampleType "A", rfl, rfl, Relation.ReflTransGen.single ?_⟩
    exact ⟨⟨"b", .ptr (.named (exampleType "B")), false⟩, by decide, .pointer rfl⟩
  · intro fuel hfuel
    obtain ⟨f, rfl⟩ : ∃ f, fuel = f + 1 := ⟨fuel - 1, by omega⟩
    refine ⟨?_, by decide⟩
    have hc : collectChildren hiddenEnv (hiddenEnv (exampleType "A")) = [] := rfl
    have hw : walkMessages hiddenEnv (f + 1) [zeroOf "A"] = ⟨[zeroOf "A"], .returned⟩ := by
      simp only [walkMessages, zeroOf, walkLoop, Value.typeOf, GoType.fields, hc]
      cases f <;> simp [walkMessages]
    unfold getStructItemsRecursiveOf findMessageWithUnexportedFields
    rw [hw]
    rfl

/-! ## `objectsEqual`: the guards before the engine -/

theorem objectsEqual_type_mismatch (L : CmpLib) (vx vy : Value) (opts : List CmpOption)
    (hne : vx.typeOf ≠ vy.typeOf) :
    objectsEqual L (some vx) (some vy) opts = ⟨[], .returned false⟩ := by
  simp [objectsEqual, reflectValueOf, CanInterface, hne]

theorem objectsEqual_same_type (L : CmpLib) (vx vy : Value) (opts : List CmpOption)
    (heq : vx.typeOf = vy.typeOf) :
    objectsEqual L (some vx) (some vy) opts =
      ⟨[.Equal (some vx) (some vy) opts], L.Equal (some vx) (some vy) opts⟩ := by
  simp [objectsEqual, reflectValueOf, CanInterface, heq]

theorem objectsEqual_nil_left (L : CmpLib) (y : Iface) (opts : List CmpOption) :
    objectsEqual L none y opts =
      ⟨[], .panicked "reflect: call of reflect.Value.CanInterface on zero Value"⟩ := by
  simp [objectsEqual, reflectValueOf, CanInterface]

theorem objectsEqual_nil_right (L : CmpLib) (x : Iface) (opts : List CmpOption) :
    objectsEqual L x none opts =
      ⟨[], .panicked "reflect: call of reflect.Value.CanInterface on zero Value"⟩ := by
  cases x <;> simp [objectsEqual, reflectValueOf, CanInterface]

/-- C4: for non-nil `x`, `y` whose runtime types differ, and any comparator state
and any engine, `ObjectsEqual(x, y)` returns false and makes no call of the
engine. -/
theorem C4_type_mismatch_is_false (L : CmpLib) (h : Heap) (oc : Nat) (c : objectsComparer)
    (vx vy : Value) (hoc : h.comparers[oc]? = some c) (hne : vx.typeOf ≠ vy.typeOf) :
    ObjectsEqual L h oc (some vx) (some vy) = ⟨[], .returned false⟩ := by
  simp only [ObjectsEqual, hoc]
  exact objectsEqual_type_mismatch L vx vy (h.read c.opts) hne

/-- C4 at a concrete input: two structs of different types with identical fields,
compared by a comparator carrying the emptiness option, with an engine that
fails when called. -/
theorem C4_type_mismatch_is_false_witness :
    ObjectsEqual strictLib (newComparer emptyHeap [SlicesCompareOption]).1 0
      (some (.struct (exampleType "A") [.int 1, .str "a"]))
      (some (.struct (exampleType "B") [.int 1, .str "a"])) = ⟨[], .returned false⟩ :=
  C4_type_mismatch_is_false strictLib (newComparer emptyHeap [SlicesCompareOption]).1 0
    ⟨⟨0, 0, 1, 1⟩⟩
    (.struct (exampleType "A") [.int 1, .str "a"]) (.struct (exampleType "B") [.int 1, .str "a"])
    rfl (by decide)

theorem newObjectsComparer_lookup (h : Heap) (s : Slice) :
    (NewObjectsComparer h s).1.comparers[(NewObjectsComparer h s).2]? = some ⟨s⟩ := by
  simp [NewObjectsComparer]

/-- C5 (code at the failing input): when `x` or `y` is the nil interface value,
`ObjectsEqual` on a comparator made by `NewObjectsComparer` (from any slice of
options) does not return false: `reflect.Value.CanInterface` panics on the zero
`reflect.Value`, before the engine is called. -/
theorem C5_nil_argument_panics (L : CmpLib) (h : Heap) (s : Slice) (v : Iface) :
    ObjectsEqual L (NewObjectsComparer h s).1 (NewObjectsComparer h s).2 none v =
      ⟨[], .panicked "reflect: call of reflect.Value.CanInterface on zero Value"⟩ ∧
    ObjectsEqual L (NewObjectsComparer h s).1 (NewObjectsComparer h s).2 v none =
      ⟨[], .panicked "reflect: call of reflect.Value.CanInterface on zero Value"⟩ := by
  simp only [ObjectsEqual, newObjectsComparer_lookup]
  exact ⟨objectsEqual_nil_left L v _, objectsEqual_nil_right L v _⟩


/-! ## Slices, backing arrays and the comparators holding them -/

theorem take_drop_written (l : List CmpOption) (off len : Nat) (o : CmpOption)
    (hle : off + len ≤ l.length) :
    ((l.take (off + len) ++ o :: l.drop (off + len + 1)).drop off).take (len + 1) =
      (l.drop off).take len ++ [o] := by
  have h1 : (l.take (off + len)).length = off + len := by
    rw [List.length_take]; omega
  have h2 : (l.take (off + len) ++ o :: l.drop (off + len + 1)).drop off =
      (l.take (off + len)).drop off ++ o :: l.drop (off + len + 1) := by
    rw [List.drop_append_of_le_length (by omega)]
  have h3 : (l.take (off + len)).drop off = (l.drop off).take len := by
    rw [List.drop_take]
    congr 1
    omega
  have h4 : ((l.drop off).take len).length = len := by
    rw [List.length_take, List.length_drop]; omega
  rw [h2, h3, List.take_append_eq_append_take, h4]
  simp [List.take_of_length_le (Nat.le_succ_of_le (Nat.le_of_eq h4))]

theorem read_length (h : Heap) (s : Slice) (hv : h.ValidSlice s) : (h.read s).length = s.len := by
  obtain ⟨a, ha, _, _, h1, _⟩ := hv
  simp only [Heap.read, ha, List.length_take, List.length_drop]
  omega

theorem heap_append_room (h : Heap) (s : Slice) (o : CmpOption) (a : BackingArray)
    (ha : h.arrays[s.arr]? = some a) (hroom : s.len < s.cap) :
    h.append s o =
      (⟨h.arrays.set s.arr
          ⟨a.cap, a.elems.take (s.off + s.len) ++ o :: a.elems.drop (s.off + s.len + 1)⟩,
        h.comparers, h.grow⟩, ⟨s.arr, s.off, s.len + 1, s.cap⟩) := by
  simp only [Heap.append, ha, hroom, if_true]

theorem heap_append_full (h : Heap) (s : Slice) (o : CmpOption) (a : BackingArray)
    (ha : h.arrays[s.arr]? = some a) (hroom : ¬ s.len < s.cap) :
    h.append s o =
      (⟨h.arrays ++ [⟨max (s.len + 1) (h.grow (s.len + 1)), h.read s ++ [o]⟩], h.comparers,
        h.grow⟩, ⟨h.arrays.length, 0, s.len + 1, max (s.len + 1) (h.grow (s.len + 1))⟩) := by
  simp only [Heap.append, ha, hroom, if_false]

theorem heap_append_spec (h : Heap) (s : Slice) (o : CmpOption) (hv : h.ValidSlice s) :
    (h.append s o).1.read (h.append s o).2 = h.read s ++ [o] ∧
    (h.append s o).1.ValidSlice (h.append s o).2 ∧
    (h.append s o).1.comparers = h.comparers ∧ (h.append s o).1.grow = h.grow := by
  have hlen := read_length h s hv
  obtain ⟨a, ha, hc1, hc2, h1, h2⟩ := hv
  have hlt : s.arr < h.arrays.length := by
    rcases Nat.lt_or_ge s.arr h.arrays.length with hl | hl
    · exact hl
    · rw [List.getElem?_eq_none hl] at ha; cases ha
  by_cases hroom : s.len < s.cap
  · rw [heap_append_room h s o a ha hroom]
    refine ⟨?_, ?_, rfl, rfl⟩
    · simp only [Heap.read, List.getElem?_set, hlt, if_true, ha]
      simpa using take_drop_written a.elems s.off s.len o h1
    · refine ⟨⟨a.cap, a.elems.take (s.off + s.len) ++ o :: a.elems.drop (s.off + s.len + 1)⟩,
        by simp [List.getElem?_set, hlt], ?_, ?_, ?_, ?_⟩
      · show s.len + 1 ≤ s.cap
        omega
      · exact hc2
      · simp only [List.length_append, List.length_take, List.length_cons, List.length_drop]
        omega
      · simp only [List.length_append, List.length_take, List.length_cons, List.length_drop]
        omega
  · rw [heap_append_full h s o a ha hroom]
    have hl2 : (h.read s ++ [o]).length = s.len + 1 := by simp [hlen]
    refine ⟨?_, ?_, rfl, rfl⟩
    · simp only [Heap.read, List.getElem?_concat_length, List.drop_zero]
      rw [List.take_of_length_le]
      have := hl2
      simp only [Heap.read] at this
      omega
    · refine ⟨⟨max (s.len + 1) (h.grow (s.len + 1)), h.read s ++ [o]⟩, by simp, ?_, ?_, ?_, ?_⟩
      · show s.len + 1 ≤ max (s.len + 1) (h.grow (s.len + 1))
        omega
      · show 0 + max (s.len + 1) (h.grow (s.len + 1)) ≤ max (s.len + 1) (h.grow (s.len + 1))
        omega
      · simp only [hl2]; omega
      · simp only [hl2]; omega

theorem holds_of_new (h : Heap) (s : Slice) (hv : h.ValidSlice s) :
    (NewObjectsComparer h s).1.Holds (NewObjectsComparer h s).2 (h.read s) := by
  refine ⟨⟨s⟩, by simp [NewObjectsComparer], ?_, rfl⟩
  exact hv

theorem variadic_valid (h : Heap) (args : List CmpOption) :
    (h.variadic args).1.ValidSlice (h.variadic args).2 ∧
    (h.variadic args).1.read (h.variadic args).2 = args := by
  constructor
  · exact ⟨⟨args.length, args⟩, by simp [Heap.variadic], by simp [Heap.variadic],
      by simp [Heap.variadic], by simp [Heap.variadic], by simp⟩
  · simp [Heap.read, Heap.variadic]

theorem holds_newComparer (h : Heap) (seed : List CmpOption) :
    (newComparer h seed).1.Holds (newComparer h seed).2 seed := by
  have := holds_of_new (h.variadic seed).1 (h.variadic seed).2 (variadic_valid h seed).1
  rw [(variadic_valid h seed).2] at this
  exact this

theorem appendOption_of_holds (h : Heap) (oc : Nat) (cur : List CmpOption) (o : CmpOption)
    (hoc : h.Holds oc cur) :
    ∃ h2, appendOption h oc o = .returned (h2, oc) ∧ h2.Holds oc (cur ++ [o]) := by
  obtain ⟨c, hc, hv, hr⟩ := hoc
  obtain ⟨h1, h2, h3, _⟩ := heap_append_spec h c.opts o hv
  have hlt : oc < h.comparers.length := by
    rcases Nat.lt_or_ge oc h.comparers.length with hl | hl
    · exact hl
    · rw [List.getElem?_eq_none hl] at hc; cases hc
  refine ⟨⟨(h.append c.opts o).1.arrays,
    (h.append c.opts o).1.comparers.set oc ⟨(h.append c.opts o).2⟩,
    (h.append c.opts o).1.grow⟩, by simp only [appendOption, hc],
    ⟨⟨(h.append c.opts o).2⟩, ?_, ?_, ?_⟩⟩
  · simp [List.getElem?_set, h3, hlt]
  · exact h2
  · rw [← hr]
    exact h1

theorem optsOf_of_holds (h : Heap) (oc : Nat) (cur : List CmpOption) (hoc : h.Holds oc cur) :
    h.optsOf oc = some cur := by
  obtain ⟨c, hc, _, hr⟩ := hoc
  simp [Heap.optsOf, hc, hr]

theorem objectsEqual_of_holds (L : CmpLib) (h : Heap) (oc : Nat) (cur : List CmpOption)
    (hoc : h.Holds oc cur) (x y : Iface) :
    ObjectsEqual L h oc x y = objectsEqual L x y cur := by
  obtain ⟨c, hc, _, hr⟩ := hoc
  simp only [ObjectsEqual, hc, hr]

theorem objectsEqual_of_optsOf (L : CmpLib) (h : Heap) (oc : Nat) (cur : List CmpOption)
    (hoc : h.optsOf oc = some cur) (x y : Iface) :
    ObjectsEqual L h oc x y = objectsEqual L x y cur := by
  simp only [Heap.optsOf] at hoc
  cases hc : h.comparers[oc]? with
  | none => simp [hc] at hoc
  | some c =>
    simp only [hc, Option.map_some', Option.some.injEq] at hoc
    simp only [ObjectsEqual, hc, hoc]

theorem validSlice_lt (h : Heap) (s : Slice) (hv : h.ValidSlice s) : s.arr < h.arrays.length := by
  obtain ⟨a, ha, _⟩ := hv
  rcases Nat.lt_or_ge s.arr h.arrays.length with hl | hl
  · exact hl
  · rw [List.getElem?_eq_none hl] at ha; cases ha

theorem heap_append_arr (h : Heap) (s : Slice) (o : CmpOption) :
    ((h.append s o).2.arr = s.arr ∨ (h.append s o).2.arr = h.arrays.length) ∧
    (h.append s o).1.comparers = h.comparers ∧ (h.append s o).1.grow = h.grow := by
  cases ha : h.arrays[s.arr]? with
  | none => simp [Heap.append, ha]
  | some a =>
    by_cases hroom : s.len < s.cap
    · simp [Heap.append, ha, hroom]
    · simp [Heap.append, ha, hroom]

theorem lt_of_getElem?_some {α : Type} (l : List α) (i : Nat) (a : α) (h : l[i]? = some a) :
    i < l.length := by
  rcases Nat.lt_or_ge i l.length with hl | hl
  · exact hl
  · rw [List.getElem?_eq_none hl] at h; cases h

theorem heap_append_frame (h : Heap) (s : Slice) (o : CmpOption) (s2 : Slice)
    (hvs : h.ValidSlice s) (hv : h.ValidSlice s2) :
    (h.append s o).1.ValidSlice s2 ∧
    (s2.arr ≠ s.arr → (h.append s o).1.read s2 = h.read s2) := by
  have hlt := validSlice_lt h s2 hv
  obtain ⟨b, hb, hb1, hb2, hb3, hb4⟩ := hv
  obtain ⟨a, ha, ha1, ha2, ha3, ha4⟩ := hvs
  by_cases hroom : s.len < s.cap
  · rw [heap_append_room h s o a ha hroom]
    by_cases hsame : s2.arr = s.arr
    · have hab : a = b := by
        rw [hsame, ha] at hb
        exact Option.some.inj hb
      subst hab
      refine ⟨⟨⟨a.cap, a.elems.take (s.off + s.len) ++ o :: a.elems.drop (s.off + s.len + 1)⟩,
        ?_, hb1, hb2, ?_, ?_⟩, fun hne => (hne hsame).elim⟩
      · rw [hsame]
        simp [List.getElem?_set, lt_of_getElem?_some _ _ _ ha]
      · simp only [List.length_append, List.length_take, List.length_cons, List.length_drop]
        omega
      · simp only [List.length_append, List.length_take, List.length_cons, List.length_drop]
        omega
    · have hne : s.arr ≠ s2.arr := fun e => hsame e.symm
      refine ⟨⟨b, ?_, hb1, hb2, hb3, hb4⟩, fun _ => ?_⟩
      · simp only [List.getElem?_set_ne hne, hb]
      · simp only [Heap.read, List.getElem?_set_ne hne]
  · rw [heap_append_full h s o a ha hroom]
    refine ⟨⟨b, ?_, hb1, hb2, hb3, hb4⟩, fun _ => ?_⟩
    · simp only [List.getElem?_append_left hlt, hb]
    · simp only [Heap.read, List.getElem?_append_left hlt]

/-! ## The option list of a comparator -/

theorem configCall_run_eq (L : CmpLib) (env : TypeEnv) (fuel : Nat) (h : Heap) (oc : Nat)
    (c : ConfigCall) :
    c.run L env fuel h oc = (c.option L env fuel).bind (appendOption h oc) := by
  cases c <;> rfl

theorem validSlice_of_arrays (h h2 : Heap) (s : Slice) (he : h2.arrays = h.arrays)
    (hv : h.ValidSlice s) : h2.ValidSlice s := by
  obtain ⟨a, ha, hrest⟩ := hv
  exact ⟨a, by rw [he]; exact ha, hrest⟩

theorem read_of_arrays (h h2 : Heap) (s : Slice) (he : h2.arrays = h.arrays) :
    h2.read s = h.read s := by
  simp only [Heap.read, he]

theorem appendOption_returned (h : Heap) (t : Nat) (o : CmpOption) (d : objectsComparer)
    (hd : h.comparers[t]? = some d) :
    appendOption h t o = .returned
      (⟨(h.append d.opts o).1.arrays, h.comparers.set t ⟨(h.append d.opts o).2⟩, h.grow⟩, t) := by
  simp only [appendOption, hd, (heap_append_arr h d.opts o).2.1, (heap_append_arr h d.opts o).2.2]

theorem appendOption_none (h : Heap) (t : Nat) (o : CmpOption) (hd : h.comparers[t]? = none) :
    appendOption h t o = .panicked "invalid memory address or nil pointer dereference" := by
  simp only [appendOption, hd]

theorem appendOption_wf (h : Heap) (t : Nat) (o : CmpOption) (d : objectsComparer)
    (hwf : h.WF) (hd : h.comparers[t]? = some d) :
    Heap.WF ⟨(h.append d.opts o).1.arrays, h.comparers.set t ⟨(h.append d.opts o).2⟩, h.grow⟩ := by
  intro u e hu
  have hu2 : (h.comparers.set t ⟨(h.append d.opts o).2⟩)[u]? = some e := hu
  by_cases hut : t = u
  · subst hut
    have hlt := lt_of_getElem?_some _ _ _ hd
    simp only [List.getElem?_set_self hlt, Option.some.injEq] at hu2
    subst hu2
    exact validSlice_of_arrays _ _ _ rfl (heap_append_spec h d.opts o (hwf t d hd)).2.1
  · rw [List.getElem?_set_ne hut] at hu2
    exact validSlice_of_arrays _ _ _ rfl
      (heap_append_frame h d.opts o e.opts (hwf t d hd) (hwf u e hu2)).1

theorem runSchedule_returned (L : CmpLib) (env : TypeEnv) (fuel : Nat) (oc : Nat) :
    ∀ (sched : List (Nat × ConfigCall)) (h : Heap) (c : objectsComparer) (cur : List CmpOption),
      h.WF → h.comparers[oc]? = some c → h.read c.opts = cur →
      (∀ p ∈ sched, p.1 ≠ oc → ∀ d, h.comparers[p.1]? = some d → d.opts.arr ≠ c.opts.arr) →
      ∀ h2, runSchedule L env fuel h sched = .returned h2 →
        ∃ added, h2.Holds oc (cur ++ added) ∧
          List.Forall₂ (fun p o => p.2.option L env fuel = .returned o)
            (sched.filter (fun p => decide (p.1 = oc))) added := by
  intro sched
  induction sched with
  | nil =>
    intro h c cur hwf hc hr _ h2 hrun
    simp only [runSchedule, Outcome.returned.injEq] at hrun
    subst hrun
    exact ⟨[], ⟨c, hc, hwf oc c hc, by simpa using hr⟩, by simp⟩
  | cons p rest ih =>
    intro h c cur hwf hc hr hsep h2 hrun
    simp only [runSchedule, configCall_run_eq] at hrun
    cases hopt : p.2.option L env fuel with
    | panicked msg => simp [hopt, Outcome.bind] at hrun
    | outOfFuel => simp [hopt, Outcome.bind] at hrun
    | returned o =>
      cases hd : h.comparers[p.1]? with
      | none => simp [hopt, Outcome.bind, appendOption_none h p.1 o hd] at hrun
      | some d =>
        simp only [hopt, Outcome.bind, appendOption_returned h p.1 o d hd] at hrun
        have hwf1 := appendOption_wf h p.1 o d hwf hd
        have hcv := hwf oc c hc
        have hdv := hwf p.1 d hd
        have harr := (heap_append_arr h d.opts o).1
        by_cases hp : p.1 = oc
        · have hdc : d = c := by
            rw [hp, hc] at hd
            exact (Option.some.inj hd).symm
          subst hdc
          have hlt := lt_of_getElem?_some _ _ _ hc
          obtain ⟨added, hh, hall⟩ := ih _ ⟨(h.append d.opts o).2⟩ (cur ++ [o]) hwf1
            (by rw [hp]; exact List.getElem?_set_self hlt)
            (by
              rw [← hr]
              exact (read_of_arrays _ _ _ rfl).trans (heap_append_spec h d.opts o hcv).1)
            (by
              intro q hq hqo e he
              have he2 : (h.comparers.set p.1 ⟨(h.append d.opts o).2⟩)[q.1]? = some e := he
              rw [List.getElem?_set_ne (by rw [hp]; exact fun x => hqo x.symm)] at he2
              have h1 := hsep q (List.mem_cons_of_mem _ hq) hqo e he2
              have h2 := validSlice_lt h e.opts (hwf q.1 e he2)
              show e.opts.arr ≠ (h.append d.opts o).2.arr
              rcases harr with ha | ha
              · rw [ha]; exact h1
              · rw [ha]; omega)
            h2 hrun
          refine ⟨o :: added, by simpa using hh, ?_⟩
          simp only [List.filter_cons, hp, decide_True, if_true]
          exact List.Forall₂.cons hopt hall
        · have hdc := hsep p (List.mem_cons_self _ _) hp d hd
          obtain ⟨added, hh, hall⟩ := ih _ c cur hwf1
            (by
              show (h.comparers.set p.1 ⟨(h.append d.opts o).2⟩)[oc]? = some c
              rw [List.getElem?_set_ne hp]
              exact hc)
            (by
              rw [← hr]
              exact (read_of_arrays _ _ _ rfl).trans
                ((heap_append_frame h d.opts o c.opts hdv hcv).2 (fun x => hdc x.symm)))
            (by
              intro q hq hqo e he
              have he2 : (h.comparers.set p.1 ⟨(h.append d.opts o).2⟩)[q.1]? = some e := he
              by_cases hqp : p.1 = q.1
              · have hlt := lt_of_getElem?_some _ _ _ hd
                rw [← hqp, List.getElem?_set_self hlt] at he2
                have he3 := Option.some.inj he2
                subst he3
                have h2 := validSlice_lt h c.opts hcv
                show (h.append d.opts o).2.arr ≠ c.opts.arr
                rcases harr with ha | ha
                · rw [ha]; exact hdc
                · rw [ha]; omega
              · rw [List.getElem?_set_ne hqp] at he2
                exact hsep q (List.mem_cons_of_mem _ hq) hqo e he2)
            h2 hrun
          refine ⟨added, hh, ?_⟩
          simp only [List.filter_cons, hp, decide_False]
          exact hall

theorem runSchedule_progress (L : CmpLib) (env : TypeEnv) (fuel : Nat) :
    ∀ (sched : List (Nat × ConfigCall)) (h : Heap),
      (∀ p ∈ sched, p.1 < h.comparers.length) →
      (∀ p ∈ sched, ∃ o, p.2.option L env fuel = .returned o) →
      ∃ h2, runSchedule L env fuel h sched = .returned h2 := by
  intro sched
  induction sched with
  | nil => intro h _ _; exact ⟨h, rfl⟩
  | cons p rest ih =>
    intro h hlt hall
    obtain ⟨o, hopt⟩ := hall p (List.mem_cons_self _ _)
    have hp := hlt p (List.mem_cons_self _ _)
    have hd : h.comparers[p.1]? = some (h.comparers.get ⟨p.1, hp⟩) := by
      simp [List.getElem?_eq_getElem hp]
    obtain ⟨h2, hrun⟩ := ih
      ⟨(h.append (h.comparers.get ⟨p.1, hp⟩).opts o).1.arrays,
        h.comparers.set p.1 ⟨(h.append (h.comparers.get ⟨p.1, hp⟩).opts o).2⟩, h.grow⟩
      (by
        intro q hq
        show q.1 < (h.comparers.set p.1 _).length
        rw [List.length_set]
        exact hlt q (List.mem_cons_of_mem _ hq))
      (fun q hq => hall q (List.mem_cons_of_mem _ hq))
    refine ⟨h2, ?_⟩
    simp only [runSchedule, configCall_run_eq, hopt, Outcome.bind,
      appendOption_returned h p.1 o _ hd]
    exact hrun

theorem configCall_run_same (L : CmpLib) (env : TypeEnv) (fuel : Nat) (h : Heap) (t : Nat)
    (c : ConfigCall) (r : Heap × Nat) (hr : c.run L env fuel h t = .returned r) : r.2 = t := by
  rw [configCall_run_eq] at hr
  cases hopt : c.option L env fuel with
  | panicked msg => simp [hopt, Outcome.bind] at hr
  | outOfFuel => simp [hopt, Outcome.bind] at hr
  | returned o =>
    cases hd : h.comparers[t]? with
    | none => simp [hopt, Outcome.bind, appendOption_none h t o hd] at hr
    | some d =>
      simp only [hopt, Outcome.bind, appendOption_returned h t o d hd,
        Outcome.returned.injEq] at hr
      rw [← hr]

theorem objectsEqual_calls (L : CmpLib) (x y : Iface) (opts : List CmpOption) :
    ∀ e ∈ (objectsEqual L x y opts).calls, e = .Equal x y opts := by
  intro e he
  cases x with
  | none => simp [objectsEqual_nil_left] at he
  | some vx =>
    cases y with
    | none => simp [objectsEqual_nil_right] at he
    | some vy =>
      by_cases ht : vx.typeOf = vy.typeOf
      · rw [objectsEqual_same_type L vx vy opts ht] at he
        simpa using he
      · rw [objectsEqual_type_mismatch L vx vy opts ht] at he
        simp at he

theorem objectsDiff_calls (L : CmpLib) (h : Heap) (oc : Nat) (c : objectsComparer)
    (hoc : h.comparers[oc]? = some c) (x y : Iface) :
    ∀ e ∈ (ObjectsDiff L h oc x y).calls,
      e = .Equal x y (h.read c.opts) ∨ e = .Diff x y (h.read c.opts) := by
  intro e he
  simp only [ObjectsDiff, hoc] at he
  have hcalls := objectsEqual_calls L x y (h.read c.opts)
  split at he
  · exact Or.inl (hcalls e he)
  · rcases List.mem_append.1 he with h1 | h1
    · exact Or.inl (hcalls e h1)
    · right; simpa using h1
  · exact Or.inl (hcalls e he)
  · exact Or.inl (hcalls e he)

theorem objectsDiff_of_equal (L : CmpLib) (h : Heap) (oc : Nat) (c : objectsComparer)
    (x y : Iface) (hoc : h.comparers[oc]? = some c)
    (he : (ObjectsEqual L h oc x y).result = .returned true) :
    (ObjectsDiff L h oc x y).result = .returned "" := by
  simp only [ObjectsEqual, hoc] at he
  simp only [ObjectsDiff, hoc, he]

theorem objectsDiff_same_type (L : CmpLib)
    (hL : ∀ x y opts, L.Diff x y opts = .returned "" ↔ L.Equal x y opts = .returned true)
    (h : Heap) (oc : Nat) (c : objectsComparer) (vx vy : Value)
    (hoc : h.comparers[oc]? = some c) (ht : vx.typeOf = vy.typeOf) :
    (ObjectsDiff L h oc (some vx) (some vy)).result = .returned "" ↔
      (ObjectsEqual L h oc (some vx) (some vy)).result = .returned true := by
  simp only [ObjectsDiff, ObjectsEqual, hoc, objectsEqual_same_type L vx vy (h.read c.opts) ht]
  cases he : L.Equal (some vx) (some vy) (h.read c.opts) with
  | returned v =>
    cases v with
    | true => simp
    | false =>
      simp only [Outcome.returned.injEq, Bool.false_eq_true, iff_false]
      intro hd
      have := (hL _ _ _).1 hd
      rw [he] at this
      cases this
  | panicked m => simp
  | outOfFuel => simp

theorem objectsDiff_type_mismatch (L : CmpLib) (h : Heap) (oc : Nat) (c : objectsComparer)
    (vx vy : Value) (hoc : h.comparers[oc]? = some c) (ht : vx.typeOf ≠ vy.typeOf) :
    ObjectsDiff L h oc (some vx) (some vy) =
      ⟨[.Diff (some vx) (some vy) (h.read c.opts)],
        L.Diff (some vx) (some vy) (h.read c.opts)⟩ := by
  simp only [ObjectsDiff, hoc, objectsEqual_type_mismatch L vx vy (h.read c.opts) ht,
    List.nil_append]

theorem objectsDiff_same_type_equal (L : CmpLib) (h : Heap) (oc : Nat) (c : objectsComparer)
    (vx vy : Value) (hoc : h.comparers[oc]? = some c) (ht : vx.typeOf = vy.typeOf)
    (he : L.Equal (some vx) (some vy) (h.read c.opts) = .returned true) :
    ObjectsDiff L h oc (some vx) (some vy) =
      ⟨[.Equal (some vx) (some vy) (h.read c.opts)], .returned ""⟩ := by
  simp only [ObjectsDiff, hoc, objectsEqual_same_type L vx vy (h.read c.opts) ht, he]

theorem objectsDiff_same_type_differ (L : CmpLib) (h : Heap) (oc : Nat) (c : objectsComparer)
    (vx vy : Value) (hoc : h.comparers[oc]? = some c) (ht : vx.typeOf = vy.typeOf)
    (he : L.Equal (some vx) (some vy) (h.read c.opts) = .returned false) :
    ObjectsDiff L h oc (some vx) (some vy) =
      ⟨[.Equal (some vx) (some vy) (h.read c.opts), .Diff (some vx) (some vy) (h.read c.opts)],
        L.Diff (some vx) (some vy) (h.read c.opts)⟩ := by
  simp only [ObjectsDiff, hoc, objectsEqual_same_type L vx vy (h.read c.opts) ht, he,
    List.singleton_append]

theorem newObjectsComparer_wf (h : Heap) (s : Slice) (hwf : h.WF) (hs : h.ValidSlice s) :
    (NewObjectsComparer h s).1.WF := by
  intro u e hu
  have hu2 : (h.comparers ++ [⟨s⟩])[u]? = some e := hu
  apply validSlice_of_arrays h _ _ rfl
  rcases Nat.lt_or_ge u h.comparers.length with hl | hl
  · rw [List.getElem?_append_left hl] at hu2
    exact hwf u e hu2
  · rw [List.getElem?_append_right hl] at hu2
    have hz : u - h.comparers.length = 0 := by
      rcases Nat.eq_zero_or_pos (u - h.comparers.length) with hz | hz
      · exact hz
      · rw [List.getElem?_eq_none (by
          simp only [List.length_singleton]
          omega)] at hu2
        cases hu2
    rw [hz] at hu2
    simp only [List.getElem?_cons_zero, Option.some.injEq] at hu2
    subst hu2
    exact hs

theorem runSchedule_append (L : CmpLib) (env : TypeEnv) (fuel : Nat) :
    ∀ (s1 s2 : List (Nat × ConfigCall)) (h : Heap),
      runSchedule L env fuel h (s1 ++ s2) =
        (runSchedule L env fuel h s1).bind (fun h1 => runSchedule L env fuel h1 s2) := by
  intro s1
  induction s1 with
  | nil => intro s2 h; rfl
  | cons p rest ih =>
    intro s2 h
    simp only [List.cons_append, runSchedule]
    cases hp : p.2.run L env fuel h p.1 with
    | returned r => simp only [Outcome.bind]; exact ih s2 r.1
    | panicked msg => rfl
    | outOfFuel => rfl

theorem forall₂_option_unique (L : CmpLib) (env : TypeEnv) (fuel : Nat) :
    ∀ (calls : List (Nat × ConfigCall)) (a b : List CmpOption),
      List.Forall₂ (fun p o => p.2.option L env fuel = .returned o) calls a →
      List.Forall₂ (fun p o => p.2.option L env fuel = .returned o) calls b → a = b := by
  intro calls
  induction calls with
  | nil =>
    intro a b ha hb
    cases ha
    cases hb
    rfl
  | cons p rest ih =>
    intro a b ha hb
    cases ha with
    | cons h1 t1 =>
      cases hb with
      | cons h2 t2 =>
        rw [h1] at h2
        rw [Outcome.returned.inj h2, ih _ _ t1 t2]

/-- C7 (counterexample to the claim as stated): the calling code holds a slice
`seed` of one option in an array of capacity 4 and makes two comparators,
`a := NewObjectsComparer(seed...)` and `b := NewObjectsComparer(seed...)`; both
keep `seed` itself.  After `a.WithIgnoreEmptySlices()` the list of `a` is the seed
option followed by the emptiness option.  `b.WithCustomReporter(r)` then
appends into the same slot of the shared array, and the list of `a`, on which
no other call was made, is the seed option followed by the reporter option:
the entry of the one call made on `a` has changed, and `ObjectsEqual` on `a`
forwards the changed list to the engine. -/
theorem C7_shared_seed_entry_overwritten :
    sharedSeedHeap.ValidSlice sharedSeed ∧
    ∃ hA hB h1 h2,
      NewObjectsComparer sharedSeedHeap sharedSeed = (hA, 0) ∧
      NewObjectsComparer hA sharedSeed = (hB, 1) ∧
      WithIgnoreEmptySlices hB 0 = .returned (h1, 0) ∧
      h1.optsOf 0 = some ([.Ignore] ++ [SlicesCompareOption]) ∧
      WithCustomReporter h1 1 7 = .returned (h2, 1) ∧
      h2.optsOf 0 = some [.Ignore, .Reporter 7] ∧
      h2.optsOf 0 ≠ some ([.Ignore] ++ [SlicesCompareOption]) ∧
      ObjectsEqual strictLib h2 0 (some (.int 1)) (some (.int 2)) =
        ⟨[.Equal (some (.int 1)) (some (.int 2)) [.Ignore, .Reporter 7]],
          .panicked "cmp.Equal was called"⟩ := by
  refine ⟨⟨⟨4, [.Ignore]⟩, rfl, by decide, by decide, by decide, by decide⟩, _, _, _, _, rfl, rfl, rfl, rfl, rfl, rfl,
    ?_, rfl⟩
  intro hc
  have e : [CmpOption.Ignore, CmpOption.Reporter 7] = [.Ignore] ++ [SlicesCompareOption] :=
    Option.some.inj hc
  simp [SlicesCompareOption] at e

/-- C7 (as amended): take a comparator made by `NewObjectsComparer(seed...)` in a
memory whose comparators hold valid slices, and configuration calls made one
after the other on it and on other comparators, none of which has its option
slice in the backing array of `seed`.  If the calls return, the option list of
the comparator is the seed options followed by exactly one option per call made
on it, in call order (the option that call builds), whatever the calls on the
other comparators appended; after every initial part of the calls the list is
an initial part of the final list.  `ObjectsEqual` and `ObjectsDiff` forward
exactly this list: on two values of one type `ObjectsEqual` makes the one call
`cmp.Equal(x, y, list...)` and returns its result, `ObjectsDiff` makes that call
and, when it reports a difference, the call `cmp.Diff(x, y, list...)`, whose
result it returns; on values of different types `ObjectsEqual` calls nothing
and `ObjectsDiff` calls `cmp.Diff(x, y, list...)` only.  Every configuration
call that returns, returns the comparator it was made on, and the calls return
whenever their comparators exist and their option builders return. -/
theorem C7_options_accumulate_without_sharing (L : CmpLib) (env : TypeEnv) (fuel : Nat)
    (h : Heap) (s : Slice) (sched : List (Nat × ConfigCall))
    (hwf : h.WF) (hs : h.ValidSlice s)
    (hsep : ∀ p ∈ sched, ∀ d, h.comparers[p.1]? = some d → d.opts.arr ≠ s.arr) :
    (∀ h2, runSchedule L env fuel (NewObjectsComparer h s).1 sched = .returned h2 →
      ∃ added,
        h2.optsOf (NewObjectsComparer h s).2 = some (h.read s ++ added) ∧
        List.Forall₂ (fun p o => p.2.option L env fuel = .returned o)
          (sched.filter (fun p => decide (p.1 = (NewObjectsComparer h s).2))) added ∧
        added.length =
          (sched.filter (fun p => decide (p.1 = (NewObjectsComparer h s).2))).length ∧
        (∀ vx vy : Value, vx.typeOf = vy.typeOf →
          ObjectsEqual L h2 (NewObjectsComparer h s).2 (some vx) (some vy) =
            ⟨[.Equal (some vx) (some vy) (h.read s ++ added)],
              L.Equal (some vx) (some vy) (h.read s ++ added)⟩ ∧
          (L.Equal (some vx) (some vy) (h.read s ++ added) = .returned true →
            ObjectsDiff L h2 (NewObjectsComparer h s).2 (some vx) (some vy) =
              ⟨[.Equal (some vx) (some vy) (h.read s ++ added)], .returned ""⟩) ∧
          (L.Equal (some vx) (some vy) (h.read s ++ added) = .returned false →
            ObjectsDiff L h2 (NewObjectsComparer h s).2 (some vx) (some vy) =
              ⟨[.Equal (some vx) (some vy) (h.read s ++ added),
                  .Diff (some vx) (some vy) (h.read s ++ added)],
                L.Diff (some vx) (some vy) (h.read s ++ added)⟩)) ∧
        (∀ vx vy : Value, vx.typeOf ≠ vy.typeOf →
          ObjectsEqual L h2 (NewObjectsComparer h s).2 (some vx) (some vy) =
            ⟨[], .returned false⟩ ∧
          ObjectsDiff L h2 (NewObjectsComparer h s).2 (some vx) (some vy) =
            ⟨[.Diff (some vx) (some vy) (h.read s ++ added)],
              L.Diff (some vx) (some vy) (h.read s ++ added)⟩) ∧
        (∀ x y,
          (∀ e ∈ (ObjectsEqual L h2 (NewObjectsComparer h s).2 x y).calls,
            e = .Equal x y (h.read s ++ added)) ∧
          (∀ e ∈ (ObjectsDiff L h2 (NewObjectsComparer h s).2 x y).calls,
            e = .Equal x y (h.read s ++ added) ∨ e = .Diff x y (h.read s ++ added))) ∧
        (∀ s1 s2, sched = s1 ++ s2 →
          ∃ h1 before,
            runSchedule L env fuel (NewObjectsComparer h s).1 s1 = .returned h1 ∧
            h1.optsOf (NewObjectsComparer h s).2 = some (h.read s ++ before) ∧
            before <+: added)) ∧
    (∀ (m : Heap) (t : Nat) (c : ConfigCall) (r : Heap × Nat),
      c.run L env fuel m t = .returned r → r.2 = t) ∧
    ((∀ p ∈ sched, p.1 ≤ h.comparers.length) →
      (∀ p ∈ sched, ∃ o, p.2.option L env fuel = .returned o) →
      ∃ h2, runSchedule L env fuel (NewObjectsComparer h s).1 sched = .returned h2) := by
  have hwf0 := newObjectsComparer_wf h s hwf hs
  have hlook := newObjectsComparer_lookup h s
  have hsep0 : ∀ (part : List (Nat × ConfigCall)), (∀ p ∈ part, p ∈ sched) →
      ∀ p ∈ part, p.1 ≠ (NewObjectsComparer h s).2 →
        ∀ d, (NewObjectsComparer h s).1.comparers[p.1]? = some d →
          d.opts.arr ≠ (⟨s⟩ : objectsComparer).opts.arr := by
    intro part hpart p hp hne d hd
    have hd2 : (h.comparers ++ [⟨s⟩])[p.1]? = some d := hd
    have hne2 : p.1 ≠ h.comparers.length := hne
    have hlt : p.1 < h.comparers.length := by
      have := lt_of_getElem?_some _ _ _ hd2
      simp only [List.length_append, List.length_singleton] at this
      omega
    rw [List.getElem?_append_left hlt] at hd2
    exact hsep p (hpart p hp) d hd2
  have hread0 : (NewObjectsComparer h s).1.read (⟨s⟩ : objectsComparer).opts = h.read s :=
    read_of_arrays _ _ _ rfl
  refine ⟨?_, fun m t c r hr => configCall_run_same L env fuel m t c r hr, ?_⟩
  · intro h2 hrun
    obtain ⟨added, ⟨c, hc, _, hr⟩, hall⟩ := runSchedule_returned L env fuel _ sched _ ⟨s⟩
      (h.read s) hwf0 hlook hread0 (hsep0 sched (fun _ hp => hp)) h2 hrun
    refine ⟨added, by simp [Heap.optsOf, hc, hr], hall, hall.length_eq.symm, ?_, ?_, ?_, ?_⟩
    · intro vx vy ht
      refine ⟨?_, fun he => ?_, fun he => ?_⟩
      · simp only [ObjectsEqual, hc, hr]
        exact objectsEqual_same_type L vx vy _ ht
      · rw [← hr] at he ⊢
        exact objectsDiff_same_type_equal L h2 _ c vx vy hc ht he
      · rw [← hr] at he ⊢
        exact objectsDiff_same_type_differ L h2 _ c vx vy hc ht he
    · intro vx vy ht
      refine ⟨?_, ?_⟩
      · simp only [ObjectsEqual, hc]
        exact objectsEqual_type_mismatch L vx vy _ ht
      · rw [← hr]
        exact objectsDiff_type_mismatch L h2 _ c vx vy hc ht
    · intro x y
      refine ⟨?_, ?_⟩
      · simp only [ObjectsEqual, hc, hr]
        exact objectsEqual_calls L x y _
      · rw [← hr]
        exact objectsDiff_calls L h2 _ c hc x y
    · intro s1 s2 hsplit
      subst hsplit
      rw [runSchedule_append] at hrun
      cases h1run : runSchedule L env fuel (NewObjectsComparer h s).1 s1 with
      | panicked msg => simp [h1run, Outcome.bind] at hrun
      | outOfFuel => simp [h1run, Outcome.bind] at hrun
      | returned h1 =>
        obtain ⟨before, ⟨c1, hc1, _, hr1⟩, hall1⟩ := runSchedule_returned L env fuel _ s1 _ ⟨s⟩
          (h.read s) hwf0 hlook hread0
          (hsep0 s1 (fun _ hp => List.mem_append_left _ hp)) h1 h1run
        refine ⟨h1, before, rfl, by simp [Heap.optsOf, hc1, hr1], ?_⟩
        rw [List.filter_append] at hall
        have ht := List.forall₂_take
          (s1.filter (fun p => decide (p.1 = (NewObjectsComparer h s).2))).length hall
        rw [List.take_left] at ht
        rw [forall₂_option_unique L env fuel _ _ _ hall1 ht]
        exact List.take_prefix _ _
  · intro hlt hall
    apply runSchedule_progress L env fuel sched _ _ hall
    intro p hp
    show p.1 < (h.comparers ++ [(⟨s⟩ : objectsComparer)]).length
    have := hlt p hp
    simp only [List.length_append, List.length_singleton]
    omega

/-- C7 (as amended) at a concrete input: a comparator made from a seed slice
with spare capacity, next to a comparator made without options; two calls on
each, in alternation, the last of which runs the walker on the example
program. -/
theorem C7_options_accumulate_without_sharing_witness :
    (newComparer sharedSeedHeap []).1.WF ∧
    (newComparer sharedSeedHeap []).1.ValidSlice sharedSeed ∧
    ∃ h2 added,
      runSchedule strictLib demoEnv 3
        (NewObjectsComparer (newComparer sharedSeedHeap []).1 sharedSeed).1
        [(1, .IgnoreEmptySlices), (0, .CustomReporter 7), (1, .SortSlices (fun _ _ => false)),
          (0, .IgnoreUnexportedOf [zeroOf "S1"])] = .returned h2 ∧
      h2.optsOf 1 = some ([.Ignore] ++ added) ∧ added.length = 2 ∧
      h2.optsOf 1 = some [.Ignore, SlicesCompareOption, SortSlicesOption (fun _ _ => false)] := by
  have hwf : (newComparer sharedSeedHeap []).1.WF := by
    intro t d hd
    have hd2 : ([⟨⟨1, 0, 0, 0⟩⟩] : List objectsComparer)[t]? = some d := hd
    rcases t with _ | t
    · simp only [List.getElem?_cons_zero, Option.some.injEq] at hd2
      subst hd2
      exact ⟨⟨0, []⟩, rfl, by decide, by decide, by decide, by decide⟩
    · simp at hd2
  have hs : (newComparer sharedSeedHeap []).1.ValidSlice sharedSeed :=
    ⟨⟨4, [.Ignore]⟩, rfl, by decide, by decide, by decide, by decide⟩
  have hC := C7_options_accumulate_without_sharing strictLib demoEnv 3
    (newComparer sharedSeedHeap []).1 sharedSeed
    [(1, .IgnoreEmptySlices), (0, .CustomReporter 7), (1, .SortSlices (fun _ _ => false)),
      (0, .IgnoreUnexportedOf [zeroOf "S1"])] hwf hs (by
    intro p hp d hd
    have hd2 : ([⟨⟨1, 0, 0, 0⟩⟩] : List objectsComparer)[p.1]? = some d := hd
    rcases hpt : p.1 with _ | t
    · rw [hpt] at hd2
      simp only [List.getElem?_cons_zero, Option.some.injEq] at hd2
      subst hd2
      show (1 : Nat) ≠ 0
      decide
    · rw [hpt] at hd2
      simp at hd2)
  obtain ⟨h2, hrun⟩ := hC.2.2 (by
    intro p hp
    simp only [List.mem_cons, List.mem_singleton, List.not_mem_nil, or_false] at hp
    rcases hp with rfl | rfl | rfl | rfl <;> decide) (by
    intro p hp
    simp only [List.mem_cons, List.mem_singleton, List.not_mem_nil, or_false] at hp
    rcases hp with rfl | rfl | rfl | rfl
    · exact ⟨_, rfl⟩
    · exact ⟨_, rfl⟩
    · exact ⟨_, rfl⟩
    · exact ⟨_, rfl⟩)
  obtain ⟨added, hlook, _, hlen, _⟩ := hC.1 h2 hrun
  refine ⟨hwf, hs, h2, added, hrun, hlook, hlen, ?_⟩
  have hrun2 : runSchedule strictLib demoEnv 3
      (NewObjectsComparer (newComparer sharedSeedHeap []).1 sharedSeed).1
      [(1, .IgnoreEmptySlices), (0, .CustomReporter 7), (1, .SortSlices (fun _ _ => false)),
        (0, .IgnoreUnexportedOf [zeroOf "S1"])] = .returned _ := rfl
  rw [hrun2] at hrun
  rw [← Outcome.returned.inj hrun]
  rfl

/-! ## The emptiness option in the engine -/

theorem slicesFilter_nil_empty (e : GoType) :
    slicesFilter (some (.zero (.slice e))) (some (.slice e [])) = true ∧
    slicesFilter (some (.slice e [])) (some (.zero (.slice e))) = true := by
  constructor <;> simp [slicesFilter, Value.typeOf, GoType.kind, Value.Len, Value.IsNil]

theorem nilSlice_nil_empty (e : GoType) :
    nilSlice (some (.zero (.slice e))) = .returned (some (.zero (.slice e))) ∧
    nilSlice (some (.slice e [])) = .returned (some (.zero (.slice e))) := by
  constructor <;> simp [nilSlice, Value.typeOf, Value.toInterface]

theorem compareAny_nil_empty (env : TypeEnv) (e : GoType) (fuel : Nat)
    (path : List (PathStep × GoType)) (step : PathStep) :
    compareAny (exampleRules env) [SlicesCompareOption] (fuel + 3) [] path step (.slice e)
      ⟨some (.zero (.slice e)), true⟩ ⟨some (.slice e []), true⟩ = .returned ⟨1, 0⟩ ∧
    compareAny (exampleRules env) [SlicesCompareOption] (fuel + 3) [] path step (.slice e)
      ⟨some (.slice e []), true⟩ ⟨some (.zero (.slice e)), true⟩ = .returned ⟨1, 0⟩ := by
  constructor <;>
  simp [compareAny, resolve, resolveFrom, validatorFilter, RValue.usable, combine,
    CmpOption.applicable, SlicesCompareOption, slicesFilter, RValue.toIface, Value.toInterface,
    Value.typeOf, GoType.kind, Value.Len, Value.IsNil, nilSlice, Outcome.bind, RValue.ofIface,
    exampleRules, compareByKind, exportersOf, report]

theorem compareAny_succ (R : EngineRules) (opts : List CmpOption) (fuel : Nat) (tail : List Nat)
    (path : List (PathStep × GoType)) (step : PathStep) (t : GoType) (vx vy : RValue) :
    compareAny R opts (fuel + 1) tail path step t vx vy =
      match resolve R opts tail (path ++ [(step, t)]) vx vy with
      | some .ignore => .returned ⟨0, 0⟩
      | some .validator => validatorApply vx vy
      | some (.comparer f) => .returned (report (f vx.toIface vy.toIface))
      | some (.transformer id name f) =>
        (f vx.toIface).bind fun x2 =>
          (f vy.toIface).bind fun y2 =>
            compareAny R opts fuel (tail ++ [id]) (path ++ [(step, t)]) (.Transform name)
              .interface (RValue.ofIface x2) (RValue.ofIface y2)
      | some .conflict => .panicked "ambiguous set of applicable options"
      | none =>
        R.byKind (exportersOf opts)
          (fun s2 t2 a b => compareAny R opts fuel [] (path ++ [(step, t)]) s2 t2 a b)
          (path ++ [(step, t)]) t vx vy := rfl

theorem toInterface_of_struct (x : Value) (n : TypeName) (h : x.typeOf = .named n) :
    x.toInterface = some x := by
  cases x with
  | zero t =>
    simp only [Value.typeOf] at h
    subst h
    rfl
  | iface d => simp [Value.typeOf] at h
  | _ => rfl

theorem compareFields_agree (env : TypeEnv) (fuel : Nat) (n : TypeName) (x y : Value) :
    ∀ (fields : List Field) (i : Nat),
      (∀ j fld, fields[j]? = some fld →
        FieldAgrees env [SlicesCompareOption] (fuel + 3) n x y (i + j) fld) →
      ∃ r, compareFields
        (fun s2 t2 a b => compareAny (exampleRules env) [SlicesCompareOption] (fuel + 3) []
          [(.Root, .named n)] s2 t2 a b) false x y i fields = .returned r ∧ r.NumDiff = 0 := by
  intro fields
  induction fields with
  | nil => intro i _; exact ⟨⟨0, 0⟩, rfl, rfl⟩
  | cons fld rest ih =>
    intro i hall
    obtain ⟨r2, hr2, hd2⟩ := ih (i + 1) (by
      intro j f hj
      have := hall (j + 1) f (by simpa using hj)
      rwa [show i + (j + 1) = i + 1 + j by omega] at this)
    unfold compareFields
    split
    · exact ⟨r2, hr2, hd2⟩
    · have h0 := hall 0 fld (by simp)
      simp only [Nat.add_zero] at h0
      rcases h0 with ⟨hex, e, hte, hpair⟩ | ⟨r, hr, hd⟩
      · rcases hpair with ⟨hx, hy⟩ | ⟨hx, hy⟩
        · refine ⟨(⟨1, 0⟩ : Result).add r2, ?_, by simp [Result.add, hd2]⟩
          simp only [hex, Bool.or_false, hte, hx, hy] at *
          rw [(compareAny_nil_empty env e fuel _ _).1]
          simp [Outcome.bind, hr2]
        · refine ⟨(⟨1, 0⟩ : Result).add r2, ?_, by simp [Result.add, hd2]⟩
          simp only [hex, Bool.or_false, hte, hx, hy] at *
          rw [(compareAny_nil_empty env e fuel _ _).2]
          simp [Outcome.bind, hr2]
      · refine ⟨r.add r2, ?_, by simp [Result.add, hd, hd2]⟩
        simp only [Bool.or_false]
        rw [hr]
        simp [Outcome.bind, hr2]

theorem cmpEqual_structs_agree (env : TypeEnv) (fuel : Nat) (n : TypeName) (x y : Value)
    (hx : x.typeOf = .named n) (hy : y.typeOf = .named n)
    (hall : ∀ i fld, (env n)[i]? = some fld →
      FieldAgrees env [SlicesCompareOption] (fuel + 3) n x y i fld) :
    cmpEqual (exampleRules env) (fuel + 4) (some x) (some y) [SlicesCompareOption] =
      .returned true := by
  obtain ⟨r, hr, hd⟩ := compareFields_agree env fuel n x y (env n) 0
    (by intro j fld hj; simpa using hall j fld hj)
  have hfx : slicesFilter (some x) (some y) = false := by
    simp [slicesFilter, hx, GoType.kind]
  simp only [cmpEqual, SlicesCompareOption, List.all_cons, CmpOption.isFiltered, List.all_nil,
    Bool.and_self, if_true, rootStep, hx, hy]
  rw [compareAny_succ]
  simp only [resolve, resolveFrom, validatorFilter, RValue.usable, combine,
    CmpOption.applicable, RValue.toIface, toInterface_of_struct x n hx,
    toInterface_of_struct y n hy, hfx, exampleRules, compareByKind, exportersOf, mayForce]
  simp only [exampleRules, SlicesCompareOption] at hr
  simp [hr, Outcome.bind, hd]

theorem withIgnoreEmptySlices_fresh (h : Heap) (s : Slice) (hs : h.ValidSlice s) :
    ∃ h1, WithIgnoreEmptySlices (NewObjectsComparer h s).1 (NewObjectsComparer h s).2 =
        .returned (h1, (NewObjectsComparer h s).2) ∧
      h1.Holds (NewObjectsComparer h s).2 (h.read s ++ [SlicesCompareOption]) :=
  appendOption_of_holds _ _ _ SlicesCompareOption (holds_of_new h s hs)

/-- C10: the filter of the emptiness option accepts every pair of a nil slice and
an empty slice of one type (in either order), and its transformer maps both to
the nil slice of that type.  Hence for two structs of one type in which every
field either is such a pair (in an exported field) or compares without
difference, `ObjectsEqual` on a comparator made by `NewObjectsComparer` from an
empty slice of options (with or without spare capacity) and configured with
`WithIgnoreEmptySlices()` calls the engine once and returns true. -/
theorem C10_nil_and_empty_slices_equal (env : TypeEnv) (fuel : Nat) (h : Heap) (s : Slice)
    (n : TypeName) (x y : Value) (hs : h.ValidSlice s) (hempty : h.read s = [])
    (hx : x.typeOf = .named n) (hy : y.typeOf = .named n)
    (hall : ∀ i fld, (env n)[i]? = some fld →
      FieldAgrees env [SlicesCompareOption] (fuel + 3) n x y i fld) :
    (∀ e : GoType,
      slicesFilter (some (.zero (.slice e))) (some (.slice e [])) = true ∧
      slicesFilter (some (.slice e [])) (some (.zero (.slice e))) = true ∧
      nilSlice (some (.zero (.slice e))) = .returned (some (.zero (.slice e))) ∧
      nilSlice (some (.slice e [])) = .returned (some (.zero (.slice e)))) ∧
    ∃ h1, WithIgnoreEmptySlices (NewObjectsComparer h s).1 (NewObjectsComparer h s).2 =
        .returned (h1, (NewObjectsComparer h s).2) ∧
      ObjectsEqual (goCmp (exampleRules env) (fuel + 4)) h1 (NewObjectsComparer h s).2
        (some x) (some y) =
          ⟨[.Equal (some x) (some y) [SlicesCompareOption]], .returned true⟩ := by
  refine ⟨fun e => ⟨(slicesFilter_nil_empty e).1, (slicesFilter_nil_empty e).2,
    (nilSlice_nil_empty e).1, (nilSlice_nil_empty e).2⟩, ?_⟩
  obtain ⟨h1, hrun, hlook⟩ := withIgnoreEmptySlices_fresh h s hs
  refine ⟨h1, hrun, ?_⟩
  rw [objectsEqual_of_holds _ h1 _ _ hlook, hempty, List.nil_append]
  rw [objectsEqual_same_type _ x y _ (hx.trans hy.symm)]
  simp only [goCmp]
  rw [cmpEqual_structs_agree env fuel n x y hx hy hall]

/-- C10 at a concrete input: `Person{Name: "A", Tags: nil}` and
`Person{Name: "A", Tags: []string{}}` compare equal after
`WithIgnoreEmptySlices()`; on a comparator without options they compare unequal. -/
theorem C10_nil_and_empty_slices_equal_witness :
    (∃ h1, WithIgnoreEmptySlices (newComparer emptyHeap []).1 (newComparer emptyHeap []).2 =
        .returned (h1, (newComparer emptyHeap []).2) ∧
      ObjectsEqual (goCmp (exampleRules personEnv) 5) h1 (newComparer emptyHeap []).2
        personNilTags personEmptyTags =
          ⟨[.Equal personNilTags personEmptyTags [SlicesCompareOption]], .returned true⟩) ∧
    (ObjectsEqual (goCmp (exampleRules personEnv) 5) (newComparer emptyHeap []).1
      (newComparer emptyHeap []).2 personNilTags personEmptyTags).result = .returned false :=
  ⟨(C10_nil_and_empty_slices_equal personEnv 1 (emptyHeap.variadic []).1
      (emptyHeap.variadic []).2 (exampleType "Person")
      (.struct (exampleType "Person") [.str "A", .zero (.slice .string)])
      (.struct (exampleType "Person") [.str "A", .slice .string []])
      (variadic_valid emptyHeap []).1 rfl rfl rfl
      (by
        intro i fld hi
        have hp : personEnv (exampleType "Person") =
            [⟨"Name", .string, true⟩, ⟨"Tags", .slice .string, true⟩] := rfl
        rw [hp] at hi
        rcases i with _ | _ | i
        · simp only [List.getElem?_cons_zero, Option.some.injEq] at hi
          subst hi
          exact Or.inr ⟨⟨1, 0⟩, rfl, rfl⟩
        · simp only [List.getElem?_cons_succ, List.getElem?_cons_zero, Option.some.injEq] at hi
          subst hi
          exact Or.inl ⟨rfl, .string, rfl, Or.inl ⟨rfl, rfl⟩⟩
        · simp at hi)).2, rfl⟩

/-! ## The order of the options in the engine -/

theorem swapAt_injective (n : Nat) : Function.Injective (swapAt n) := by
  intro a b h
  unfold swapAt at h
  split_ifs at h <;> omega

theorem swapAt_of_lt (n i : Nat) (h : i < n) : swapAt n i = i := by
  unfold swapAt
  split_ifs <;> omega

theorem applicable_rename (R : EngineRules) (σ : Nat → Nat) (hσ : Function.Injective σ)
    (tail : List Nat) (path : List (PathStep × GoType)) (vx vy : RValue) (id : Nat) :
    ∀ o : CmpOption, o.applicable R (σ id) (tail.map σ) path vx vy =
      (o.applicable R id tail path vx vy).map (Applicable.rename σ) := by
  have hmem : σ id ∈ tail.map σ ↔ id ∈ tail := List.mem_map_of_injective hσ
  intro o
  induction o with
  | Ignore => rfl
  | Comparer f => rfl
  | Transformer name f =>
    simp only [CmpOption.applicable, hmem]
    split <;> rfl
  | FilterValues f opt ih =>
    simp only [CmpOption.applicable]
    split
    · exact ih
    · rfl
  | SortSlices less =>
    simp only [CmpOption.applicable, hmem]
    split
    · split <;> rfl
    · rfl
  | IgnoreUnexported typs =>
    simp only [CmpOption.applicable]
    split <;> rfl
  | IgnoreFields typ names =>
    simp only [CmpOption.applicable]
    split <;> rfl
  | AllowUnexported typs => rfl
  | Reporter rep => rfl

theorem combine_rename (σ : Nat → Nat) (out a : Option Applicable) :
    combine (out.map (Applicable.rename σ)) (a.map (Applicable.rename σ)) =
      (combine out a).map (Applicable.rename σ) := by
  rcases out with _ | (_ | _ | _ | _ | _) <;> rcases a with _ | (_ | _ | _ | _ | _) <;> rfl

theorem combine_swap (out a b : Option Applicable) :
    combine (combine out a) b = combine (combine out b) a := by
  rcases out with _ | (_ | _ | _ | _ | _) <;> rcases a with _ | (_ | _ | _ | _ | _) <;>
    rcases b with _ | (_ | _ | _ | _ | _) <;> rfl

theorem resolveFrom_append (R : EngineRules) (tail : List Nat) (path : List (PathStep × GoType))
    (vx vy : RValue) :
    ∀ (pre rest : List CmpOption) (i : Nat) (out : Option Applicable),
      resolveFrom R tail path vx vy i (pre ++ rest) out =
        resolveFrom R tail path vx vy (i + pre.length) rest
          (resolveFrom R tail path vx vy i pre out) := by
  intro pre
  induction pre with
  | nil => intro rest i out; simp [resolveFrom]
  | cons o pre ih =>
    intro rest i out
    simp only [List.cons_append, resolveFrom, List.length_cons]
    have := ih rest (i + 1) (combine out (o.applicable R i tail path vx vy))
    rw [show i + (pre.length + 1) = i + 1 + pre.length by omega]
    exact this

theorem resolveFrom_rename_fixed (R : EngineRules) (σ : Nat → Nat) (hσ : Function.Injective σ)
    (tail : List Nat) (path : List (PathStep × GoType)) (vx vy : RValue) (n : Nat)
    (hfix : ∀ i, i < n → σ i = i) :
    ∀ (pre : List CmpOption) (i : Nat) (out : Option Applicable), i + pre.length ≤ n →
      resolveFrom R (tail.map σ) path vx vy i pre (out.map (Applicable.rename σ)) =
        (resolveFrom R tail path vx vy i pre out).map (Applicable.rename σ) := by
  intro pre
  induction pre with
  | nil => intro i out _; rfl
  | cons o pre ih =>
    intro i out hle
    simp only [List.length_cons] at hle
    simp only [resolveFrom]
    have h1 := applicable_rename R σ hσ tail path vx vy i o
    rw [hfix i (by omega)] at h1
    rw [h1, combine_rename]
    exact ih (i + 1) _ (by omega)

theorem validatorFilter_rename (σ : Nat → Nat) (vx vy : RValue) :
    (validatorFilter vx vy).map (Applicable.rename σ) = validatorFilter vx vy := by
  unfold validatorFilter
  split <;> rfl

theorem resolve_swap_last (R : EngineRules) (pre : List CmpOption) (a b : CmpOption)
    (tail : List Nat) (path : List (PathStep × GoType)) (vx vy : RValue) :
    resolve R (pre ++ [b, a]) (tail.map (swapAt pre.length)) path vx vy =
      (resolve R (pre ++ [a, b]) tail path vx vy).map (Applicable.rename (swapAt pre.length)) := by
  have hσ := swapAt_injective pre.length
  have hn : swapAt pre.length pre.length = pre.length + 1 := by simp [swapAt]
  have hn1 : swapAt pre.length (pre.length + 1) = pre.length := by simp [swapAt]
  simp only [resolve, resolveFrom_append, resolveFrom, Nat.zero_add]
  have hpre := resolveFrom_rename_fixed R _ hσ tail path vx vy pre.length
    (fun i hi => swapAt_of_lt _ i hi) pre 0 (validatorFilter vx vy) (by omega)
  rw [validatorFilter_rename] at hpre
  rw [hpre]
  have ha := applicable_rename R _ hσ tail path vx vy pre.length a
  have hb := applicable_rename R _ hσ tail path vx vy (pre.length + 1) b
  rw [hn] at ha
  rw [hn1] at hb
  rw [ha, hb, combine_rename, combine_rename, combine_swap]

theorem compareAny_renamed (R : EngineRules) (opts1 opts2 : List CmpOption) (σ : Nat → Nat)
    (hres : ∀ tail path vx vy, resolve R opts2 (tail.map σ) path vx vy =
      (resolve R opts1 tail path vx vy).map (Applicable.rename σ))
    (hexp : exportersOf opts2 = exportersOf opts1) :
    ∀ (fuel : Nat) (tail : List Nat) (path : List (PathStep × GoType)) (step : PathStep)
      (t : GoType) (vx vy : RValue),
      compareAny R opts2 fuel (tail.map σ) path step t vx vy =
        compareAny R opts1 fuel tail path step t vx vy := by
  intro fuel
  induction fuel with
  | zero => intro tail path step t vx vy; rfl
  | succ f ih =>
    intro tail path step t vx vy
    rw [compareAny_succ, compareAny_succ, hres]
    cases hr : resolve R opts1 tail (path ++ [(step, t)]) vx vy with
    | none =>
      simp only [Option.map_none', hexp]
      congr 1
      funext s2 t2 a b
      exact ih [] _ s2 t2 a b
    | some ap =>
      cases ap with
      | transformer id name f =>
        simp only [Option.map_some', Applicable.rename]
        congr 1
        funext x2
        congr 1
        funext y2
        have := ih (tail ++ [id]) (path ++ [(step, t)]) (.Transform name) .interface
          (RValue.ofIface x2) (RValue.ofIface y2)
        simpa using this
      | _ => rfl

theorem exportersOf_append (pre rest : List CmpOption) :
    exportersOf (pre ++ rest) = exportersOf pre ++ exportersOf rest := by
  induction pre with
  | nil => rfl
  | cons o pre ih => cases o <;> simp [exportersOf, ih]

theorem cmpEqual_swap_last (R : EngineRules) (fuel : Nat) (x y : Iface) (pre : List CmpOption)
    (a b : CmpOption) (hexp : exportersOf [b, a] = exportersOf [a, b]) :
    cmpEqual R fuel x y (pre ++ [b, a]) = cmpEqual R fuel x y (pre ++ [a, b]) := by
  have hall : (pre ++ [b, a]).all CmpOption.isFiltered =
      (pre ++ [a, b]).all CmpOption.isFiltered := by
    simp only [List.all_append, List.all_cons, List.all_nil, Bool.and_true]
    rw [Bool.and_comm b.isFiltered]
  have hsim := compareAny_renamed R (pre ++ [a, b]) (pre ++ [b, a]) (swapAt pre.length)
    (fun tail path vx vy => resolve_swap_last R pre a b tail path vx vy)
    (by rw [exportersOf_append, exportersOf_append, hexp])
    fuel [] [] .Root (rootStep x y).1 (rootStep x y).2.1 (rootStep x y).2.2
  simp only [List.map_nil] at hsim
  simp only [cmpEqual, hall, hsim]

theorem objectsEqual_result_congr (L : CmpLib) (x y : Iface) (opts1 opts2 : List CmpOption)
    (h : L.Equal x y opts1 = L.Equal x y opts2) :
    (objectsEqual L x y opts1).result = (objectsEqual L x y opts2).result := by
  cases x with
  | none => simp [objectsEqual_nil_left]
  | some vx =>
    cases y with
    | none => simp [objectsEqual_nil_right]
    | some vy =>
      by_cases ht : vx.typeOf = vy.typeOf
      · simp [objectsEqual_same_type L vx vy _ ht, h]
      · simp [objectsEqual_type_mismatch L vx vy _ ht]

theorem appendOption_twice (h : Heap) (oc : Nat) (cur : List CmpOption) (a b : CmpOption)
    (hoc : h.Holds oc cur) :
    ∃ h1, (appendOption h oc a).bind (fun c => appendOption c.1 c.2 b) = .returned (h1, oc) ∧
      h1.Holds oc (cur ++ [a, b]) := by
  obtain ⟨m1, ha1, hl1⟩ := appendOption_of_holds h oc cur a hoc
  obtain ⟨m2, ha2, hl2⟩ := appendOption_of_holds m1 oc _ b hl1
  refine ⟨m2, ?_, ?_⟩
  · simp only [ha1, Outcome.bind, ha2]
  · simpa using hl2

/-- C8: on a comparator made by `NewObjectsComparer(seed...)` from any slice of
options, the chain `WithIgnoreEmptySlices().WithSortSlices(r)` and the chain
`WithSortSlices(r).WithIgnoreEmptySlices()` both return the comparator; its option
list ends with the two options in the order of the calls, and `ObjectsEqual(x, y)`
has the same outcome after either chain, for every `x`, `y`, every ordering
function `r` and every choice of the engine's remaining rules. -/
theorem C8_emptiness_and_sorting_commute (R : EngineRules) (fuel : Nat) (h : Heap)
    (s : Slice) (r : LessSlices) (x y : Iface) (hs : h.ValidSlice s) :
    ∃ h1 h2,
      (WithIgnoreEmptySlices (NewObjectsComparer h s).1 (NewObjectsComparer h s).2).bind
        (fun c => WithSortSlices c.1 c.2 r) = .returned (h1, (NewObjectsComparer h s).2) ∧
      (WithSortSlices (NewObjectsComparer h s).1 (NewObjectsComparer h s).2 r).bind
        (fun c => WithIgnoreEmptySlices c.1 c.2) = .returned (h2, (NewObjectsComparer h s).2) ∧
      h1.optsOf (NewObjectsComparer h s).2 =
        some (h.read s ++ [SlicesCompareOption, SortSlicesOption r]) ∧
      h2.optsOf (NewObjectsComparer h s).2 =
        some (h.read s ++ [SortSlicesOption r, SlicesCompareOption]) ∧
      (ObjectsEqual (goCmp R fuel) h1 (NewObjectsComparer h s).2 x y).result =
        (ObjectsEqual (goCmp R fuel) h2 (NewObjectsComparer h s).2 x y).result := by
  obtain ⟨h1, hr1, hl1⟩ := appendOption_twice _ _ _ SlicesCompareOption (SortSlicesOption r)
    (holds_of_new h s hs)
  obtain ⟨h2, hr2, hl2⟩ := appendOption_twice _ _ _ (SortSlicesOption r) SlicesCompareOption
    (holds_of_new h s hs)
  refine ⟨h1, h2, hr1, hr2, optsOf_of_holds _ _ _ hl1, optsOf_of_holds _ _ _ hl2, ?_⟩
  rw [objectsEqual_of_holds _ h1 _ _ hl1, objectsEqual_of_holds _ h2 _ _ hl2]
  apply objectsEqual_result_congr
  exact (cmpEqual_swap_last R fuel x y (h.read s) SlicesCompareOption (SortSlicesOption r)
    rfl).symm

/-- C8 at a concrete input: a comparator made from a seed slice with spare
capacity, the two `Person` values, and an ordering function that never holds. -/
theorem C8_emptiness_and_sorting_commute_witness :
    sharedSeedHeap.ValidSlice sharedSeed ∧
    ∃ h1 h2,
      (WithIgnoreEmptySlices (NewObjectsComparer sharedSeedHeap sharedSeed).1
          (NewObjectsComparer sharedSeedHeap sharedSeed).2).bind
        (fun c => WithSortSlices c.1 c.2 (fun _ _ => false)) =
          .returned (h1, (NewObjectsComparer sharedSeedHeap sharedSeed).2) ∧
      (WithSortSlices (NewObjectsComparer sharedSeedHeap sharedSeed).1
          (NewObjectsComparer sharedSeedHeap sharedSeed).2 (fun _ _ => false)).bind
        (fun c => WithIgnoreEmptySlices c.1 c.2) =
          .returned (h2, (NewObjectsComparer sharedSeedHeap sharedSeed).2) ∧
      h1.optsOf (NewObjectsComparer sharedSeedHeap sharedSeed).2 =
        some (sharedSeedHeap.read sharedSeed ++
          [SlicesCompareOption, SortSlicesOption (fun _ _ => false)]) ∧
      h2.optsOf (NewObjectsComparer sharedSeedHeap sharedSeed).2 =
        some (sharedSeedHeap.read sharedSeed ++
          [SortSlicesOption (fun _ _ => false), SlicesCompareOption]) ∧
      (ObjectsEqual (goCmp (exampleRules personEnv) 5) h1
          (NewObjectsComparer sharedSeedHeap sharedSeed).2 personNilTags personEmptyTags).result =
        (ObjectsEqual (goCmp (exampleRules personEnv) 5) h2
          (NewObjectsComparer sharedSeedHeap sharedSeed).2 personNilTags personEmptyTags).result :=
  ⟨⟨⟨4, [.Ignore]⟩, rfl, by decide, by decide, by decide, by decide⟩,
    C8_emptiness_and_sorting_commute (exampleRules personEnv) 5 sharedSeedHeap sharedSeed
      (fun _ _ => false) personNilTags personEmptyTags ⟨⟨4, [.Ignore]⟩, rfl, by decide, by decide, by decide, by decide⟩⟩

/-! ## The emptiness option given twice -/

theorem applicable_transformer_id (R : EngineRules) (id : Nat) (tail : List Nat)
    (path : List (PathStep × GoType)) (vx vy : RValue) (id2 : Nat) (name : String)
    (f : Iface → Outcome Iface) :
    ∀ o : CmpOption, o.applicable R id tail path vx vy = some (.transformer id2 name f) →
      id2 = id := by
  intro o
  induction o with
  | Transformer nm g =>
    intro h
    simp only [CmpOption.applicable] at h
    split at h
    · cases h
    · simp only [Option.some.injEq, Applicable.transformer.injEq] at h
      exact h.1.symm
  | FilterValues g opt ih =>
    intro h
    simp only [CmpOption.applicable] at h
    split at h
    · exact ih h
    · cases h
  | SortSlices less =>
    intro h
    simp only [CmpOption.applicable] at h
    split at h
    · split at h
      · cases h
      · simp only [Option.some.injEq, Applicable.transformer.injEq] at h
        exact h.1.symm
    · cases h
  | IgnoreUnexported typs =>
    intro h
    simp only [CmpOption.applicable] at h
    split at h <;> cases h
  | IgnoreFields typ names =>
    intro h
    simp only [CmpOption.applicable] at h
    split at h <;> cases h
  | _ => intro h; cases h

theorem combine_transformer (out a : Option Applicable) (id : Nat) (name : String)
    (f : Iface → Outcome Iface) (h : combine out a = some (.transformer id name f)) :
    out = some (.transformer id name f) ∨ a = some (.transformer id name f) := by
  rcases out with _ | (_ | _ | _ | _ | _) <;> rcases a with _ | (_ | _ | _ | _ | _) <;>
    simp_all [combine]

theorem resolveFrom_transformer_id (R : EngineRules) (tail : List Nat)
    (path : List (PathStep × GoType)) (vx vy : RValue) (id2 : Nat) (name : String)
    (f : Iface → Outcome Iface) :
    ∀ (pre : List CmpOption) (i : Nat) (out : Option Applicable),
      resolveFrom R tail path vx vy i pre out = some (.transformer id2 name f) →
      out = some (.transformer id2 name f) ∨ (i ≤ id2 ∧ id2 < i + pre.length) := by
  intro pre
  induction pre with
  | nil => intro i out h; exact Or.inl h
  | cons o pre ih =>
    intro i out h
    simp only [resolveFrom] at h
    rcases ih (i + 1) _ h with h1 | ⟨h1, h2⟩
    · rcases combine_transformer _ _ _ _ _ h1 with h3 | h3
      · exact Or.inl h3
      · have := applicable_transformer_id R i tail path vx vy id2 name f o h3
        subst this
        right
        simp
    · right
      simp only [List.length_cons]
      omega

theorem combine_none_right (out : Option Applicable) : combine out none = out := by
  rcases out with _ | (_ | _ | _ | _ | _) <;> rfl

theorem slicesOption_applicable (R : EngineRules) (id : Nat) (tail : List Nat)
    (path : List (PathStep × GoType)) (vx vy : RValue) (hid : id ∉ tail) :
    SlicesCompareOption.applicable R id tail path vx vy =
      if vx.usable && vy.usable && slicesFilter vx.toIface vy.toIface then
        some (.transformer id "nilSlice" nilSlice)
      else none := by
  simp [SlicesCompareOption, CmpOption.applicable, hid]

theorem compareAny_once_of_twice (R : EngineRules) (hR : PropagatesFailures R)
    (pre : List CmpOption) :
    ∀ (fuel : Nat) (tail : List Nat) (path : List (PathStep × GoType)) (step : PathStep)
      (t : GoType) (vx vy : RValue) (r : Result), (∀ i ∈ tail, i < pre.length) →
      compareAny R (pre ++ [SlicesCompareOption, SlicesCompareOption]) fuel tail path step t
        vx vy = .returned r →
      compareAny R (pre ++ [SlicesCompareOption]) fuel tail path step t vx vy = .returned r := by
  intro fuel
  induction fuel with
  | zero => intro tail path step t vx vy r _ h; cases h
  | succ fuel ih =>
    intro tail path step t vx vy r htail h
    rw [compareAny_succ] at h ⊢
    have hn : pre.length ∉ tail := fun hm => Nat.lt_irrefl _ (htail _ hm)
    have hn1 : pre.length + 1 ∉ tail := fun hm => by have := htail _ hm; omega
    have hex : exportersOf (pre ++ [SlicesCompareOption, SlicesCompareOption]) =
        exportersOf (pre ++ [SlicesCompareOption]) := by
      rw [exportersOf_append, exportersOf_append]; rfl
    have hpre := resolveFrom_transformer_id R tail (path ++ [(step, t)]) vx vy
    simp only [resolve, resolveFrom_append, resolveFrom, Nat.zero_add,
      slicesOption_applicable R _ tail _ vx vy hn,
      slicesOption_applicable R _ tail _ vx vy hn1] at h ⊢
    generalize hout : resolveFrom R tail (path ++ [(step, t)]) vx vy 0 pre
      (validatorFilter vx vy) = out at h ⊢
    by_cases hc : (vx.usable && vy.usable && slicesFilter vx.toIface vy.toIface) = true
    · simp only [hc, if_true] at h ⊢
      rcases out with _ | (_ | _ | _ | _ | _) <;> simp_all [combine]
    · simp only [hc, if_false, Bool.false_eq_true, combine_none_right] at h ⊢
      rcases out with _ | ap
      · simp only [hex] at h
        refine hR _ _ _ _ _ _ _ _ ?_ h
        intro s t2 a b r2 hrec
        exact ih [] _ s t2 a b r2 (by simp) hrec
      · cases ap with
        | transformer id2 name f =>
          simp only at h ⊢
          have hid : id2 < pre.length := by
            rcases hpre id2 name f pre 0 (validatorFilter vx vy) hout with h1 | ⟨_, h1⟩
            · unfold validatorFilter at h1
              split at h1 <;> cases h1
            · omega
          cases hfx : f vx.toIface with
          | returned x2 =>
            cases hfy : f vy.toIface with
            | returned y2 =>
              simp only [hfx, hfy, Outcome.bind] at h ⊢
              refine ih _ _ _ _ _ _ r ?_ h
              intro i hi
              rcases List.mem_append.1 hi with h1 | h1
              · exact htail i h1
              · simp only [List.mem_singleton] at h1
                omega
            | panicked m => simp [hfx, hfy, Outcome.bind] at h
            | outOfFuel => simp [hfx, hfy, Outcome.bind] at h
          | panicked m => simp [hfx, Outcome.bind] at h
          | outOfFuel => simp [hfx, Outcome.bind] at h
        | _ => exact h

theorem cmpEqual_once_of_twice (R : EngineRules) (hR : PropagatesFailures R) (fuel : Nat)
    (x y : Iface) (pre : List CmpOption) (v : Bool)
    (h : cmpEqual R fuel x y (pre ++ [SlicesCompareOption, SlicesCompareOption]) = .returned v) :
    cmpEqual R fuel x y (pre ++ [SlicesCompareOption]) = .returned v := by
  have hall : (pre ++ [SlicesCompareOption, SlicesCompareOption]).all CmpOption.isFiltered =
      (pre ++ [SlicesCompareOption]).all CmpOption.isFiltered := by
    simp [List.all_append, SlicesCompareOption, CmpOption.isFiltered]
  simp only [cmpEqual, hall] at h ⊢
  split at h
  · rename_i hf
    simp only [hf, if_true]
    cases hc : compareAny R (pre ++ [SlicesCompareOption, SlicesCompareOption]) fuel [] []
        .Root (rootStep x y).1 (rootStep x y).2.1 (rootStep x y).2.2 with
    | returned r =>
      rw [compareAny_once_of_twice R hR pre fuel [] [] .Root _ _ _ r (by simp) hc]
      simpa [hc, Outcome.bind] using h
    | panicked m => simp [hc, Outcome.bind] at h
    | outOfFuel => simp [hc, Outcome.bind] at h
  · cases h

theorem objectsEqual_once_of_twice (R : EngineRules) (hR : PropagatesFailures R) (fuel : Nat)
    (x y : Iface) (pre : List CmpOption) (v : Bool)
    (h : (objectsEqual (goCmp R fuel) x y
      (pre ++ [SlicesCompareOption, SlicesCompareOption])).result = .returned v) :
    (objectsEqual (goCmp R fuel) x y (pre ++ [SlicesCompareOption])).result = .returned v := by
  cases x with
  | none => simp [objectsEqual_nil_left] at h
  | some vx =>
    cases y with
    | none => simp [objectsEqual_nil_right] at h
    | some vy =>
      by_cases ht : vx.typeOf = vy.typeOf
      · rw [objectsEqual_same_type _ vx vy _ ht] at h ⊢
        exact cmpEqual_once_of_twice R hR fuel _ _ pre v h
      · rw [objectsEqual_type_mismatch _ vx vy _ ht] at h ⊢
        exact h

theorem cmpDiff_empty_iff (R : EngineRules) (fuel : Nat) (x y : Iface) (opts : List CmpOption) :
    cmpDiff R fuel x y opts = .returned "" ↔ cmpEqual R fuel x y opts = .returned true := by
  unfold cmpDiff
  cases hc : cmpEqual R fuel x y opts with
  | returned v =>
    cases v with
    | true => simp [Outcome.bind]
    | false =>
      simp only [Outcome.bind, Bool.false_eq_true, if_false, Outcome.returned.injEq, iff_false]
      split
      · intro h; cases h
      · rename_i hne
        intro h
        simp only [Outcome.returned.injEq] at h
        exact hne h
  | panicked m => simp [Outcome.bind]
  | outOfFuel => simp [Outcome.bind]

theorem objectsDiff_empty_once_of_twice (R : EngineRules) (hR : PropagatesFailures R)
    (fuel : Nat) (h1 h2 : Heap) (oc : Nat) (pre : List CmpOption) (x y : Iface)
    (hl1 : h1.Holds oc (pre ++ [SlicesCompareOption]))
    (hl2 : h2.Holds oc (pre ++ [SlicesCompareOption, SlicesCompareOption]))
    (h : (ObjectsDiff (goCmp R fuel) h2 oc x y).result = .returned "") :
    (ObjectsDiff (goCmp R fuel) h1 oc x y).result = .returned "" := by
  obtain ⟨c1, hc1, _, hr1⟩ := hl1
  obtain ⟨c2, hc2, _, hr2⟩ := hl2
  simp only [ObjectsDiff, hc1, hc2, hr1, hr2] at h ⊢
  cases he : (objectsEqual (goCmp R fuel) x y
      (pre ++ [SlicesCompareOption, SlicesCompareOption])).result with
  | returned v =>
    have he1 := objectsEqual_once_of_twice R hR fuel x y pre v he
    cases v with
    | true => simp [he1]
    | false =>
      simp only [he, he1] at h ⊢
      simp only [goCmp] at h ⊢
      rw [cmpDiff_empty_iff] at h ⊢
      exact cmpEqual_once_of_twice R hR fuel x y pre true h
  | panicked m => simp [he] at h
  | outOfFuel => simp [he] at h

theorem bind_returned_mono {α β : Type} (a a2 : Outcome α) (f f2 : α → Outcome β) (r : β)
    (ha : ∀ v, a = .returned v → a2 = .returned v)
    (hf : ∀ v r2, f v = .returned r2 → f2 v = .returned r2)
    (h : a.bind f = .returned r) : a2.bind f2 = .returned r := by
  cases hav : a with
  | returned v =>
    rw [ha v hav]
    rw [hav] at h
    exact hf v r h
  | panicked m => rw [hav] at h; cases h
  | outOfFuel => rw [hav] at h; cases h

theorem compareFields_mono
    (recA recB : PathStep → GoType → RValue → RValue → Outcome Result)
    (hrec : ∀ s t2 a b r2, recA s t2 a b = .returned r2 → recB s t2 a b = .returned r2)
    (force : Bool) (x y : Value) :
    ∀ (fields : List Field) (i : Nat) (r : Result),
      compareFields recA force x y i fields = .returned r →
      compareFields recB force x y i fields = .returned r := by
  intro fields
  induction fields with
  | nil => intro i r h; exact h
  | cons fld rest ih =>
    intro i r h
    unfold compareFields at h ⊢
    split
    · rename_i hs
      simp only [hs, if_true] at h
      exact ih _ _ h
    · rename_i hs
      simp only [hs, if_false] at h
      refine bind_returned_mono _ _ _ _ r (fun v hv => hrec _ _ _ _ v hv) ?_ h
      intro v r2 h2
      exact bind_returned_mono _ _ _ _ r2 (fun w hw => ih _ w hw) (fun _ _ h3 => h3) h2

theorem compareElems_mono
    (recA recB : PathStep → GoType → RValue → RValue → Outcome Result)
    (hrec : ∀ s t2 a b r2, recA s t2 a b = .returned r2 → recB s t2 a b = .returned r2)
    (e : GoType) :
    ∀ (as bs : List Value) (i : Nat) (r : Result),
      compareElems recA e i as bs = .returned r → compareElems recB e i as bs = .returned r := by
  intro as
  induction as with
  | nil =>
    intro bs
    induction bs with
    | nil => intro i r h; simpa [compareElems] using h
    | cons b bs ihb =>
      intro i r h
      simp only [compareElems] at h ⊢
      refine bind_returned_mono _ _ _ _ r (fun v hv => hrec _ _ _ _ v hv) ?_ h
      intro v r2 h2
      exact bind_returned_mono _ _ _ _ r2 (fun w hw => ihb _ w hw) (fun _ _ h3 => h3) h2
  | cons a as ih =>
    intro bs i r h
    cases bs with
    | nil =>
      simp only [compareElems] at h ⊢
      refine bind_returned_mono _ _ _ _ r (fun v hv => hrec _ _ _ _ v hv) ?_ h
      intro v r2 h2
      exact bind_returned_mono _ _ _ _ r2 (fun w hw => ih _ _ w hw) (fun _ _ h3 => h3) h2
    | cons b bs =>
      simp only [compareElems] at h ⊢
      refine bind_returned_mono _ _ _ _ r (fun v hv => hrec _ _ _ _ v hv) ?_ h
      intro v r2 h2
      exact bind_returned_mono _ _ _ _ r2 (fun w hw => ih _ _ w hw) (fun _ _ h3 => h3) h2

theorem exampleRules_propagatesFailures (env : TypeEnv) : PropagatesFailures (exampleRules env) := by
  intro ex recA recB path t vx vy r hrec h
  simp only [exampleRules, compareByKind] at h ⊢
  cases hvx : vx.val with
  | none => simp [hvx] at h
  | some x =>
    cases hvy : vy.val with
    | none => simp [hvx, hvy] at h
    | some y =>
      simp only [hvx, hvy] at h ⊢
      cases t with
      | named n => exact compareFields_mono recA recB hrec _ x y _ _ r h
      | slice e =>
        simp only at h ⊢
        split
        · rename_i hs
          simpa [hs] using h
        · rename_i hs
          simp only [hs, if_false] at h
          exact compareElems_mono recA recB hrec e _ _ _ r h
      | ptr e =>
        simp only at h ⊢
        split
        · rename_i hs
          simpa [hs] using h
        · rename_i hs
          simp only [hs, if_false] at h
          exact hrec _ _ _ _ r h
      | interface =>
        simp only at h ⊢
        split
        · rename_i dx dy
          simp only at h
          split
          · rename_i hs
            simpa [hs] using h
          · rename_i hs
            simp only [hs, if_false] at h
            exact hrec _ _ _ _ r h
        · rename_i hno
          split at h
          · rename_i dx dy
            exact (hno dx dy rfl rfl).elim
          · exact h
      | _ => exact h

/-- C9 (counterexample to the claim as stated): for `Person{Name: "A", Tags: nil}`
and `Person{Name: "A", Tags: []string{}}`, after one call of
`WithIgnoreEmptySlices()` `ObjectsEqual` returns true and `ObjectsDiff` the empty
string; after two calls the option list holds two emptiness options, both
transformers apply at the `Tags` field, and both operations fail with the
engine's ambiguity panic. -/
theorem C9_second_call_changes_outcome :
    ∃ h1 h2,
      WithIgnoreEmptySlices (newComparer emptyHeap []).1 (newComparer emptyHeap []).2 =
        .returned (h1, 0) ∧
      (WithIgnoreEmptySlices (newComparer emptyHeap []).1 (newComparer emptyHeap []).2).bind
        (fun c => WithIgnoreEmptySlices c.1 c.2) = .returned (h2, 0) ∧
      h1.optsOf 0 = some [SlicesCompareOption] ∧
      h2.optsOf 0 = some [SlicesCompareOption, SlicesCompareOption] ∧
      (ObjectsEqual (goCmp (exampleRules personEnv) 5) h1 0 personNilTags personEmptyTags).result =
        .returned true ∧
      (ObjectsEqual (goCmp (exampleRules personEnv) 5) h2 0 personNilTags personEmptyTags).result =
        .panicked "ambiguous set of applicable options" ∧
      (ObjectsDiff (goCmp (exampleRules personEnv) 5) h1 0 personNilTags personEmptyTags).result =
        .returned "" ∧
      (ObjectsDiff (goCmp (exampleRules personEnv) 5) h2 0 personNilTags personEmptyTags).result =
        .panicked "ambiguous set of applicable options" :=
  ⟨_, _, rfl, rfl, rfl, rfl, rfl, rfl, rfl, rfl⟩

/-- C9 (as amended): on a comparator made by `NewObjectsComparer(seed...)` from any
slice of options, one call of `WithIgnoreEmptySlices()` appends one emptiness
option and two calls append two.  With an engine whose rules by kind pass on failures, whenever
`ObjectsEqual(x, y)` returns a verdict after two calls it returns the same verdict
after one call, and whenever `ObjectsDiff(x, y)` returns the empty string after
two calls it does so after one call. -/
theorem C9_twice_refines_once (R : EngineRules) (hR : PropagatesFailures R) (fuel : Nat)
    (h : Heap) (s : Slice) (x y : Iface) (hs : h.ValidSlice s) :
    ∃ h1 h2,
      WithIgnoreEmptySlices (NewObjectsComparer h s).1 (NewObjectsComparer h s).2 =
        .returned (h1, (NewObjectsComparer h s).2) ∧
      (WithIgnoreEmptySlices (NewObjectsComparer h s).1 (NewObjectsComparer h s).2).bind
        (fun c => WithIgnoreEmptySlices c.1 c.2) = .returned (h2, (NewObjectsComparer h s).2) ∧
      h1.optsOf (NewObjectsComparer h s).2 = some (h.read s ++ [SlicesCompareOption]) ∧
      h2.optsOf (NewObjectsComparer h s).2 =
        some (h.read s ++ [SlicesCompareOption, SlicesCompareOption]) ∧
      (∀ v, (ObjectsEqual (goCmp R fuel) h2 (NewObjectsComparer h s).2 x y).result =
          .returned v →
        (ObjectsEqual (goCmp R fuel) h1 (NewObjectsComparer h s).2 x y).result =
          .returned v) ∧
      ((ObjectsDiff (goCmp R fuel) h2 (NewObjectsComparer h s).2 x y).result = .returned "" →
        (ObjectsDiff (goCmp R fuel) h1 (NewObjectsComparer h s).2 x y).result =
          .returned "") := by
  obtain ⟨h1, hr1, hl1⟩ := withIgnoreEmptySlices_fresh h s hs
  obtain ⟨h2, hr2, hl2⟩ := appendOption_twice _ _ _ SlicesCompareOption SlicesCompareOption
    (holds_of_new h s hs)
  refine ⟨h1, h2, hr1, hr2, optsOf_of_holds _ _ _ hl1, optsOf_of_holds _ _ _ hl2, ?_, ?_⟩
  · intro v hv
    rw [objectsEqual_of_holds _ h2 _ _ hl2] at hv
    rw [objectsEqual_of_holds _ h1 _ _ hl1]
    exact objectsEqual_once_of_twice R hR fuel x y (h.read s) v hv
  · exact objectsDiff_empty_once_of_twice R hR fuel h1 h2 _ (h.read s) x y hl1 hl2

/-- C9 (as amended) at a concrete input: two equal `Person` values, on which the
comparison returns true after two calls and hence after one. -/
theorem C9_twice_refines_once_witness :
    PropagatesFailures (exampleRules personEnv) ∧
    ∃ h1 h2,
      WithIgnoreEmptySlices (newComparer emptyHeap []).1 (newComparer emptyHeap []).2 =
        .returned (h1, 0) ∧
      (WithIgnoreEmptySlices (newComparer emptyHeap []).1 (newComparer emptyHeap []).2).bind
        (fun c => WithIgnoreEmptySlices c.1 c.2) = .returned (h2, 0) ∧
      (ObjectsEqual (goCmp (exampleRules personEnv) 5) h2 0 personNilTags personNilTags).result =
        .returned true ∧
      (ObjectsEqual (goCmp (exampleRules personEnv) 5) h1 0 personNilTags personNilTags).result =
        .returned true := by
  refine ⟨exampleRules_propagatesFailures personEnv, ?_⟩
  obtain ⟨h1, h2, c1, c2, _, l2, hE, _⟩ := C9_twice_refines_once (exampleRules personEnv)
    (exampleRules_propagatesFailures personEnv) 5 (emptyHeap.variadic []).1
    (emptyHeap.variadic []).2 personNilTags personNilTags (variadic_valid emptyHeap []).1
  have l2b : h2.optsOf 0 = some [SlicesCompareOption, SlicesCompareOption] := l2
  have t : (ObjectsEqual (goCmp (exampleRules personEnv) 5) h2 0 personNilTags
      personNilTags).result = .returned true := by
    rw [objectsEqual_of_optsOf _ h2 0 _ l2b]
    rfl
  exact ⟨h1, h2, c1, c2, t, hE true t⟩

/-! ## `ObjectsDiff` against `ObjectsEqual` -/

/-- C6 (counterexample to the claim as stated): on a comparator made by
`NewObjectsComparer` with an option that ignores every pair of values, for
`x = 1` and `y = "a"` (different runtime types) `ObjectsEqual` returns false
without calling the engine, while `ObjectsDiff` returns the empty string, as
the engine finds nothing to report. -/
theorem C6_empty_diff_without_equality :
    (ObjectsEqual (goCmp (exampleRules personEnv) 5) (newComparer emptyHeap [ignoreEverything]).1
      (newComparer emptyHeap [ignoreEverything]).2 (some (.int 1)) (some (.str "a"))) =
        ⟨[], .returned false⟩ ∧
    (ObjectsDiff (goCmp (exampleRules personEnv) 5) (newComparer emptyHeap [ignoreEverything]).1
      (newComparer emptyHeap [ignoreEverything]).2 (some (.int 1)) (some (.str "a"))).result =
        .returned "" :=
  ⟨rfl, rfl⟩

/-- C6 (as amended): with an engine whose `Diff` is empty exactly when its `Equal`
holds, `ObjectsDiff(x, y)` returns the empty string whenever `ObjectsEqual(x, y)`
returns true; for non-nil `x`, `y` of one runtime type it returns the empty string
if and only if `ObjectsEqual(x, y)` returns true; and for non-nil `x`, `y` of
different runtime types `ObjectsEqual` returns false while `ObjectsDiff` returns
what the engine's `Diff` returns for the same options. -/
theorem C6_diff_empty_iff_equal_same_type (L : CmpLib)
    (hL : ∀ x y opts, L.Diff x y opts = .returned "" ↔ L.Equal x y opts = .returned true)
    (h : Heap) (oc : Nat) (c : objectsComparer) (hoc : h.comparers[oc]? = some c) :
    (∀ x y, (ObjectsEqual L h oc x y).result = .returned true →
      (ObjectsDiff L h oc x y).result = .returned "") ∧
    (∀ vx vy : Value, vx.typeOf = vy.typeOf →
      ((ObjectsDiff L h oc (some vx) (some vy)).result = .returned "" ↔
        (ObjectsEqual L h oc (some vx) (some vy)).result = .returned true)) ∧
    (∀ vx vy : Value, vx.typeOf ≠ vy.typeOf →
      ObjectsEqual L h oc (some vx) (some vy) = ⟨[], .returned false⟩ ∧
      ObjectsDiff L h oc (some vx) (some vy) =
        ⟨[.Diff (some vx) (some vy) (h.read c.opts)],
          L.Diff (some vx) (some vy) (h.read c.opts)⟩) := by
  refine ⟨fun x y he => objectsDiff_of_equal L h oc c x y hoc he,
    fun vx vy ht => objectsDiff_same_type L hL h oc c vx vy hoc ht, fun vx vy ht => ⟨?_, ?_⟩⟩
  · simp only [ObjectsEqual, hoc]
    exact objectsEqual_type_mismatch L vx vy (h.read c.opts) ht
  · exact objectsDiff_type_mismatch L h oc c vx vy hoc ht

/-- C6 (as amended) at a concrete input: the modelled engine satisfies the
hypothesis, and for the two `Person` values on a comparator carrying the
emptiness option both sides of the equivalence hold. -/
theorem C6_diff_empty_iff_equal_same_type_witness :
    (∀ x y opts, (goCmp (exampleRules personEnv) 5).Diff x y opts = .returned "" ↔
      (goCmp (exampleRules personEnv) 5).Equal x y opts = .returned true) ∧
    (ObjectsDiff (goCmp (exampleRules personEnv) 5) (newComparer emptyHeap [SlicesCompareOption]).1
      0 personNilTags personEmptyTags).result = .returned "" ∧
    (ObjectsEqual (goCmp (exampleRules personEnv) 5) (newComparer emptyHeap [SlicesCompareOption]).1
      0 personNilTags personEmptyTags).result = .returned true :=
  ⟨fun x y opts => cmpDiff_empty_iff (exampleRules personEnv) 5 x y opts,
    ((C6_diff_empty_iff_equal_same_type (goCmp (exampleRules personEnv) 5)
      (fun x y opts => cmpDiff_empty_iff (exampleRules personEnv) 5 x y opts)
      (newComparer emptyHeap [SlicesCompareOption]).1 0 ⟨⟨0, 0, 1, 1⟩⟩ rfl).2.1
      (.struct (exampleType "Person") [.str "A", .zero (.slice .string)])
      (.struct (exampleType "Person") [.str "A", .slice .string []]) rfl).2 rfl, rfl⟩

/-! ## The value filter of `SlicesCompareOption` -/

/-- C18: the value filter of `SlicesCompareOption` is symmetric: it returns the
same result for `(x, y)` and for `(y, x)`. -/
theorem C18_slicesFilter_symmetric (x y : Iface) : slicesFilter x y = slicesFilter y x := by
  cases x with
  | none => cases y <;> rfl
  | some vx =>
    cases y with
    | none => rfl
    | some vy =>
      simp only [slicesFilter]
      cases vx.typeOf.kind == Kind.slice <;> cases vy.typeOf.kind == Kind.slice <;>
        cases vx.Len == 0 <;> cases vy.Len == 0 <;> cases vx.IsNil <;> cases vy.IsNil <;> rfl

theorem slicesFilter_iff (x y : Iface) :
    slicesFilter x y = true ↔
      ∃ vx vy, x = some vx ∧ y = some vy ∧ vx.typeOf.kind = .slice ∧ vy.typeOf.kind = .slice ∧
        vx.Len = 0 ∧ vy.Len = 0 ∧ vx.IsNil ≠ vy.IsNil := by
  cases x with
  | none => simp [slicesFilter]
  | some vx =>
    cases y with
    | none => simp [slicesFilter]
    | some vy =>
      simp only [slicesFilter, Bool.and_eq_true, beq_iff_eq, bne_iff_ne, Option.some.injEq]
      constructor
      · rintro ⟨⟨⟨⟨h1, h2⟩, h3⟩, h4⟩, h5⟩
        exact ⟨vx, vy, rfl, rfl, h1, h2, h3, h4, h5⟩
      · rintro ⟨wx, wy, rfl, rfl, h1, h2, h3, h4, h5⟩
        exact ⟨⟨⟨⟨h1, h2⟩, h3⟩, h4⟩, h5⟩

theorem slicesOption_not_applicable (R : EngineRules) (id : Nat) (tail : List Nat)
    (path : List (PathStep × GoType)) (vx vy : RValue)
    (hf : slicesFilter vx.toIface vy.toIface = false) :
    SlicesCompareOption.applicable R id tail path vx vy = none := by
  simp [SlicesCompareOption, CmpOption.applicable, hf]

theorem resolve_slicesOption_rejected (R : EngineRules) (pre : List CmpOption) (tail : List Nat)
    (path : List (PathStep × GoType)) (vx vy : RValue)
    (hf : slicesFilter vx.toIface vy.toIface = false) :
    resolve R (pre ++ [SlicesCompareOption]) tail path vx vy = resolve R pre tail path vx vy := by
  simp only [resolve, resolveFrom_append, resolveFrom,
    slicesOption_not_applicable R _ tail path vx vy hf, combine_none_right]

/-- C19: the value filter of `SlicesCompareOption` accepts `(x, y)` if and only if
both are non-nil interface values of slice kind and of length 0 and exactly one
of them is a nil slice.  It rejects a pair with a non-empty slice, a pair of nil
slices and a pair of empty non-nil slices; and at a node whose pair the filter
rejects, the option list ending with the emptiness option selects what the list
without it selects. -/
theorem C19_slicesFilter_accepts_exactly_nil_and_empty :
    (∀ x y : Iface, slicesFilter x y = true ↔
      ∃ vx vy, x = some vx ∧ y = some vy ∧ vx.typeOf.kind = .slice ∧ vy.typeOf.kind = .slice ∧
        vx.Len = 0 ∧ vy.Len = 0 ∧ vx.IsNil ≠ vy.IsNil) ∧
    (∀ (e : GoType) (a : Value) (as : List Value) (y : Iface),
      slicesFilter (some (.slice e (a :: as))) y = false ∧
      slicesFilter y (some (.slice e (a :: as))) = false) ∧
    (∀ e e2 : GoType, slicesFilter (some (.zero (.slice e))) (some (.zero (.slice e2))) = false) ∧
    (∀ e e2 : GoType, slicesFilter (some (.slice e [])) (some (.slice e2 [])) = false) ∧
    (∀ (R : EngineRules) (pre : List CmpOption) (tail : List Nat)
      (path : List (PathStep × GoType)) (vx vy : RValue),
      slicesFilter vx.toIface vy.toIface = false →
      resolve R (pre ++ [SlicesCompareOption]) tail path vx vy = resolve R pre tail path vx vy) := by
  refine ⟨slicesFilter_iff, ?_, ?_, ?_, resolve_slicesOption_rejected⟩
  · intro e a as y
    cases y with
    | none => exact ⟨rfl, rfl⟩
    | some vy => constructor <;> simp [slicesFilter, Value.Len]
  · intro e e2
    simp [slicesFilter, Value.IsNil]
  · intro e e2
    simp [slicesFilter, Value.IsNil]

/-- C19 at a concrete input: a pair of nil slices, which the filter rejects, at
the root of a comparison. -/
theorem C19_slicesFilter_accepts_exactly_nil_and_empty_witness :
    slicesFilter (RValue.toIface ⟨some (.zero (.slice .string)), true⟩)
      (RValue.toIface ⟨some (.zero (.slice .string)), true⟩) = false ∧
    resolve (exampleRules personEnv) ([] ++ [SlicesCompareOption]) [] [(.Root, .slice .string)]
      ⟨some (.zero (.slice .string)), true⟩ ⟨some (.zero (.slice .string)), true⟩ =
      resolve (exampleRules personEnv) [] [] [(.Root, .slice .string)]
        ⟨some (.zero (.slice .string)), true⟩ ⟨some (.zero (.slice .string)), true⟩ :=
  ⟨rfl, C19_slicesFilter_accepts_exactly_nil_and_empty.2.2.2.2 (exampleRules personEnv) [] []
    [(.Root, .slice .string)] ⟨some (.zero (.slice .string)), true⟩
    ⟨some (.zero (.slice .string)), true⟩ rfl⟩

/-! ## What one field queues -/

/-- C16: a pointer-to-struct field queues the zero value of the pointed-to struct
only when the field is exported; a direct struct field with at least one field
and a slice-of-pointer-to-struct field queue the zero value of the struct
whether the field is exported or not. -/
theorem C16_visibility_matters_for_pointers_only (env : TypeEnv) (name : String)
    (k : TypeName) (exported : Bool) :
    fieldChildren env ⟨name, .ptr (.named k), exported⟩ =
      (if exported then [some (.zero (.named k))] else []) ∧
    fieldChildren env ⟨name, .named k, exported⟩ =
      (if 0 < (env k).length then [some (.zero (.named k))] else []) ∧
    fieldChildren env ⟨name, .slice (.ptr (.named k)), exported⟩ = [some (.zero (.named k))] := by
  refine ⟨?_, ?_, ?_⟩
  · cases exported <;>
      simp [fieldChildren, reflectField, sliceStep, ptrStep, structStep, GoType.fields,
        reflectNewIndirect, FieldVal.Interface, Value.toInterface]
  · by_cases h : 0 < (env k).length <;>
      simp [fieldChildren, reflectField, sliceStep, ptrStep, structStep, GoType.fields,
        reflectNewIndirect, FieldVal.Interface, Value.toInterface, h]
  · simp [fieldChildren, reflectField, sliceStep, ptrStep, structStep, GoType.fields,
      reflectNewIndirect, FieldVal.Interface, Value.toInterface, GoType.kind]

theorem fieldChildren_plain (env : TypeEnv) (fld : Field) (h : PlainFieldType fld.typ) :
    fieldChildren env fld = [] := by
  obtain ⟨name, typ, exported⟩ := fld
  simp only at h
  rcases h with rfl | rfl | rfl | ⟨k, e, rfl⟩ | ⟨e, rfl, he⟩
  · rfl
  · rfl
  · rfl
  · rfl
  · cases e with
    | ptr e2 => simp [GoType.kind] at he
    | _ => rfl

theorem collectChildren_plain (env : TypeEnv) (fs : List Field)
    (h : ∀ fld ∈ fs, PlainFieldType fld.typ) : collectChildren env fs = [] := by
  induction fs with
  | nil => rfl
  | cons fld rest ih =>
    simp only [collectChildren, fieldChildren_plain env fld (h fld (List.mem_cons_self _ _)),
      List.nil_append]
    exact ih (fun f hf => h f (List.mem_cons_of_mem _ hf))

theorem walkMessages_succ (env : TypeEnv) (fuel : Nat) (src : List Iface) :
    walkMessages env (fuel + 1) src = walkLoop env (walkMessages env fuel) src := by
  cases src with
  | nil => rfl
  | cons m rest => rfl

theorem walkMessages_nil (env : TypeEnv) (fuel : Nat) : walkMessages env fuel [] = ⟨[], .returned⟩ := by
  cases fuel <;> rfl

theorem getStructItems_single_no_children (env : TypeEnv) (fuel : Nat) (v : Value) (n : TypeName)
    (hv : v.typeOf = .named n) (hc : collectChildren env (env n) = []) :
    getStructItemsRecursiveOf env (fuel + 1) [some v] = .returned [some v] := by
  have hf : v.typeOf.fields env = some (env n) := by rw [hv]; rfl
  have hw : walkMessages env (fuel + 1) [some v] = ⟨[some v], .returned⟩ := by
    rw [walkMessages_succ, walkLoop_cons_some env _ v [] (env n) hf, hc, walkMessages_nil]
    simp [walkLoop]
  unfold getStructItemsRecursiveOf findMessageWithUnexportedFields
  rw [hw]
  simp [dedupLoop]

/-- C12: for a seed struct all of whose fields are primitives, maps or slices
without pointer indirection, `getStructItemsRecursiveOf` returns exactly the
one-element list holding the seed: the struct types behind such fields are not
discovered. -/
theorem C12_plain_slices_and_maps_not_followed (env : TypeEnv) (fuel : Nat) (v : Value)
    (n : TypeName) (hv : v.typeOf = .named n) (h : ∀ fld ∈ env n, PlainFieldType fld.typ) :
    getStructItemsRecursiveOf env (fuel + 1) [some v] = .returned [some v] :=
  getStructItems_single_no_children env fuel v n hv (collectChildren_plain env (env n) h)

/-- C12 at a concrete input: `Store{}` holds `Item` in a slice and in two maps;
`Item` is not in the result. -/
theorem C12_plain_slices_and_maps_not_followed_witness :
    getStructItemsRecursiveOf storeEnv 1 [zeroOf "Store"] = .returned [zeroOf "Store"] :=
  C12_plain_slices_and_maps_not_followed storeEnv 0 (.zero (.named (exampleType "Store")))
    (exampleType "Store") rfl (by
      intro fld hfld
      have hs : storeEnv (exampleType "Store") =
          [⟨"Items", .slice (.named (exampleType "Item")), true⟩,
            ⟨"ByName", .map .string (.named (exampleType "Item")), true⟩,
            ⟨"ByID", .map .int (.ptr (.named (exampleType "Item"))), true⟩,
            ⟨"N", .int, true⟩] := rfl
      rw [hs] at hfld
      simp only [List.mem_cons, List.mem_singleton, List.not_mem_nil, or_false] at hfld
      rcases hfld with rfl | rfl | rfl | rfl
      · exact Or.inr (Or.inr (Or.inr (Or.inr ⟨_, rfl, by decide⟩)))
      · exact Or.inr (Or.inr (Or.inr (Or.inl ⟨_, _, rfl⟩)))
      · exact Or.inr (Or.inr (Or.inr (Or.inl ⟨_, _, rfl⟩)))
      · exact Or.inr (Or.inl rfl))

/-! ## The order of the walker's stream -/

/-- C15 (counterexample to the claim as stated): for the seeds `S1{}` (with a struct
field of type `C`) and `S2{}` the walker returns and its raw stream is
`S1, C, S2`, not `S1, S2, C`: the child of `S1` is sent before the second seed. -/
theorem C15_child_sent_before_next_seed :
    (walkMessages batchEnv 2 [zeroOf "S1", zeroOf "S2"]).status = .returned ∧
    (walkMessages batchEnv 2 [zeroOf "S1", zeroOf "S2"]).emitted =
      [zeroOf "S1", zeroOf "C", zeroOf "S2"] ∧
    (walkMessages batchEnv 2 [zeroOf "S1", zeroOf "S2"]).emitted.map itemType ≠
      [some (.named (exampleType "S1")), some (.named (exampleType "S2")),
        some (.named (exampleType "C"))] :=
  ⟨rfl, rfl, by decide⟩

theorem walkMessages_cons_struct (env : TypeEnv) (fuel : Nat) (v : Value) (n : TypeName)
    (rest : List Iface) (hv : v.typeOf = .named n)
    (hsub : (walkMessages env fuel (collectChildren env (env n))).status = .returned) :
    walkMessages env (fuel + 1) (some v :: rest) =
      ⟨some v :: (walkMessages env fuel (collectChildren env (env n))).emitted ++
          (walkMessages env (fuel + 1) rest).emitted,
        (walkMessages env (fuel + 1) rest).status⟩ := by
  have hf : v.typeOf.fields env = some (env n) := by rw [hv]; rfl
  rw [walkMessages_succ, walkLoop_cons_some env _ v rest (env n) hf, walkMessages_succ]
  simp only [hsub]

theorem walkMessages_cons_struct_stuck (env : TypeEnv) (fuel : Nat) (v : Value) (n : TypeName)
    (rest : List Iface) (hv : v.typeOf = .named n)
    (hsub : (walkMessages env fuel (collectChildren env (env n))).status ≠ .returned) :
    walkMessages env (fuel + 1) (some v :: rest) =
      ⟨some v :: (walkMessages env fuel (collectChildren env (env n))).emitted,
        (walkMessages env fuel (collectChildren env (env n))).status⟩ := by
  have hf : v.typeOf.fields env = some (env n) := by rw [hv]; rfl
  rw [walkMessages_succ, walkLoop_cons_some env _ v rest (env n) hf]
  cases hs : (walkMessages env fuel (collectChildren env (env n))).status with
  | returned => exact absurd hs hsub
  | panicked msg => rfl
  | outOfFuel => rfl

/-- C15 (as amended): the walker's traversal is depth-first, value by value: a
struct value of the batch is sent, its own direct children are collected and
walked with all their descendants, and only when that walk has returned the
rest of the batch is walked; the raw stream is the value, then the stream of its
children, then the stream of the rest of the batch. -/
theorem C15_depth_first_per_value (env : TypeEnv) (fuel : Nat) (v : Value) (n : TypeName)
    (rest : List Iface) (hv : v.typeOf = .named n)
    (hsub : (walkMessages env fuel (collectChildren env (env n))).status = .returned) :
    (walkMessages env (fuel + 1) (some v :: rest)).emitted =
      some v :: (walkMessages env fuel (collectChildren env (env n))).emitted ++
        (walkMessages env (fuel + 1) rest).emitted ∧
    (walkMessages env (fuel + 1) (some v :: rest)).status =
      (walkMessages env (fuel + 1) rest).status := by
  rw [walkMessages_cons_struct env fuel v n rest hv hsub]
  exact ⟨rfl, rfl⟩

/-- C15 (as amended) at a concrete input: the seeds `S1{}`, `S2{}`, whose stream is
`S1`, then the stream `C` of the children of `S1`, then the stream `S2` of the
rest. -/
theorem C15_depth_first_per_value_witness :
    (walkMessages batchEnv 1 (collectChildren batchEnv (batchEnv (exampleType "S1")))).status =
      .returned ∧
    (walkMessages batchEnv 2 [zeroOf "S1", zeroOf "S2"]).emitted =
      some (.zero (.named (exampleType "S1"))) ::
        (walkMessages batchEnv 1
          (collectChildren batchEnv (batchEnv (exampleType "S1")))).emitted ++
        (walkMessages batchEnv 2 [zeroOf "S2"]).emitted :=
  ⟨rfl, (C15_depth_first_per_value batchEnv 1 (.zero (.named (exampleType "S1")))
    (exampleType "S1") [zeroOf "S2"] rfl rfl).1⟩

/-! ## The items handed to the visibility-option builders -/

theorem fieldChildren_zero (env : TypeEnv) (fld : Field) :
    ∀ c ∈ fieldChildren env fld, ∃ t, c = (Value.zero t).toInterface := by
  intro c hc
  simp only [fieldChildren, List.mem_append] at hc
  rcases hc with h | h
  · unfold ptrStep at h
    split at h
    · split at h
      · simp only [List.mem_singleton] at h
        exact ⟨_, h⟩
      · simp at h
    · simp at h
  · unfold structStep at h
    split at h
    · split at h
      · simp only [List.mem_singleton] at h
        exact ⟨_, h⟩
      · simp at h
    · simp at h

theorem collectChildren_zero (env : TypeEnv) (fs : List Field) :
    ∀ c ∈ collectChildren env fs, ∃ t, c = (Value.zero t).toInterface := by
  induction fs with
  | nil => intro c hc; simp [collectChildren] at hc
  | cons fld rest ih =>
    intro c hc
    simp only [collectChildren, List.mem_append] at hc
    rcases hc with h | h
    · exact fieldChildren_zero env fld c h
    · exact ih c h

theorem zero_struct_of_child (c : Iface) (hz : ∃ t, c = (Value.zero t).toInterface)
    (hs : IsStructItem c) : ∃ k, c = some (.zero (.named k)) := by
  obtain ⟨t, rfl⟩ := hz
  obtain ⟨v, k, hv, hk⟩ := hs
  cases t with
  | interface => simp [Value.toInterface] at hv
  | named n => exact ⟨n, rfl⟩
  | _ =>
    simp only [Value.toInterface, Option.some.injEq] at hv
    subst hv
    simp [Value.typeOf] at hk

theorem walkLoop_items_origin (env : TypeEnv) (recur : List Iface → Run)
    (hitems : ∀ src, (recur src).status = .returned → ∀ i ∈ (recur src).emitted, IsStructItem i)
    (hrec : ∀ src, (recur src).status = .returned →
      ∀ i ∈ (recur src).emitted, i ∈ src ∨ ∃ k, i = some (.zero (.named k))) :
    ∀ src, (walkLoop env recur src).status = .returned →
      ∀ i ∈ (walkLoop env recur src).emitted, i ∈ src ∨ ∃ k, i = some (.zero (.named k)) := by
  intro src
  induction src with
  | nil => intro _ i hi; simp [walkLoop] at hi
  | cons m rest ih =>
    intro hst i hi
    cases m with
    | none => simp [walkLoop] at hst
    | some v =>
      cases hf : v.typeOf.fields env with
      | none => simp [walkLoop, hf] at hst
      | some fs =>
        rw [walkLoop_cons_some env recur v rest fs hf] at hst hi
        cases hs : (recur (collectChildren env fs)).status with
        | returned =>
          simp only [hs] at hst hi
          simp only [List.cons_append, List.mem_cons, List.mem_append] at hi
          rcases hi with h | h | h
          · exact Or.inl (by rw [h]; exact List.mem_cons_self _ _)
          · right
            rcases hrec _ hs i h with h2 | h2
            · exact zero_struct_of_child i (collectChildren_zero env fs i h2) (hitems _ hs i h)
            · exact h2
          · rcases ih hst i h with h2 | h2
            · exact Or.inl (List.mem_cons_of_mem _ h2)
            · exact Or.inr h2
        | panicked msg => simp [hs] at hst
        | outOfFuel => simp [hs] at hst

theorem walkMessages_items_origin (env : TypeEnv) :
    ∀ fuel src, (walkMessages env fuel src).status = .returned →
      ∀ i ∈ (walkMessages env fuel src).emitted, i ∈ src ∨ ∃ k, i = some (.zero (.named k)) := by
  intro fuel
  induction fuel with
  | zero =>
    intro src hst i hi
    cases src with
    | nil => simp [walkMessages] at hi
    | cons m rest => simp [walkMessages] at hst
  | succ n ih =>
    intro src hst i hi
    rw [walkMessages_succ] at hst hi
    exact walkLoop_items_origin env _ (walkMessages_returned_items env n) ih src hst i hi

theorem walker_returned_of_result (env : TypeEnv) (fuel : Nat) (seeds items : List Iface)
    (h : getStructItemsRecursiveOf env fuel seeds = .returned items) :
    (walkMessages env fuel seeds).status = .returned := by
  unfold getStructItemsRecursiveOf findMessageWithUnexportedFields at h
  cases hs : (walkMessages env fuel seeds).status with
  | returned => rfl
  | panicked msg => simp [hs] at h
  | outOfFuel => simp [hs] at h

theorem all_isStructValue (items : List Iface) (h : ∀ i ∈ items, IsStructItem i) :
    items.all isStructValue = true := by
  rw [List.all_eq_true]
  intro i hi
  obtain ⟨v, n, rfl, hv⟩ := h i hi
  simp [isStructValue, hv, GoType.kind]

/-- C17: whenever `getStructItemsRecursiveOf` returns a result, every item of the
result is a (non-pointer) struct value, and every item is a seed or the zero
value of a struct type; hence `cmpopts.IgnoreUnexported` and
`cmp.AllowUnexported` accept the result, and `BuildIgnoreUnexported` and
`BuildAllowUnexported` return the option over exactly these items. -/
theorem C17_result_items_are_structs (env : TypeEnv) (fuel : Nat) (seeds items : List Iface)
    (hseeds : ∀ s ∈ seeds, IsStructItem s)
    (h : getStructItemsRecursiveOf env fuel seeds = .returned items) :
    (∀ i ∈ items, IsStructItem i) ∧
    (∀ i ∈ items, i ∈ seeds ∨ ∃ k, i = some (.zero (.named k))) ∧
    BuildIgnoreUnexported env fuel seeds = .returned (.IgnoreUnexported items) ∧
    BuildAllowUnexported env fuel seeds = .returned (.AllowUnexported items) := by
  have _ := hseeds
  have hret := walker_returned_of_result env fuel seeds items h
  obtain ⟨items2, hres, _, _, _, hsub, _, _⟩ := getStructItems_of_returned env fuel seeds hret
  rw [h] at hres
  simp only [Outcome.returned.injEq] at hres
  subst hres
  have h1 : ∀ i ∈ items, IsStructItem i := fun i hi =>
    walkMessages_returned_items env fuel seeds hret i (hsub.subset hi)
  refine ⟨h1, fun i hi => walkMessages_items_origin env fuel seeds hret i (hsub.subset hi), ?_, ?_⟩
  · simp [BuildIgnoreUnexported, h, Outcome.bind, cmpoptsIgnoreUnexported,
      all_isStructValue items h1]
  · simp [BuildAllowUnexported, h, Outcome.bind, cmpAllowUnexported,
      all_isStructValue items h1]

/-- C17 at a concrete input: the seeds `S1{}`, `S2{}` of the example program. -/
theorem C17_result_items_are_structs_witness :
    getStructItemsRecursiveOf demoEnv 3 [zeroOf "S1", zeroOf "S2"] =
      .returned [zeroOf "S1", zeroOf "C", zeroOf "D", zeroOf "S2"] ∧
    BuildIgnoreUnexported demoEnv 3 [zeroOf "S1", zeroOf "S2"] =
      .returned (.IgnoreUnexported [zeroOf "S1", zeroOf "C", zeroOf "D", zeroOf "S2"]) :=
  ⟨rfl, (C17_result_items_are_structs demoEnv 3 [zeroOf "S1", zeroOf "S2"]
    [zeroOf "S1", zeroOf "C", zeroOf "D", zeroOf "S2"]
    (by
      intro s hs
      simp only [List.mem_cons, List.mem_singleton, List.not_mem_nil, or_false] at hs
      rcases hs with rfl | rfl
      · exact ⟨_, _, rfl, rfl⟩
      · exact ⟨_, _, rfl, rfl⟩)
    rfl).2.2.1⟩

/-! ## Seeds and fields the walker does not handle -/

/-- C11 (counterexample to the claim as stated): in the acyclic example program the
struct seed `S1{}` is walked to the end, while for the pointer seed `&S1{}` the
walker sends the seed and then fails in `NumField`, so
`getStructItemsRecursiveOf`, `BuildIgnoreUnexported` and `WithIgnoreUnexportedOf`
do not return. -/
theorem C11_pointer_seed_fails :
    getStructItemsRecursiveOf demoEnv 3 [zeroOf "S1"] =
      .returned [zeroOf "S1", zeroOf "C", zeroOf "D"] ∧
    walkMessages demoEnv 3 [pointerSeed] =
      ⟨[pointerSeed], .panicked "reflect: NumField of non-struct type"⟩ ∧
    getStructItemsRecursiveOf demoEnv 3 [pointerSeed] =
      .panicked "reflect: NumField of non-struct type" ∧
    BuildIgnoreUnexported demoEnv 3 [pointerSeed] =
      .panicked "reflect: NumField of non-struct type" ∧
    WithIgnoreUnexportedOf demoEnv 3 (newComparer emptyHeap []).1 (newComparer emptyHeap []).2
      [pointerSeed] = .panicked "reflect: NumField of non-struct type" :=
  ⟨rfl, rfl, rfl, rfl, rfl⟩

theorem walkMessages_pointer_first (env : TypeEnv) (fuel : Nat) (p : Value) (t : GoType)
    (rest : List Iface) (hp : p.typeOf = .ptr t) :
    walkMessages env (fuel + 1) (some p :: rest) =
      ⟨[some p], .panicked "reflect: NumField of non-struct type"⟩ := by
  rw [walkMessages_succ]
  simp [walkLoop, hp, GoType.fields]

theorem getStructItems_pointer_first (env : TypeEnv) (fuel : Nat) (p : Value) (t : GoType)
    (rest : List Iface) (hp : p.typeOf = .ptr t) :
    getStructItemsRecursiveOf env (fuel + 1) (some p :: rest) =
      .panicked "reflect: NumField of non-struct type" := by
  unfold getStructItemsRecursiveOf findMessageWithUnexportedFields
  rw [walkMessages_pointer_first env fuel p t rest hp]

theorem getStructItems_returns (env : TypeEnv) (seeds : List Iface)
    (rank : TypeName → Nat) (fuel : Nat)
    (hseeds : ∀ s ∈ seeds, IsStructItem s)
    (hacyclic : ∀ n k, (∃ s ∈ seeds, ReachFrom env Follows s n) → Edge env Follows n k →
      rank k < rank n)
    (hfuel : ∀ s ∈ seeds, ∀ n, itemType s = some (.named n) → rank n < fuel)
    (hptr : ∀ n, (∃ s ∈ seeds, ReachFrom env Follows s n) → PointersToStructs env n) :
    ∃ items, getStructItemsRecursiveOf env fuel seeds = .returned items := by
  have hbelow : SeedsBelow (fun n => ∃ s ∈ seeds, ReachFrom env Follows s n) rank fuel seeds := by
    intro s hs
    obtain ⟨v, n, rfl, hv⟩ := hseeds s hs
    exact ⟨v, n, rfl, hv, ⟨some v, hs, v, n, rfl, hv, Relation.ReflTransGen.refl⟩,
      hfuel _ hs n (by simp [itemType, hv])⟩
  obtain ⟨hret, _, _⟩ := walkMessages_sendsReachable env rank _
    (fun n k hn he => reachFrom_step env seeds n k hn he) hacyclic hptr fuel seeds hbelow
  obtain ⟨items, hres, _⟩ := getStructItems_of_returned env fuel seeds hret
  exact ⟨items, hres⟩

/-- C11 (as amended): for struct seeds whose followed type graph is acyclic (and
whose exported pointer fields point to structs) `getStructItemsRecursiveOf`
completes without a run-time failure; a seed that is a pointer (to a struct or
to anything else) is not accepted: when it is the first seed, the walker sends
it and fails in `NumField`, and so do `BuildIgnoreUnexported`,
`BuildAllowUnexported`, `WithIgnoreUnexportedOf` and `WithAllowUnexportedOf`. -/
theorem C11_struct_seeds_complete_pointer_seeds_fail (env : TypeEnv) (seeds : List Iface)
    (rank : TypeName → Nat) (fuel : Nat)
    (hseeds : ∀ s ∈ seeds, IsStructItem s)
    (hacyclic : ∀ n k, (∃ s ∈ seeds, ReachFrom env Follows s n) → Edge env Follows n k →
      rank k < rank n)
    (hfuel : ∀ s ∈ seeds, ∀ n, itemType s = some (.named n) → rank n < fuel)
    (hptr : ∀ n, (∃ s ∈ seeds, ReachFrom env Follows s n) → PointersToStructs env n) :
    (∃ items, getStructItemsRecursiveOf env fuel seeds = .returned items) ∧
    (∀ (p : Value) (t : GoType) (rest : List Iface) (f : Nat) (h : Heap) (oc : Nat),
      p.typeOf = .ptr t →
      getStructItemsRecursiveOf env (f + 1) (some p :: rest) =
        .panicked "reflect: NumField of non-struct type" ∧
      BuildIgnoreUnexported env (f + 1) (some p :: rest) =
        .panicked "reflect: NumField of non-struct type" ∧
      BuildAllowUnexported env (f + 1) (some p :: rest) =
        .panicked "reflect: NumField of non-struct type" ∧
      WithIgnoreUnexportedOf env (f + 1) h oc (some p :: rest) =
        .panicked "reflect: NumField of non-struct type" ∧
      WithAllowUnexportedOf env (f + 1) h oc (some p :: rest) =
        .panicked "reflect: NumField of non-struct type") := by
  refine ⟨getStructItems_returns env seeds rank fuel hseeds hacyclic hfuel hptr, ?_⟩
  intro p t rest f h oc hp
  have hg := getStructItems_pointer_first env f p t rest hp
  refine ⟨hg, ?_, ?_, ?_, ?_⟩ <;>
    simp [BuildIgnoreUnexported, BuildAllowUnexported, WithIgnoreUnexportedOf,
      WithAllowUnexportedOf, hg, Outcome.bind]

/-- C11 (as amended) at a concrete input: the struct seeds `S1{}`, `S2{}` of the
example program. -/
theorem C11_struct_seeds_complete_pointer_seeds_fail_witness :
    ∃ items, getStructItemsRecursiveOf demoEnv 3 [zeroOf "S1", zeroOf "S2"] = .returned items :=
  (C11_struct_seeds_complete_pointer_seeds_fail demoEnv [zeroOf "S1", zeroOf "S2"] demoRank 3
    (by
      intro s hs
      simp only [List.mem_cons, List.mem_singleton, List.not_mem_nil, or_false] at hs
      rcases hs with rfl | rfl
      · exact ⟨_, _, rfl, rfl⟩
      · exact ⟨_, _, rfl, rfl⟩)
    (by
      intro n k _ he
      rcases demoEnv_edge n k he with ⟨rfl, rfl | rfl⟩ | ⟨rfl, rfl⟩ <;> decide)
    (by
      intro s hs n hn
      simp only [List.mem_cons, List.mem_singleton, List.not_mem_nil, or_false] at hs
      rcases hs with rfl | rfl
      · simp only [zeroOf, itemType, Option.map_some', Value.typeOf, Option.some.injEq,
          GoType.named.injEq] at hn
        subst hn; decide
      · simp only [zeroOf, itemType, Option.map_some', Value.typeOf, Option.some.injEq,
          GoType.named.injEq] at hn
        subst hn; decide)
    (fun n _ => demoEnv_pointers n)).1

/-- C13 (code at the failing input): `alpha/v1.T` and `beta/v1.T` are distinct
struct types that both print as `v1.T`; the walker sends both seeds, and
`getStructItemsRecursiveOf` keeps the first and drops the second, because the
key of its filter is the printed name. -/
theorem C13_same_name_types_merged :
    GoType.named alphaT ≠ GoType.named betaT ∧
    (GoType.named alphaT).String = (GoType.named betaT).String ∧
    walkMessages versionsEnv 2 [some (.zero (.named alphaT)), some (.zero (.named betaT))] =
      ⟨[some (.zero (.named alphaT)), some (.zero (.named betaT))], .returned⟩ ∧
    getStructItemsRecursiveOf versionsEnv 2
      [some (.zero (.named alphaT)), some (.zero (.named betaT))] =
        .returned [some (.zero (.named alphaT))] :=
  ⟨by decide, by decide, rfl, rfl⟩

/-- C14 (code at the failing input): for `type Counter struct { N *int }` the
exported field of type pointer-to-`int` queues the child `int(0)` (an exported
pointer field queues the zero value of its element type, whatever that type is);
the walker sends `Counter{}`, then the child, and fails in `NumField`.  Fields that are
primitives, maps or slices without pointer indirection, slices of pointers to
non-structs, unexported pointers and structs without fields queue nothing. -/
theorem C14_pointer_to_non_struct_is_queued :
    fieldChildren counterEnv ⟨"N", .ptr .int, true⟩ = [some (.zero .int)] ∧
    (∀ (env : TypeEnv) (name : String) (e : GoType),
      fieldChildren env ⟨name, .ptr e, true⟩ = [(Value.zero e).toInterface]) ∧
    walkMessages counterEnv 2 [zeroOf "Counter"] =
      ⟨[zeroOf "Counter", some (.zero .int)], .panicked "reflect: NumField of non-struct type"⟩ ∧
    getStructItemsRecursiveOf counterEnv 2 [zeroOf "Counter"] =
      .panicked "reflect: NumField of non-struct type" ∧
    (∀ (env : TypeEnv) (fld : Field), PlainFieldType fld.typ → fieldChildren env fld = []) ∧
    (∀ (env : TypeEnv) (name : String) (e : GoType) (exported : Bool), e.kind ≠ .struct →
      fieldChildren env ⟨name, .slice (.ptr e), exported⟩ = []) ∧
    (∀ (env : TypeEnv) (name : String) (e : GoType),
      fieldChildren env ⟨name, .ptr e, false⟩ = []) ∧
    (∀ (env : TypeEnv) (name : String) (k : TypeName) (exported : Bool), env k = [] →
      fieldChildren env ⟨name, .named k, exported⟩ = []) := by
  refine ⟨rfl, ?_, rfl, rfl, fieldChildren_plain, ?_, ?_, ?_⟩
  · intro env name e
    simp [fieldChildren, reflectField, sliceStep, ptrStep, structStep, GoType.fields,
      reflectNewIndirect, FieldVal.Interface]
  · intro env name e exported he
    simp [fieldChildren, reflectField, sliceStep, ptrStep, structStep, GoType.fields, he]
  · intro env name e
    simp [fieldChildren, reflectField, sliceStep, ptrStep, structStep, GoType.fields]
  · intro env name k exported hk
    simp [fieldChildren, reflectField, sliceStep, ptrStep, structStep, GoType.fields, hk]

end Comparer
